import Mathlib

/-!
# uDPU client agent: a shallow embedding of the store, the job engine and start-up

The Go program keeps its state in package-level variables, calls out to the
file system, the network, a shell and a cron scheduler, and logs.  The
embedding makes the package-level state one record (`World`), turns every
function that touches it into a function on `World`, and records each call to
an outside collaborator as an `Effect` appended to `World.trace`.  A `go f(x)`
statement is recorded as `Effect.go` carrying the task; what the task does when
it runs is a definition of its own.  Log lines are not part of the model.

Go strings are modelled as Lean strings (sequences of Unicode scalar values)
and Go maps as finite maps keyed by strings.
-/

namespace Udpu

/-! ## Go values -/

/-- Values of Go's empty interface type, as far as this program stores them in
its field maps: the nil interface, strings, booleans and integers. -/
inductive Any where
  | nil
  | str (s : String)
  | bool (b : Bool)
  | int (i : Int)
  deriving DecidableEq, Repr

/-- Go's `fmt.Sprint` on a single dynamic value. -/
def Sprint : Any → String
  | .nil => "<nil>"
  | .str s => s
  | .bool b => if b then "true" else "false"
  | .int i => toString i

/-- The type assertion `v.(string)`: the string and `ok`, or no string. -/
def Any.asString : Any → Option String
  | .str s => some s
  | _ => none

/-- A Go map with string keys.  Iteration order is unspecified in Go; a nil map
reads like the empty map. -/
abbrev GoMap (α : Type) := Finmap (fun _ : String => α)

/-- A map literal, later entries for the same key being dropped. -/
def GoMap.ofList {α : Type} (l : List (String × α)) : GoMap α :=
  List.toFinmap (l.map fun kv => (⟨kv.1, kv.2⟩ : Sigma fun _ : String => α))

/-- Field maps, Go's `map[string]interface{}`. -/
abbrev FieldMap := GoMap Any

/-- The expression `m[key].(string)` on a field map (a missing key yields the
nil interface, on which the assertion fails). -/
def FieldMap.getString (m : FieldMap) (key : String) : Option String :=
  match m.lookup key with
  | some v => v.asString
  | none => none

/-- Decision procedure for the order of strings that reduces by unfolding:
the order is the lexicographic order of the character lists. -/
def keyLEDec (a b : String) : Decidable (a ≤ b) :=
  decidable_of_iff (a.toList ≤ b.toList) String.le_iff_toList_le.symm

/-- Entries compared by key. -/
def entryLE {α : Type} (x y : Sigma fun _ : String => α) : Prop := x.1 ≤ y.1

instance entryLEDec {α : Type} : DecidableRel (@entryLE α) := fun x y => keyLEDec x.1 y.1

instance entryLE_total {α : Type} : IsTotal (Sigma fun _ : String => α) entryLE :=
  ⟨fun x y => le_total x.1 y.1⟩

instance entryLE_trans {α : Type} : IsTrans (Sigma fun _ : String => α) entryLE :=
  ⟨fun _ _ _ h₁ h₂ => le_trans h₁ h₂⟩

/-- Entries in strictly ascending key order. -/
def entryLT {α : Type} (x y : Sigma fun _ : String => α) : Prop := x.1 < y.1

instance entryLT_antisymm {α : Type} : IsAntisymm (Sigma fun _ : String => α) entryLT :=
  ⟨fun _ _ h₁ h₂ => absurd h₂ (lt_asymm h₁)⟩

/-- Key-sorted entries of an association list. -/
def sortEntries {α : Type} (l : List (Sigma fun _ : String => α)) :
    List (Sigma fun _ : String => α) :=
  List.insertionSort entryLE l

/-- The entries of a map in ascending key order: the order in which
`encoding/json` writes a map, and the representative used here for a
`for ... range` loop over the map. -/
def GoMap.toList {α : Type} (m : GoMap α) : List (String × α) :=
  (Finmap.liftOn m (fun a => sortEntries a.entries) (by
    intro a b hab
    have strict : ∀ c : AList (fun _ : String => α),
        List.Sorted entryLT (sortEntries c.entries) := by
      intro c
      have hs : List.Sorted entryLE (sortEntries c.entries) :=
        List.sorted_insertionSort entryLE c.entries
      have hp : (sortEntries c.entries).Perm c.entries :=
        List.perm_insertionSort entryLE c.entries
      have hn : (sortEntries c.entries).NodupKeys :=
        (List.perm_nodupKeys hp).2 c.nodupKeys
      have hne := List.nodupKeys_iff_pairwise.1 hn
      exact (List.Pairwise.and hs hne).imp (fun h => lt_of_le_of_ne h.1 h.2)
    have hp : (sortEntries a.entries).Perm (sortEntries b.entries) :=
      ((List.perm_insertionSort entryLE a.entries).trans hab).trans
        (List.perm_insertionSort entryLE b.entries).symm
    exact List.eq_of_perm_of_sorted hp (strict a) (strict b))).map fun e => (e.1, e.2)

/-! ## JSON documents -/

/-- JSON values.  A document on disk or on the wire is modelled as the value it
denotes; object members keep their textual order and may repeat a key. -/
inductive JSON where
  | null
  | bool (b : Bool)
  | num (lit : String)
  | str (s : String)
  | arr (items : List JSON)
  | obj (members : List (String × JSON))
  deriving Repr

/-- The word `encoding/json` uses for a JSON value in a type error. -/
def JSON.kind : JSON → String
  | .null => "null"
  | .bool _ => "bool"
  | .num _ => "number"
  | .str _ => "string"
  | .arr _ => "array"
  | .obj _ => "object"

/-- Go `error` values that the model distinguishes. -/
inductive Error where
  | notExist (path : String)
  | jsonSyntax
  | jsonUnknownField (key : String)
  | jsonType (value : String)
  | message (text : String)
  deriving DecidableEq, Repr

/-- The decoder's `saveError`: the first error is kept, decoding goes on. -/
def saveError (saved new : Option Error) : Option Error :=
  match saved with
  | some e => some e
  | none => new

/-- Case folding of one character as `encoding/json` applies it to object keys.
ASCII letters fold to upper case, and the Kelvin sign and the long s fold to
`K` and `S`; every other character folds to a non-ASCII character and is left
as it is here, which gives the same comparisons against ASCII field names. -/
def foldRune (c : Char) : Char :=
  if 'a' ≤ c ∧ c ≤ 'z' then Char.ofNat (c.toNat - 32)
  else if c = Char.ofNat 0x212A then 'K'
  else if c = Char.ofNat 0x17F then 'S'
  else c

/-- Folded form of an object key (`foldName` of `encoding/json`). -/
def foldName (s : String) : String := String.mk (s.data.map foldRune)

/-- Field lookup of the struct decoder: the field with exactly this JSON name,
or else the field whose name is equal to the key under case folding. -/
def findField (fields : List String) (key : String) : Option String :=
  match fields.find? (fun f => f == key) with
  | some f => some f
  | none => fields.find? (fun f => foldName f == foldName key)

/-- Decoding a JSON value into a Go string variable holding `cur`: a string is
stored, `null` leaves the variable alone, anything else is a type error. -/
def decodeString (v : JSON) (cur : String) : String × Option Error :=
  match v with
  | .str s => (s, none)
  | .null => (cur, none)
  | other => (cur, some (.jsonType other.kind))

/-! ## The store: `database` package -/

/-- Client stores client-related metadata. -/
structure Client where
  Name : String := ""
  ClientFrequency : String := ""
  BootStatus : String := ""
  UdpuUpstreamQoS : String := ""
  UdpuDownstreamQoS : String := ""
  UdpuHostname : String := ""
  UdpuLocation : String := ""
  UdpuRole : String := ""
  UdpuSecretKey : String := ""
  deriving DecidableEq, Repr

/-- Job represents a scheduled or ad-hoc task description. -/
structure Job where
  Name : String := ""
  Command : String := ""
  Frequency : String := ""
  Locked : String := ""
  RequireOutput : String := ""
  RequiredSoftware : String := ""
  JobType : String := ""
  VbuserID : String := ""
  deriving DecidableEq, Repr

/-- Queue represents a queue configuration record.  The Go field `Queue` (JSON
name `queue`) is called `QueueJobs` here, the structure having that name. -/
structure Queue where
  Name : String := ""
  Description : String := ""
  QueueJobs : String := ""
  Role : String := ""
  RequireOutput : String := ""
  Frequency : String := ""
  Locked : String := ""
  deriving DecidableEq, Repr

/-- The struct `configFile`, which mirrors the on-disk JSON structure.  Its two
maps are never nil here: `ensureMaps` runs in `loadOrInit` and before every
write, so the store the rest of the program sees has (possibly empty) maps. -/
structure configFile where
  Client : Client := {}
  Jobs : GoMap Job := ∅
  Queues : GoMap Queue := ∅
  deriving DecidableEq

/-- JSON names of the fields of `Client`, in declaration order. -/
def clientFields : List String :=
  ["name", "client_frequency", "boot_status", "udpu_upstream_qos", "udpu_downstream_qos",
   "udpu_hostname", "udpu_location", "udpu_role", "udpu_secret_key"]

/-- JSON names of the fields of `Job`, in declaration order. -/
def jobFields : List String :=
  ["name", "command", "frequency", "locked", "require_output", "required_software",
   "job_type", "vbuser_id"]

/-- JSON names of the fields of `Queue`, in declaration order. -/
def queueFields : List String :=
  ["name", "description", "queue", "role", "require_output", "frequency", "locked"]

/-- JSON names of the fields of `configFile`, in declaration order. -/
def configFields : List String := ["client", "jobs", "queues"]

/-- The field of a `Client` with the given JSON name. -/
def Client.getField (c : Client) (field : String) : String :=
  if field = "name" then c.Name
  else if field = "client_frequency" then c.ClientFrequency
  else if field = "boot_status" then c.BootStatus
  else if field = "udpu_upstream_qos" then c.UdpuUpstreamQoS
  else if field = "udpu_downstream_qos" then c.UdpuDownstreamQoS
  else if field = "udpu_hostname" then c.UdpuHostname
  else if field = "udpu_location" then c.UdpuLocation
  else if field = "udpu_role" then c.UdpuRole
  else if field = "udpu_secret_key" then c.UdpuSecretKey
  else ""

/-- Assignment to the field of a `Client` with the given JSON name. -/
def Client.setField (c : Client) (field : String) (s : String) : Client :=
  if field = "name" then { c with Name := s }
  else if field = "client_frequency" then { c with ClientFrequency := s }
  else if field = "boot_status" then { c with BootStatus := s }
  else if field = "udpu_upstream_qos" then { c with UdpuUpstreamQoS := s }
  else if field = "udpu_downstream_qos" then { c with UdpuDownstreamQoS := s }
  else if field = "udpu_hostname" then { c with UdpuHostname := s }
  else if field = "udpu_location" then { c with UdpuLocation := s }
  else if field = "udpu_role" then { c with UdpuRole := s }
  else if field = "udpu_secret_key" then { c with UdpuSecretKey := s }
  else c

/-- The field of a `Job` with the given JSON name. -/
def Job.getField (j : Job) (field : String) : String :=
  if field = "name" then j.Name
  else if field = "command" then j.Command
  else if field = "frequency" then j.Frequency
  else if field = "locked" then j.Locked
  else if field = "require_output" then j.RequireOutput
  else if field = "required_software" then j.RequiredSoftware
  else if field = "job_type" then j.JobType
  else if field = "vbuser_id" then j.VbuserID
  else ""

/-- Assignment to the field of a `Job` with the given JSON name. -/
def Job.setField (j : Job) (field : String) (s : String) : Job :=
  if field = "name" then { j with Name := s }
  else if field = "command" then { j with Command := s }
  else if field = "frequency" then { j with Frequency := s }
  else if field = "locked" then { j with Locked := s }
  else if field = "require_output" then { j with RequireOutput := s }
  else if field = "required_software" then { j with RequiredSoftware := s }
  else if field = "job_type" then { j with JobType := s }
  else if field = "vbuser_id" then { j with VbuserID := s }
  else j

/-- The field of a `Queue` with the given JSON name. -/
def Queue.getField (q : Queue) (field : String) : String :=
  if field = "name" then q.Name
  else if field = "description" then q.Description
  else if field = "queue" then q.QueueJobs
  else if field = "role" then q.Role
  else if field = "require_output" then q.RequireOutput
  else if field = "frequency" then q.Frequency
  else if field = "locked" then q.Locked
  else ""

/-- Assignment to the field of a `Queue` with the given JSON name. -/
def Queue.setField (q : Queue) (field : String) (s : String) : Queue :=
  if field = "name" then { q with Name := s }
  else if field = "description" then { q with Description := s }
  else if field = "queue" then { q with QueueJobs := s }
  else if field = "role" then { q with Role := s }
  else if field = "require_output" then { q with RequireOutput := s }
  else if field = "frequency" then { q with Frequency := s }
  else if field = "locked" then { q with Locked := s }
  else q

/-- JSON encoding of a `Client`: every field, in declaration order, as a string. -/
def Client.toJSON (c : Client) : JSON :=
  .obj (clientFields.map fun f => (f, .str (c.getField f)))

/-- JSON encoding of a `Job`. -/
def Job.toJSON (j : Job) : JSON :=
  .obj (jobFields.map fun f => (f, .str (j.getField f)))

/-- JSON encoding of a `Queue`. -/
def Queue.toJSON (q : Queue) : JSON :=
  .obj (queueFields.map fun f => (f, .str (q.getField f)))

/-- JSON encoding of the store: the three sections, maps with sorted keys. -/
def configFile.toJSON (c : configFile) : JSON :=
  .obj [("client", c.Client.toJSON),
        ("jobs", .obj (c.Jobs.toList.map fun kv => (kv.1, kv.2.toJSON))),
        ("queues", .obj (c.Queues.toList.map fun kv => (kv.1, kv.2.toJSON)))]

/-- One member of a JSON object decoded into a `Client`, with unknown fields
disallowed. -/
def decodeClientMember (st : Client × Option Error) (kv : String × JSON) :
    Client × Option Error :=
  match findField clientFields kv.1 with
  | none => (st.1, saveError st.2 (some (.jsonUnknownField kv.1)))
  | some f =>
    let r := decodeString kv.2 (st.1.getField f)
    (st.1.setField f r.1, saveError st.2 r.2)

/-- Strict decoding of a JSON value into a `Client` variable holding `cur`. -/
def decodeClient (v : JSON) (cur : Client) : Client × Option Error :=
  match v with
  | .obj ms => ms.foldl decodeClientMember (cur, none)
  | .null => (cur, none)
  | other => (cur, some (.jsonType other.kind))

/-- One member of a JSON object decoded into a `Job`. -/
def decodeJobMember (st : Job × Option Error) (kv : String × JSON) : Job × Option Error :=
  match findField jobFields kv.1 with
  | none => (st.1, saveError st.2 (some (.jsonUnknownField kv.1)))
  | some f =>
    let r := decodeString kv.2 (st.1.getField f)
    (st.1.setField f r.1, saveError st.2 r.2)

/-- Strict decoding of a JSON value into a `Job` variable holding `cur`. -/
def decodeJob (v : JSON) (cur : Job) : Job × Option Error :=
  match v with
  | .obj ms => ms.foldl decodeJobMember (cur, none)
  | .null => (cur, none)
  | other => (cur, some (.jsonType other.kind))

/-- One member of a JSON object decoded into a `Queue`. -/
def decodeQueueMember (st : Queue × Option Error) (kv : String × JSON) :
    Queue × Option Error :=
  match findField queueFields kv.1 with
  | none => (st.1, saveError st.2 (some (.jsonUnknownField kv.1)))
  | some f =>
    let r := decodeString kv.2 (st.1.getField f)
    (st.1.setField f r.1, saveError st.2 r.2)

/-- Strict decoding of a JSON value into a `Queue` variable holding `cur`. -/
def decodeQueue (v : JSON) (cur : Queue) : Queue × Option Error :=
  match v with
  | .obj ms => ms.foldl decodeQueueMember (cur, none)
  | .null => (cur, none)
  | other => (cur, some (.jsonType other.kind))

/-- One member of a JSON object decoded into the jobs map: the value is decoded
into a fresh zero `Job`, which is then stored under the key. -/
def decodeJobsMember (st : GoMap Job × Option Error) (kv : String × JSON) :
    GoMap Job × Option Error :=
  let r := decodeJob kv.2 {}
  (st.1.insert kv.1 r.1, saveError st.2 r.2)

/-- Decoding of a JSON value into the jobs map holding `cur`: an object adds its
members to the map, `null` empties it. -/
def decodeJobs (v : JSON) (cur : GoMap Job) : GoMap Job × Option Error :=
  match v with
  | .obj ms => ms.foldl decodeJobsMember (cur, none)
  | .null => (∅, none)
  | other => (cur, some (.jsonType other.kind))

/-- One member of a JSON object decoded into the queues map. -/
def decodeQueuesMember (st : GoMap Queue × Option Error) (kv : String × JSON) :
    GoMap Queue × Option Error :=
  let r := decodeQueue kv.2 {}
  (st.1.insert kv.1 r.1, saveError st.2 r.2)

/-- Decoding of a JSON value into the queues map holding `cur`. -/
def decodeQueues (v : JSON) (cur : GoMap Queue) : GoMap Queue × Option Error :=
  match v with
  | .obj ms => ms.foldl decodeQueuesMember (cur, none)
  | .null => (∅, none)
  | other => (cur, some (.jsonType other.kind))

/-- One member of the top-level object decoded into the store. -/
def decodeConfigMember (st : configFile × Option Error) (kv : String × JSON) :
    configFile × Option Error :=
  match findField configFields kv.1 with
  | some "client" =>
    let r := decodeClient kv.2 st.1.Client
    ({ st.1 with Client := r.1 }, saveError st.2 r.2)
  | some "jobs" =>
    let r := decodeJobs kv.2 st.1.Jobs
    ({ st.1 with Jobs := r.1 }, saveError st.2 r.2)
  | some "queues" =>
    let r := decodeQueues kv.2 st.1.Queues
    ({ st.1 with Queues := r.1 }, saveError st.2 r.2)
  | _ => (st.1, saveError st.2 (some (.jsonUnknownField kv.1)))

/-- The call `dec.Decode(&cfg)` with `DisallowUnknownFields` on a JSON value:
the value is decoded into the variable holding `cur`; the first error met is
returned after the whole value has been processed. -/
def decodeConfig (v : JSON) (cur : configFile) : configFile × Option Error :=
  match v with
  | .obj ms => ms.foldl decodeConfigMember (cur, none)
  | .null => (cur, none)
  | other => (cur, some (.jsonType other.kind))

/-- A JSON object has a member whose key names none of the given fields, under
the decoder's matching of names. -/
def hasUnknownField (fields : List String) : JSON → Bool
  | .obj ms => ms.any fun kv => (findField fields kv.1).isNone
  | _ => false

/-- A store document has a field that is not one of `client`, `jobs`, `queues`
and their record fields: an unknown member at the top, in the client record, or
in one of the job or queue records. -/
def hasUnknownStoreField : JSON → Bool
  | .obj ms => ms.any fun kv =>
    match findField configFields kv.1 with
    | some "client" => hasUnknownField clientFields kv.2
    | some "jobs" =>
      match kv.2 with
      | .obj records => records.any fun r => hasUnknownField jobFields r.2
      | _ => false
    | some "queues" =>
      match kv.2 with
      | .obj records => records.any fun r => hasUnknownField queueFields r.2
      | _ => false
    | _ => true
  | _ => false

/-- Content of a file or of a message body: the text of exactly one JSON value,
the text of a JSON value followed by further data, or bytes that do not begin
with a JSON value. -/
inductive FileContent where
  | document (v : JSON)
  | leading (v : JSON) (rest : String)
  | raw (bytes : String)
  deriving Repr

/-- What `json.NewDecoder(f).Decode` reads: the first JSON value of the stream,
whatever follows it. -/
def FileContent.firstValue : FileContent → Option JSON
  | .document v => some v
  | .leading v _ => some v
  | .raw _ => none

/-- What `json.Unmarshal` accepts: input that is exactly one JSON value. -/
def FileContent.onlyValue : FileContent → Option JSON
  | .document v => some v
  | .leading _ _ => none
  | .raw _ => none

/-! ## `encoding/json`: the text of a value -/

/-- The double quote. -/
def quoteChar : Char := Char.ofNat 34

/-- The backslash. -/
def backslash : Char := Char.ofNat 92

/-- The opening brace. -/
def openBrace : Char := Char.ofNat 123

/-- The closing brace. -/
def closeBrace : Char := Char.ofNat 125

/-- One lower-case hexadecimal digit, as in the table `hex` of the encoder. -/
def hexDigit (n : Nat) : Char := "0123456789abcdef".data.getD n '0'

/-- The encoder's `appendString` with HTML escaping on one character of a valid
string: quote and backslash are escaped, the control characters have a short
escape or the form `u00XX`, the characters `<`, `>` and `&` have the form
`u00XX`, and the line separators U+2028 and U+2029 the form `u202X`. -/
def escapeChar (c : Char) : List Char :=
  if c = quoteChar ∨ c = backslash then [backslash, c]
  else if c = Char.ofNat 8 then [backslash, 'b']
  else if c = Char.ofNat 12 then [backslash, 'f']
  else if c = Char.ofNat 10 then [backslash, 'n']
  else if c = Char.ofNat 13 then [backslash, 'r']
  else if c = Char.ofNat 9 then [backslash, 't']
  else if c.toNat < 32 ∨ c = '<' ∨ c = '>' ∨ c = '&' then
    [backslash, 'u', '0', '0', hexDigit (c.toNat / 16), hexDigit (c.toNat % 16)]
  else if c = Char.ofNat 8232 ∨ c = Char.ofNat 8233 then
    [backslash, 'u', '2', '0', '2', hexDigit (c.toNat % 16)]
  else [c]

/-- The text of a JSON string: the escaped characters between quotes. -/
def encodeString (s : String) : List Char :=
  quoteChar :: (s.data.flatMap escapeChar ++ [quoteChar])

/-- The line break of `Indent` with prefix `""` and indent of two blanks. -/
def newline (depth : Nat) : List Char := Char.ofNat 10 :: List.replicate (2 * depth) ' '

mutual
/-- The text that `Indent("", "  ")` makes of the compact encoding of a value
at a nesting depth: members and items on lines of their own, a blank after the
colon, empty objects and arrays closed at once. -/
def encodeValue (depth : Nat) : JSON → List Char
  | .null => "null".data
  | .bool b => if b then "true".data else "false".data
  | .num lit => lit.data
  | .str s => encodeString s
  | .arr [] => ['[', ']']
  | .arr (x :: xs) =>
    '[' :: (newline (depth + 1) ++ (encodeValue (depth + 1) x ++
      (encodeItems (depth + 1) xs ++ (newline depth ++ [']']))))
  | .obj [] => [openBrace, closeBrace]
  | .obj ((k, v) :: ms) =>
    openBrace :: (newline (depth + 1) ++ (encodeString k ++ (':' :: ' ' ::
      (encodeValue (depth + 1) v ++ (encodeMembers (depth + 1) ms ++
        (newline depth ++ [closeBrace]))))))
/-- The items of an array after the first. -/
def encodeItems (depth : Nat) : List JSON → List Char
  | [] => []
  | x :: xs => ',' :: (newline depth ++ (encodeValue depth x ++ encodeItems depth xs))
/-- The members of an object after the first. -/
def encodeMembers (depth : Nat) : List (String × JSON) → List Char
  | [] => []
  | (k, v) :: ms =>
    ',' :: (newline depth ++ (encodeString k ++ (':' :: ' ' ::
      (encodeValue depth v ++ encodeMembers depth ms))))
end

/-- What `Encoder.Encode` writes with `SetIndent("", "  ")`: the indented text
of the value and a line break. -/
def encodeIndent (v : JSON) : String := String.mk (encodeValue 0 v ++ [Char.ofNat 10])

/-- The scanner's `isSpace`: blank, tab, carriage return and line feed. -/
def isSpaceJSON (c : Char) : Bool :=
  c = ' ' ∨ c = Char.ofNat 9 ∨ c = Char.ofNat 13 ∨ c = Char.ofNat 10

/-- The text without its leading space characters. -/
def skipSpace : List Char → List Char
  | [] => []
  | c :: cs => if isSpaceJSON c then skipSpace cs else c :: cs

/-- The value of a hexadecimal digit. -/
def hexVal (c : Char) : Option Nat :=
  if 48 ≤ c.toNat ∧ c.toNat ≤ 57 then some (c.toNat - 48)
  else if 97 ≤ c.toNat ∧ c.toNat ≤ 102 then some (c.toNat - 87)
  else if 65 ≤ c.toNat ∧ c.toNat ≤ 70 then some (c.toNat - 55)
  else none

/-- The function `getu4` on four characters. -/
def hex4 (a b c d : Char) : Option Nat :=
  match hexVal a, hexVal b, hexVal c, hexVal d with
  | some x, some y, some z, some t => some (((x * 16 + y) * 16 + z) * 16 + t)
  | _, _, _, _ => none

/-- The character of a one-letter escape. -/
def unescape (e : Char) : Option Char :=
  if e = quoteChar ∨ e = backslash ∨ e = '/' then some e
  else if e = 'b' then some (Char.ofNat 8)
  else if e = 'f' then some (Char.ofNat 12)
  else if e = 'n' then some (Char.ofNat 10)
  else if e = 'r' then some (Char.ofNat 13)
  else if e = 't' then some (Char.ofNat 9)
  else none

/-- The low half of a surrogate pair at the head of a text, as `getu4` and
`utf16.DecodeRune` read it. -/
def lowSurrogate : List Char → Option Nat
  | b :: u :: g1 :: g2 :: g3 :: g4 :: _ =>
    if b = backslash ∧ u = 'u' then
      match hex4 g1 g2 g3 g4 with
      | some m => if 56320 ≤ m ∧ m < 57344 then some m else none
      | none => none
    else none
  | _ => none

/-- Adds a character in front of a scanned string. -/
def consChar (c : Char) (r : Option (List Char × List Char)) : Option (List Char × List Char) :=
  match r with
  | some (s, rest) => some (c :: s, rest)
  | none => none

/-- The scanner and `unquote` on the text after an opening quote: the
characters of the string up to the closing quote, and the text after it.  A
control character, an unknown escape or the end of the text is a syntax error;
a surrogate pair gives one character and a lone surrogate the replacement
character. -/
def scanChars : Nat → List Char → Option (List Char × List Char)
  | 0, _ => none
  | _ + 1, [] => none
  | fuel + 1, c :: cs =>
    if c = quoteChar then some ([], cs)
    else if c = backslash then
      match cs with
      | [] => none
      | e :: rest =>
        if e = 'u' then
          match rest with
          | h1 :: h2 :: h3 :: h4 :: rest4 =>
            match hex4 h1 h2 h3 h4 with
            | none => none
            | some n =>
              if 55296 ≤ n ∧ n < 57344 then
                match lowSurrogate rest4 with
                | some m =>
                  if n < 56320 then
                    consChar (Char.ofNat ((n - 55296) * 1024 + (m - 56320) + 65536))
                      (scanChars fuel (rest4.drop 6))
                  else consChar (Char.ofNat 65533) (scanChars fuel rest4)
                | none => consChar (Char.ofNat 65533) (scanChars fuel rest4)
              else consChar (Char.ofNat n) (scanChars fuel rest4)
          | _ => none
        else
          match unescape e with
          | some d => consChar d (scanChars fuel rest)
          | none => none
    else if c.toNat < 32 then none
    else consChar c (scanChars fuel cs)

/-- The digits at the head of a text, and the text after them. -/
def spanDigits : List Char → List Char × List Char
  | [] => ([], [])
  | c :: cs =>
    if c.isDigit then ((c :: (spanDigits cs).1), (spanDigits cs).2) else ([], c :: cs)

/-- The exponent of a number literal, if one begins here. -/
def scanExponent (cs : List Char) : Option (List Char × List Char) :=
  match cs with
  | e :: rest =>
    if e = 'e' ∨ e = 'E' then
      match rest with
      | s :: rest2 =>
        if s = '+' ∨ s = '-' then
          match spanDigits rest2 with
          | ([], _) => none
          | (ds, after) => some (e :: s :: ds, after)
        else
          match spanDigits rest with
          | ([], _) => none
          | (ds, after) => some (e :: ds, after)
      | [] => none
    else some ([], cs)
  | [] => some ([], [])

/-- The fraction and the exponent of a number literal. -/
def scanFraction (cs : List Char) : Option (List Char × List Char) :=
  match cs with
  | p :: rest =>
    if p = '.' then
      match spanDigits rest with
      | ([], _) => none
      | (ds, after) =>
        match scanExponent after with
        | some (ex, after2) => some (p :: (ds ++ ex), after2)
        | none => none
    else scanExponent cs
  | [] => some ([], [])

/-- The scanner on a number literal without its sign. -/
def scanUnsigned (cs : List Char) : Option (List Char × List Char) :=
  match cs with
  | d :: rest =>
    if d = '0' then
      match scanFraction rest with
      | some (fr, after) => some (d :: fr, after)
      | none => none
    else if d.isDigit then
      match scanFraction (spanDigits rest).2 with
      | some (fr, after) => some (d :: ((spanDigits rest).1 ++ fr), after)
      | none => none
    else none
  | [] => none

/-- The scanner on a number literal. -/
def scanNumber (cs : List Char) : Option (List Char × List Char) :=
  match cs with
  | s :: rest =>
    if s = '-' then
      match scanUnsigned rest with
      | some (lit, after) => some (s :: lit, after)
      | none => none
    else scanUnsigned cs
  | [] => none

/-- The text after a given word, if the text begins with it. -/
def afterWord (word : List Char) (cs : List Char) : Option (List Char) :=
  if word.isPrefixOf cs then some (cs.drop word.length) else none

/-- What the scanner is reading: a value, the members of an object from a key
on, or the items of an array from an item on. -/
inductive ScanMode where
  | value
  | members
  | items

/-- The scanner and the generic decoder on the text of a value, with a bound on
the nesting of calls: the value read and the text after it, or nothing on a
syntax error.  For the members of an object the result is the object of the
members from here on, and likewise for the items of an array. -/
def scan : Nat → ScanMode → List Char → Option (JSON × List Char)
  | 0, _, _ => none
  | fuel + 1, .value, cs =>
    match skipSpace cs with
    | [] => none
    | c :: rest =>
      if c = openBrace then
        match skipSpace rest with
        | [] => none
        | c2 :: rest2 =>
          if c2 = closeBrace then some (.obj [], rest2)
          else scan fuel .members (c2 :: rest2)
      else if c = '[' then
        match skipSpace rest with
        | [] => none
        | c2 :: rest2 =>
          if c2 = ']' then some (.arr [], rest2)
          else scan fuel .items (c2 :: rest2)
      else if c = quoteChar then
        match scanChars rest.length rest with
        | some (s, after) => some (.str (String.mk s), after)
        | none => none
      else if c = 't' then
        match afterWord "rue".data rest with
        | some after => some (.bool true, after)
        | none => none
      else if c = 'f' then
        match afterWord "alse".data rest with
        | some after => some (.bool false, after)
        | none => none
      else if c = 'n' then
        match afterWord "ull".data rest with
        | some after => some (.null, after)
        | none => none
      else
        match scanNumber (c :: rest) with
        | some (lit, after) => some (.num (String.mk lit), after)
        | none => none
  | fuel + 1, .members, cs =>
    match cs with
    | [] => none
    | q :: rest =>
      if q = quoteChar then
        match scanChars rest.length rest with
        | none => none
        | some (k, after) =>
          match skipSpace after with
          | [] => none
          | colon :: rest2 =>
            if colon = ':' then
              match scan fuel .value rest2 with
              | none => none
              | some (v, after2) =>
                match skipSpace after2 with
                | [] => none
                | sep :: rest3 =>
                  if sep = closeBrace then some (.obj [(String.mk k, v)], rest3)
                  else if sep = ',' then
                    match scan fuel .members (skipSpace rest3) with
                    | some (.obj ms, after3) => some (.obj ((String.mk k, v) :: ms), after3)
                    | _ => none
                  else none
            else none
      else none
  | fuel + 1, .items, cs =>
    match scan fuel .value cs with
    | none => none
    | some (v, after) =>
      match skipSpace after with
      | [] => none
      | sep :: rest =>
        if sep = ']' then some (.arr [v], rest)
        else if sep = ',' then
          match scan fuel .items rest with
          | some (.arr xs, after2) => some (.arr (v :: xs), after2)
          | _ => none
        else none

/-- What a `json.Decoder` sees of a text: its first JSON value and whether
anything but space follows it, or no value at all. -/
def scanJSON (text : String) : FileContent :=
  match scan (text.length + 1) .value text.data with
  | none => .raw text
  | some (v, rest) =>
    if (skipSpace rest).isEmpty then .document v else .leading v (String.mk rest)

/-- JSON values made of strings and objects only, as the encoding of the store
is. -/
inductive StrTree : JSON → Prop where
  | str (s : String) : StrTree (.str s)
  | obj (ms : List (String × JSON)) (h : ∀ kv ∈ ms, StrTree kv.2) : StrTree (.obj ms)


/-- The file system: for every path of a file, what a decoder sees of its bytes. -/
abbrev Files := GoMap FileContent

/-! ## Messages, requests and the outside world -/

/-- The struct `response.ServerResponse`: the device descriptor. -/
structure ServerResponse where
  SubscriberUID : String := ""
  Location : String := ""
  MacAddress : String := ""
  Role : String := ""
  UpstreamQoS : String := ""
  DownstreamQoS : String := ""
  Hostname : String := ""
  WGServerPublicKey : String := ""
  WGInterface : String := ""
  WGServerIP : String := ""
  WGServerPort : String := ""
  WGClientIP : String := ""
  WGRoutes : String := ""
  WGAllowedIPs : String := ""
  Endpoint : String := ""
  deriving DecidableEq, Repr

/-- The struct `global.JobData`: a job received from the server. -/
structure JobData where
  Command : String := ""
  VbuserID : String := ""
  Frequency : String := ""
  Locked : String := ""
  RequiredSoftware : String := ""
  Name : String := ""
  RequireOutput : String := ""
  JobType : String := ""
  deriving DecidableEq, Repr

/-- The struct `global.QueueData`: a queue with a list of jobs. -/
structure QueueData where
  Name : String := ""
  Jobs : String := ""
  Locked : String := ""
  deriving DecidableEq, Repr

/-- The struct `global.ExecuteJobData`: the payload to schedule and run a job. -/
structure ExecuteJobData where
  Name : String := ""
  Command : String := ""
  RequireOutput : String := ""
  deriving DecidableEq, Repr

/-- The struct `types.StampData`. -/
structure StampData where
  MACAddress : String := ""
  Body : String := ""
  deriving DecidableEq, Repr

/-- The struct `types.Config`: the command-line configuration. -/
structure Config where
  DiscoveryHost : String := ""
  DiscoveryPort : Int := 0
  DownloadPath : String := ""
  MacInterface : String := ""
  LocalTest : Bool := false
  deriving DecidableEq, Repr

/-- A URL in the structured form of Go's `url.URL`; rendering it to text and
parsing it back are the library's business and are not modelled. -/
structure URL where
  Scheme : String := ""
  Host : String := ""
  Path : String := ""
  RawQuery : List (String × String) := []
  deriving DecidableEq, Repr

/-- Outcome of an HTTP request: no response at all, or a status and a body. -/
inductive HTTPResult where
  | failed (e : Error)
  | response (status : Nat) (body : FileContent)
  deriving Repr

/-- Outcome of running `/bin/sh -c command`: the raw output streams, the error
of `cmd.Run()` if any, and the exit code held by the process state if there is
a process state. -/
structure ShellResult where
  stdout : String := ""
  stderr : String := ""
  err : Option Error := none
  processState : Option Int := some 0
  deriving DecidableEq, Repr

/-- Work handed to a new goroutine by a `go` statement. -/
inductive Task where
  | sendJobLog (name command stdOut stdErr : String) (statusCode : Int)
  | executeJobFromMap (jobData : FieldMap)
  | DownloadSoftwareConcurrently (softwareList : List String) (softwarePath : String)
  | listenLoop (uid : String)
  | statusLoop (subscriberUID : String)
  | pollByMac (mac : String)
  | unregisteredSender
  deriving DecidableEq

/-- Calls that leave the process, in the order in which they are made. -/
inductive Effect where
  | go (t : Task)
  | httpGet (u : URL)
  | httpGetURL (url : String)
  | httpPost (u : URL) (body : JSON)
  | httpPatch (u : String) (payload : GoMap String)
  | shell (command : String)
  | cronAddFunc (spec : String) (data : ExecuteJobData)
  | cronStart
  | wsDial (u : URL)
  | wsWrite (msg : JSON)
  | setupWG (resp : ServerResponse)
  | discover (host : String) (port : Int) (service : String)
  | getFwEnv (key : String)
  | setFwEnv (key value : String)

/-- What the outside world answers, and the library functions taken as given. -/
structure Env where
  /-- SHA-256 of a byte string (`crypto/sha256`). -/
  sha256 : List Nat → List Nat
  /-- Escaping of one path segment (`url.PathEscape`). -/
  PathEscape : String → String
  /-- Joining and cleaning of path elements (`path.Join`). -/
  pathJoin : List String → String
  /-- Unix time read by `time.Now().Unix()`. -/
  now : Int
  /-- The current time in UTC, formatted by `time.RFC3339`. -/
  nowRFC3339 : String
  /-- Path of `udpu_config.json` next to the executable (`configFilePath`). -/
  configFilePath : String
  /-- Parsed command-line flags. -/
  flags : Config
  /-- Outcome of a shell command. -/
  shell : String → ShellResult
  /-- Outcome of `GET url`. -/
  httpGet : URL → HTTPResult
  /-- Outcome of `http.Get` for a URL given as text. -/
  httpGetURL : String → HTTPResult
  /-- Outcome of `POST url` with the given JSON body. -/
  httpPost : URL → JSON → HTTPResult
  /-- Error of the `PATCH` request of `updateVbuser`, if any. -/
  httpPatch : String → GoMap String → Option Error
  /-- Error of `WSConn.WriteMessage`, if any. -/
  wsWrite : JSON → Option Error
  /-- Value of a U-Boot environment variable (`GetFwEnv`). -/
  getFwEnv : String → Except Error String
  /-- Error of `SetFwEnv`, if any. -/
  setFwEnv : String → String → Option Error
  /-- Result of `GenerateRandomHash`. -/
  randomHash : String
  /-- Result of `GetOutboundIP`. -/
  outboundIP : Except Error String
  /-- Trimmed value of the environment variable `LOCAL_TEST_MAC`. -/
  localTestMAC : String
  /-- Result of `GetMACAddress`. -/
  macAddress : Except Error String
  /-- Result of `DiscoverService` for a service name. -/
  discover : String → String × Int
  /-- Error of `wg.SetupWG`, if any. -/
  setupWG : ServerResponse → Option Error
  /-- The address part of a CIDR string (`net.ParseCIDR`), if it parses. -/
  parseCIDR : String → Option String
  /-- The number of dials of the push channel (`websocket.DefaultDialer.Dial`)
  at a URL that are refused before one is accepted; `none` if every dial is
  refused. -/
  wsDial : URL → Option Nat

/-- Calls to the file system made by `writeJSONAtomic` for the file at a path,
in the order of the code, and by `backupCorrupt` and `downloadFile` for the
file that they create at a path and copy into. -/
inductive FsCall where
  | mkdirAll (path : String)
  | openLock (path : String)
  | flock (path : String)
  | createTemp (path : String)
  | encode (path : String)
  | sync (path : String)
  | close (path : String)
  | rename (path : String)
  | create (path : String)
  | copy (path : String)
  deriving DecidableEq, Repr

/-- The package-level variables of the program, the files it owns, and the
record of its calls to the outside. -/
structure World where
  /-- Variable `database.cfg`. -/
  cfg : configFile := {}
  /-- Variable `database.cfgPath`. -/
  cfgPath : String := ""
  /-- Files on disk. -/
  files : Files := ∅
  /-- The error with which the file system answers a call, if it refuses it. -/
  fsError : FsCall → Option Error := fun _ => none
  /-- Calls made so far, oldest first. -/
  trace : List Effect := []
  /-- Exit status once the process has been terminated (`os.Exit`, a panic). -/
  exit : Option Int := none
  /-- Variables of package `global` (the Go pointers are followed). -/
  ServerHost : String := ""
  ServerPort : Int := 0
  RepoHost : String := ""
  RepoPort : Int := 0
  SoftwarePath : String := ""
  MacInterface : String := ""
  /-- Variable `global.WSConn`: the channel of the open connection, if any. -/
  WSConn : Option String := none
  /-- Variable `ctx.AppState`. -/
  isUnregisteredDevice : Bool := false
  deviceIP : String := ""
  /-- Variables of package `main`. -/
  secretKey : String := ""
  hadExisting : Bool := false
  /-- The lifetime context `appCtx` has been cancelled. -/
  cancelled : Bool := false
  /-- The slot `respAtomic` of `main`. -/
  respAtomic : Option ServerResponse := none
  /-- The guard `registeredRuntimeOnce` of `main` has fired. -/
  registeredRuntimeOnce : Bool := false
  /-- The goroutine that is followed has entered a loop that never ends (the
  retry loop of `InitWS` against an endpoint that never answers). -/
  blocked : Bool := false

/-- Appends one call to the record. -/
def World.emit (w : World) (e : Effect) : World := { w with trace := w.trace ++ [e] }

/-- The call `logx.Fatalf`: the process exits with status 1. -/
def Fatalf (w : World) : World := { w with exit := some 1 }

/-! ## `database`: persistence -/

/-- The function `ensureMaps`, which replaces nil maps by empty ones; the maps of
the model are never nil, so nothing changes. -/
def ensureMaps (w : World) : World := w

/-- The function `readJSON` applied to `&cfg`: opens the file and decodes its
first JSON value into the store with unknown fields disallowed.  A file that
exists is taken to be readable. -/
def readJSON (path : String) (w : World) : World × Option Error :=
  match w.files.lookup path with
  | none => (w, some (.notExist path))
  | some content =>
    match content.firstValue with
    | none => (w, some .jsonSyntax)
    | some v =>
      let r := decodeConfig v w.cfg
      ({ w with cfg := r.1 }, r.2)

/-- The first error among the answers of the file system to a list of calls. -/
def firstFsError (fsError : FsCall → Option Error) : List FsCall → Option Error
  | [] => none
  | call :: rest =>
    match fsError call with
    | some e => some e
    | none => firstFsError fsError rest

/-- The function `writeJSONAtomic`: the directory is made, the lock file
`path.lock` is opened (created if it is missing) and locked, the indented text
of the value is written to a temporary file, synced and closed, and the
temporary file is renamed over `path`, so that `path` holds either the old or
the new text; the file system keeps of a text what a decoder sees of it.  The
first call that the file system refuses ends the function with that error; the
temporary file is then removed, and the renaming has not happened. -/
def writeJSONAtomic (path : String) (v : JSON) (w : World) : World × Option Error :=
  match w.fsError (.mkdirAll path) with
  | some e => (w, some e)
  | none =>
    match w.fsError (.openLock path) with
    | some e => (w, some e)
    | none =>
      let lock := path ++ ".lock"
      let files :=
        match w.files.lookup lock with
        | some _ => w.files
        | none => w.files.insert lock (.raw "")
      match firstFsError w.fsError
          [.flock path, .createTemp path, .encode path, .sync path, .close path,
           .rename path] with
      | some e => ({ w with files := files }, some e)
      | none => ({ w with files := files.insert path (scanJSON (encodeIndent v)) }, none)

/-- The function `save`: persists the current store to disk. -/
def save (w : World) : World × Option Error :=
  let w := ensureMaps w
  writeJSONAtomic w.cfgPath w.cfg.toJSON w

/-- The function `backupCorrupt`: copies the file to `path.bak.<unix time>`.
When the file system refuses to create the backup there is none; when it
refuses the copy, the backup has been created and is left without the content
(what was copied before the failure is not modelled). -/
def backupCorrupt (env : Env) (path : String) (w : World) : World × Option Error :=
  let backup := path ++ ".bak." ++ toString env.now
  match w.files.lookup path with
  | none => (w, some (.notExist path))
  | some c =>
    match w.fsError (.create backup) with
    | some e => (w, some e)
    | none =>
      match w.fsError (.copy backup) with
      | some e => ({ w with files := w.files.insert backup (.raw "") }, some e)
      | none => ({ w with files := w.files.insert backup c }, none)

/-- The function `loadOrInit`: loads the store or initialises a fresh file.
The call `os.Stat` is taken to fail for a missing file only. -/
def loadOrInit (env : Env) (w : World) : World × Option Error :=
  match w.files.lookup w.cfgPath with
  | none => save { w with cfg := { Client := {}, Jobs := ∅, Queues := ∅ } }
  | some _ =>
    let r := readJSON w.cfgPath w
    match r.2 with
    | some err => ((backupCorrupt env w.cfgPath r.1).1, some err)
    | none => (ensureMaps r.1, none)

/-- The function `structToMap` on a `Job`: marshalling and unmarshalling into a
generic map gives every field under its JSON name, as a string. -/
def Job.structToMap (j : Job) : FieldMap :=
  GoMap.ofList (jobFields.map fun f => (f, Any.str (j.getField f)))

/-- The function `structToMap` on a `Queue`. -/
def Queue.structToMap (q : Queue) : FieldMap :=
  GoMap.ofList (queueFields.map fun f => (f, Any.str (q.getField f)))

/-- The function `InitDatabase`: sets `cfgPath` and loads or initialises the
store; a failure is fatal. -/
def InitDatabase (env : Env) (w : World) : World :=
  let w := { w with cfgPath := env.configFilePath }
  let r := loadOrInit env w
  match r.2 with
  | some _ => Fatalf r.1
  | none => r.1

/-- The function `CreateTables`: ensures the maps exist and persists them. -/
def CreateTables (w : World) : World × Option Error :=
  save (ensureMaps w)

/-- The function `InsertIntoClient`: writes the descriptor's fields into the
client section, keeping the frequency and the secret key. -/
def InsertIntoClient (r : ServerResponse) (w : World) : World × Option Error :=
  let c : Client :=
    { Name := r.SubscriberUID
      ClientFrequency := w.cfg.Client.ClientFrequency
      BootStatus := "first_boot"
      UdpuUpstreamQoS := r.UpstreamQoS
      UdpuDownstreamQoS := r.DownstreamQoS
      UdpuHostname := r.Hostname
      UdpuLocation := r.Location
      UdpuRole := r.Role
      UdpuSecretKey := w.cfg.Client.UdpuSecretKey }
  save { w with cfg := { w.cfg with Client := c } }

/-- The function `GetClient`: the client record if present. -/
def GetClient (w : World) : Except Error Client :=
  if w.cfg.Client.Name = "" ∧ w.cfg.Client.UdpuHostname = "" then
    .error (.message "client not found")
  else .ok w.cfg.Client

/-- The slice that `GetData` returns inside an interface value. -/
inductive Records where
  | jobs (out : List Job)
  | queues (out : List Queue)
  | clients (out : List Client)
  deriving DecidableEq, Repr

/-- The function `GetData`: the records of a table stored under a name, or nil
(here `none`) if there are none. -/
def GetData (table : String) (name : String) (w : World) : Option Records :=
  if table = "job" then
    match w.cfg.Jobs.lookup name with
    | some j => some (.jobs [j])
    | none => none
  else if table = "queue" then
    match w.cfg.Queues.lookup name with
    | some q => some (.queues [q])
    | none => none
  else if table = "client" then
    if w.cfg.Client.Name = name then some (.clients [w.cfg.Client]) else none
  else none

/-- The assignments `if v, ok := kwargs[key]; ok { field = fmt.Sprint(v) }`. -/
def assignFrom (kwargs : FieldMap) (key : String) (cur : String) : String :=
  match kwargs.lookup key with
  | some v => Sprint v
  | none => cur

/-- The field assignments that `CreateData` and `UpdateData` apply to a job. -/
def Job.merge (j : Job) (kwargs : FieldMap) : Job :=
  { j with
    Command := assignFrom kwargs "command" j.Command
    Frequency := assignFrom kwargs "frequency" j.Frequency
    Locked := assignFrom kwargs "locked" j.Locked
    RequireOutput := assignFrom kwargs "require_output" j.RequireOutput
    RequiredSoftware := assignFrom kwargs "required_software" j.RequiredSoftware
    JobType := assignFrom kwargs "job_type" j.JobType
    VbuserID := assignFrom kwargs "vbuser_id" j.VbuserID }

/-- The field assignments that `CreateData` and `UpdateData` apply to a queue. -/
def Queue.merge (q : Queue) (kwargs : FieldMap) : Queue :=
  { q with
    Description := assignFrom kwargs "description" q.Description
    QueueJobs := assignFrom kwargs "queue" q.QueueJobs
    Role := assignFrom kwargs "role" q.Role
    RequireOutput := assignFrom kwargs "require_output" q.RequireOutput
    Frequency := assignFrom kwargs "frequency" q.Frequency
    Locked := assignFrom kwargs "locked" q.Locked }

/-- The field assignments that `CreateData` and `UpdateData` apply to the
client record. -/
def Client.merge (c : Client) (kwargs : FieldMap) : Client :=
  { Name := assignFrom kwargs "name" c.Name
    ClientFrequency := assignFrom kwargs "client_frequency" c.ClientFrequency
    BootStatus := assignFrom kwargs "boot_status" c.BootStatus
    UdpuUpstreamQoS := assignFrom kwargs "udpu_upstream_qos" c.UdpuUpstreamQoS
    UdpuDownstreamQoS := assignFrom kwargs "udpu_downstream_qos" c.UdpuDownstreamQoS
    UdpuHostname := assignFrom kwargs "udpu_hostname" c.UdpuHostname
    UdpuLocation := assignFrom kwargs "udpu_location" c.UdpuLocation
    UdpuRole := assignFrom kwargs "udpu_role" c.UdpuRole
    UdpuSecretKey := assignFrom kwargs "udpu_secret_key" c.UdpuSecretKey }

/-- The function `CreateData`: inserts or updates a record, then persists the
store.  Nothing happens for an empty field map, a job or queue without a usable
name, or an unknown table. -/
def CreateData (table : String) (kwargs : FieldMap) (w : World) : World :=
  if kwargs = ∅ then w
  else if table = "job" then
    match kwargs.lookup "name" with
    | none => w
    | some v =>
      let name := Sprint v
      if name = "" ∨ name = "<nil>" then w
      else
        let j := (w.cfg.Jobs.lookup name).getD {}
        let j := { j with Name := name }
        let j := j.merge kwargs
        (save { w with cfg := { w.cfg with Jobs := w.cfg.Jobs.insert name j } }).1
  else if table = "queue" then
    match kwargs.lookup "name" with
    | none => w
    | some v =>
      let name := Sprint v
      if name = "" ∨ name = "<nil>" then w
      else
        let q := (w.cfg.Queues.lookup name).getD {}
        let q := { q with Name := name }
        let q := q.merge kwargs
        (save { w with cfg := { w.cfg with Queues := w.cfg.Queues.insert name q } }).1
  else if table = "client" then
    (save { w with cfg := { w.cfg with Client := w.cfg.Client.merge kwargs } }).1
  else w

/-- The function `UpdateData`: updates an existing record, then persists the
store.  Nothing happens for an empty field map, a job or queue that is not
stored, or an unknown table. -/
def UpdateData (table : String) (name : String) (fields : FieldMap) (w : World) : World :=
  if fields = ∅ then w
  else if table = "job" then
    match w.cfg.Jobs.lookup name with
    | none => w
    | some j =>
      let j := j.merge fields
      (save { w with cfg := { w.cfg with Jobs := w.cfg.Jobs.insert name j } }).1
  else if table = "queue" then
    match w.cfg.Queues.lookup name with
    | none => w
    | some q =>
      let q := q.merge fields
      (save { w with cfg := { w.cfg with Queues := w.cfg.Queues.insert name q } }).1
  else if table = "client" then
    (save { w with cfg := { w.cfg with Client := w.cfg.Client.merge fields } }).1
  else w

/-- The function `DeleteData`: removes a record and persists the change. -/
def DeleteData (table : String) (name : String) (w : World) : World :=
  if table = "job" then
    match w.cfg.Jobs.lookup name with
    | some _ => (save { w with cfg := { w.cfg with Jobs := w.cfg.Jobs.erase name } }).1
    | none => (save w).1
  else if table = "queue" then
    match w.cfg.Queues.lookup name with
    | some _ => (save { w with cfg := { w.cfg with Queues := w.cfg.Queues.erase name } }).1
    | none => (save w).1
  else if table = "client" then
    if w.cfg.Client.Name = name then (save { w with cfg := { w.cfg with Client := {} } }).1
    else (save w).1
  else w

/-- The frequencies that `GetWithFrequency` accepts in scheduled mode. -/
def isScheduledFrequency (f : String) : Bool :=
  f = "1" ∨ f = "15" ∨ f = "60" ∨ f = "1440"

/-- The function `GetWithFrequency`: the records of a table, as field maps, whose
frequency is the requested one or, in scheduled mode, one of the periodic ones;
nil (here `none`) if there is none.  The maps are visited in key order. -/
def GetWithFrequency (table : String) (frequency : String) (scheduled : Bool) (w : World) :
    Option (List FieldMap) :=
  if table = "job" then
    let out := (w.cfg.Jobs.toList.filter fun kv =>
      if scheduled then isScheduledFrequency kv.2.Frequency
      else kv.2.Frequency = frequency).map fun kv => kv.2.structToMap
    if out.length = 0 then none else some out
  else if table = "queue" then
    let out := (w.cfg.Queues.toList.filter fun kv =>
      if scheduled then isScheduledFrequency kv.2.Frequency
      else kv.2.Frequency = frequency).map fun kv => kv.2.structToMap
    if out.length = 0 then none else some out
  else none

/-- The function `GetScheduled`: all scheduled jobs or queues of a table. -/
def GetScheduled (table : String) (w : World) : Option (List FieldMap) :=
  GetWithFrequency table "" true w

/-- The function `GetEveryBootJobs`: jobs with the "every_boot" frequency. -/
def GetEveryBootJobs (w : World) : Option (List FieldMap) :=
  GetWithFrequency "job" "every_boot" false w

/-- The function `GetFirstBootJobs`: jobs with the "first_boot" frequency. -/
def GetFirstBootJobs (w : World) : Option (List FieldMap) :=
  GetWithFrequency "job" "first_boot" false w

/-- The function `getJobOnce`: jobs with the "once" frequency. -/
def getJobOnce (w : World) : Option (List FieldMap) :=
  GetWithFrequency "job" "once" false w

/-- The function `GetJobsScheduled`: the scheduled jobs. -/
def GetJobsScheduled (w : World) : Option (List FieldMap) :=
  GetScheduled "job" w

/-- The function `UpdateOrCreateClientName`: sets or updates the client name and
persists it. -/
def UpdateOrCreateClientName (newName : String) (w : World) : World × Option Error :=
  if newName = "" then (w, some (.message "new name is empty"))
  else
    let c : Client :=
      if w.cfg.Client.Name = "" then { Name := newName }
      else { w.cfg.Client with Name := newName }
    let r := save { w with cfg := { w.cfg with Client := c } }
    match r.2 with
    | some _ => (r.1, some (.message "failed to persist client name"))
    | none => (r.1, none)

/-- The function `GetClientSecretKey`: the client secret key if present. -/
def GetClientSecretKey (w : World) : Option String :=
  if w.cfg.Client.UdpuSecretKey = "" then none else some w.cfg.Client.UdpuSecretKey

/-- The function `SetClientSecretKey`: sets the secret key and persists it. -/
def SetClientSecretKey (k : String) (w : World) : World × Option Error :=
  save { w with cfg := { w.cfg with Client := { w.cfg.Client with UdpuSecretKey := k } } }

/-! ## Library functions -/

/-- The predicate `unicode.IsSpace`. -/
def isSpace (c : Char) : Bool :=
  c.toNat = 9 ∨ c.toNat = 10 ∨ c.toNat = 11 ∨ c.toNat = 12 ∨ c.toNat = 13 ∨ c.toNat = 32 ∨
  c.toNat = 0x85 ∨ c.toNat = 0xA0 ∨ c.toNat = 0x1680 ∨
  (0x2000 ≤ c.toNat ∧ c.toNat ≤ 0x200A) ∨
  c.toNat = 0x2028 ∨ c.toNat = 0x2029 ∨ c.toNat = 0x202F ∨ c.toNat = 0x205F ∨
  c.toNat = 0x3000

/-- The function `strings.TrimSpace`. -/
def TrimSpace (s : String) : String :=
  String.mk ((s.data.dropWhile isSpace).reverse.dropWhile isSpace).reverse

/-- Pieces of a character list between occurrences of a separator. -/
def splitChars (sep : Char) : List Char → List (List Char)
  | [] => [[]]
  | c :: cs =>
    if c = sep then [] :: splitChars sep cs
    else
      match splitChars sep cs with
      | [] => [[c]]
      | h :: t => (c :: h) :: t

/-- The call `strings.Split(s, ",")`. -/
def SplitComma (s : String) : List String := (splitChars ',' s.data).map String.mk

/-- The call `strings.ReplaceAll(command, "'", "\"")`: every single quote
becomes a double quote. -/
def replaceQuotes (command : String) : String :=
  String.mk (command.data.map fun c => if c = Char.ofNat 39 then Char.ofNat 34 else c)

/-- The function `strings.ToLower` on ASCII letters; other characters are left
as they are. -/
def ToLower (s : String) : String :=
  String.mk (s.data.map fun c => if 'A' ≤ c ∧ c ≤ 'Z' then Char.ofNat (c.toNat + 32) else c)

/-- The function `net.JoinHostPort`. -/
def JoinHostPort (host port : String) : String :=
  if host.data.contains ':' then "[" ++ host ++ "]:" ++ port
  else host ++ ":" ++ port

/-- The UTF-8 bytes of a string. -/
def utf8Bytes (s : String) : List Nat :=
  (s.data.map String.utf8EncodeChar).flatten.map UInt8.toNat

/-- The function `hex.EncodeToString`. -/
def hexEncode (bytes : List Nat) : String :=
  String.mk (bytes.flatMap fun b => [hexDigit (b / 16), hexDigit (b % 16)])

/-! ## SHA-256 (`crypto/sha256`), after FIPS 180-4 -/

/-- The sixty-four round constants. -/
def sha256K : List Nat :=
  [0x428a2f98, 0x71374491, 0xb5c0fbcf, 0xe9b5dba5, 0x3956c25b, 0x59f111f1,
   0x923f82a4, 0xab1c5ed5, 0xd807aa98, 0x12835b01, 0x243185be, 0x550c7dc3,
   0x72be5d74, 0x80deb1fe, 0x9bdc06a7, 0xc19bf174, 0xe49b69c1, 0xefbe4786,
   0x0fc19dc6, 0x240ca1cc, 0x2de92c6f, 0x4a7484aa, 0x5cb0a9dc, 0x76f988da,
   0x983e5152, 0xa831c66d, 0xb00327c8, 0xbf597fc7, 0xc6e00bf3, 0xd5a79147,
   0x06ca6351, 0x14292967, 0x27b70a85, 0x2e1b2138, 0x4d2c6dfc, 0x53380d13,
   0x650a7354, 0x766a0abb, 0x81c2c92e, 0x92722c85, 0xa2bfe8a1, 0xa81a664b,
   0xc24b8b70, 0xc76c51a3, 0xd192e819, 0xd6990624, 0xf40e3585, 0x106aa070,
   0x19a4c116, 0x1e376c08, 0x2748774c, 0x34b0bcb5, 0x391c0cb3, 0x4ed8aa4a,
   0x5b9cca4f, 0x682e6ff3, 0x748f82ee, 0x78a5636f, 0x84c87814, 0x8cc70208,
   0x90befffa, 0xa4506ceb, 0xbef9a3f7, 0xc67178f2]

/-- Rotation of a 32-bit word to the right. -/
def rotr32 (x n : Nat) : Nat := ((x >>> n) ||| (x <<< (32 - n))) % 2 ^ 32

/-- The padded message: the bytes, the byte 0x80, zero bytes up to a length of
56 modulo 64, and the length in bits as eight bytes, most significant first. -/
def sha256Pad (msg : List Nat) : List Nat :=
  msg ++ [0x80] ++ List.replicate ((119 - msg.length % 64) % 64) 0 ++
    (List.range 8).map fun i => 8 * msg.length / 2 ^ (8 * (7 - i)) % 256

/-- The message schedule of one 64-byte block: its sixteen big-endian words,
extended to sixty-four words. -/
def sha256Schedule (block : List Nat) : List Nat :=
  let first := (List.range 16).map fun i =>
    block.getD (4 * i) 0 * 2 ^ 24 + block.getD (4 * i + 1) 0 * 2 ^ 16 +
      block.getD (4 * i + 2) 0 * 2 ^ 8 + block.getD (4 * i + 3) 0
  (List.range 48).foldl (fun ws i =>
    let x := ws.getD (i + 1) 0
    let y := ws.getD (i + 14) 0
    let s0 := rotr32 x 7 ^^^ rotr32 x 18 ^^^ (x >>> 3)
    let s1 := rotr32 y 17 ^^^ rotr32 y 19 ^^^ (y >>> 10)
    ws ++ [(s1 + ws.getD (i + 9) 0 + s0 + ws.getD i 0) % 2 ^ 32]) first

/-- The eight working variables. -/
structure SHA256State where
  a : Nat
  b : Nat
  c : Nat
  d : Nat
  e : Nat
  f : Nat
  g : Nat
  h : Nat
  deriving DecidableEq, Repr

/-- One of the sixty-four rounds, with round constant `k` and schedule word `x`. -/
def sha256Round (s : SHA256State) (k x : Nat) : SHA256State :=
  let s1 := rotr32 s.e 6 ^^^ rotr32 s.e 11 ^^^ rotr32 s.e 25
  let ch := (s.e &&& s.f) ^^^ ((s.e ^^^ 0xffffffff) &&& s.g)
  let t1 := (s.h + s1 + ch + k + x) % 2 ^ 32
  let s0 := rotr32 s.a 2 ^^^ rotr32 s.a 13 ^^^ rotr32 s.a 22
  let maj := (s.a &&& s.b) ^^^ (s.a &&& s.c) ^^^ (s.b &&& s.c)
  let t2 := (s0 + maj) % 2 ^ 32
  { a := (t1 + t2) % 2 ^ 32, b := s.a, c := s.b, d := s.c, e := (s.d + t1) % 2 ^ 32,
    f := s.e, g := s.f, h := s.g }

/-- The compression of one block into the hash value. -/
def sha256Block (hash : SHA256State) (block : List Nat) : SHA256State :=
  let s := (sha256K.zip (sha256Schedule block)).foldl
    (fun s kx => sha256Round s kx.1 kx.2) hash
  { a := (hash.a + s.a) % 2 ^ 32, b := (hash.b + s.b) % 2 ^ 32, c := (hash.c + s.c) % 2 ^ 32,
    d := (hash.d + s.d) % 2 ^ 32, e := (hash.e + s.e) % 2 ^ 32, f := (hash.f + s.f) % 2 ^ 32,
    g := (hash.g + s.g) % 2 ^ 32, h := (hash.h + s.h) % 2 ^ 32 }

/-- The four bytes of a 32-bit word, most significant first. -/
def wordBytes (x : Nat) : List Nat :=
  [x / 2 ^ 24 % 256, x / 2 ^ 16 % 256, x / 2 ^ 8 % 256, x % 256]

/-- The digest `sha256.Sum256` of a byte string: 32 bytes. -/
def sha256 (msg : List Nat) : List Nat :=
  let padded := sha256Pad msg
  let s := (List.range (padded.length / 64)).foldl
    (fun s i => sha256Block s ((padded.drop (64 * i)).take 64))
    { a := 0x6a09e667, b := 0xbb67ae85, c := 0x3c6ef372, d := 0xa54ff53a, e := 0x510e527f,
      f := 0x9b05688c, g := 0x1f83d9ab, h := 0x5be0cd19 }
  wordBytes s.a ++ wordBytes s.b ++ wordBytes s.c ++ wordBytes s.d ++ wordBytes s.e ++
    wordBytes s.f ++ wordBytes s.g ++ wordBytes s.h

/-! ## Durations and schedules -/

/-- Reads `<digits><unit>` groups with the units `h`, `m` and `s`, adding up
seconds; `pending` is the number read so far in the current group. -/
def parseDurationAux : List Char → Option Nat → Nat → Option Nat
  | [], none, total => some total
  | [], some _, _ => none
  | c :: cs, pending, total =>
    if c.isDigit then
      parseDurationAux cs (some (pending.getD 0 * 10 + (c.toNat - 48))) total
    else
      match pending with
      | none => none
      | some n =>
        if c = 'h' then parseDurationAux cs none (total + n * 3600)
        else if c = 'm' then parseDurationAux cs none (total + n * 60)
        else if c = 's' then parseDurationAux cs none (total + n)
        else none

/-- The part of `time.ParseDuration` that covers whole hours, minutes and
seconds, in seconds; other duration syntax is not accepted here. -/
def parseDuration (s : String) : Option Nat :=
  if s.data = [] then none else parseDurationAux s.data none 0

/-- The period, in seconds, of a cron spec of the form `@every <duration>`, the
only form this program passes to the scheduler; `none` stands for a spec the
scheduler's parser rejects, and specs of other forms are not read here. -/
def cronEvery (spec : String) : Option Nat :=
  if "@every ".data.isPrefixOf spec.data then
    parseDuration (String.mk (spec.data.drop 7))
  else none

/-! ## `constants` -/

def SecretEnv : String := "UDPU_SECRET_KEY"

def APIVersion : String := "v1.0"

def LocalTestServerHost : String := "host.docker.internal"

def LocalTestRepoHost : String := "host.docker.internal"

def LocalTestServerPort : Int := 8888

def LocalTestRepoPort : Int := 8887

def LocalTestMAC : String := "00:11:22:33:44:55"

def ZeroMAC : String := "00:00:00:00:00:00"

def EveryBoot : String := "every_boot"

def BootStatusFirst : String := "first_boot"

def BootStatusRegular : String := "every_boot"

/-- A Go panic (here: a method call on a nil connection) ends the process with
status 2. -/
def goPanic (w : World) : World := { w with exit := some 2 }

/-! ## Lenient JSON decoding (`json.Unmarshal` without strictness) -/

/-- JSON names of the fields of `JobData`, in declaration order. -/
def jobDataFields : List String :=
  ["command", "vbuser_id", "frequency", "locked", "required_software", "name",
   "require_output", "type"]

/-- The field of a `JobData` with the given JSON name. -/
def JobData.getField (d : JobData) (field : String) : String :=
  if field = "command" then d.Command
  else if field = "vbuser_id" then d.VbuserID
  else if field = "frequency" then d.Frequency
  else if field = "locked" then d.Locked
  else if field = "required_software" then d.RequiredSoftware
  else if field = "name" then d.Name
  else if field = "require_output" then d.RequireOutput
  else if field = "type" then d.JobType
  else ""

/-- Assignment to the field of a `JobData` with the given JSON name. -/
def JobData.setField (d : JobData) (field : String) (s : String) : JobData :=
  if field = "command" then { d with Command := s }
  else if field = "vbuser_id" then { d with VbuserID := s }
  else if field = "frequency" then { d with Frequency := s }
  else if field = "locked" then { d with Locked := s }
  else if field = "required_software" then { d with RequiredSoftware := s }
  else if field = "name" then { d with Name := s }
  else if field = "require_output" then { d with RequireOutput := s }
  else if field = "type" then { d with JobType := s }
  else d

/-- One member of a JSON object decoded into a `JobData`; a key that matches
no field is skipped. -/
def decodeJobDataMember (st : JobData × Option Error) (kv : String × JSON) :
    JobData × Option Error :=
  match findField jobDataFields kv.1 with
  | none => st
  | some f =>
    let r := decodeString kv.2 (st.1.getField f)
    (st.1.setField f r.1, saveError st.2 r.2)

/-- Decoding of a JSON value into a `JobData` variable holding `cur`. -/
def decodeJobData (v : JSON) (cur : JobData) : JobData × Option Error :=
  match v with
  | .obj ms => ms.foldl decodeJobDataMember (cur, none)
  | .null => (cur, none)
  | other => (cur, some (.jsonType other.kind))

/-- Decoding of a JSON value into a nil `[]JobData`: the slice (`none` for a nil
slice) and the first error. -/
def decodeJobDataList (v : JSON) : Option (List JobData) × Option Error :=
  match v with
  | .arr items =>
    (some (items.map fun item => (decodeJobData item {}).1),
     items.foldl (fun e item => saveError e (decodeJobData item {}).2) none)
  | .null => (none, none)
  | other => (none, some (.jsonType other.kind))

/-- The call `json.Unmarshal(body, &jobs)` for a nil `[]JobData`. -/
def unmarshalJobs (body : FileContent) : Option (List JobData) × Option Error :=
  match body.onlyValue with
  | none => (none, some .jsonSyntax)
  | some v => decodeJobDataList v

/-- Decoding of a JSON value into a nil `map[string]string`. -/
def decodeStringMap (v : JSON) : GoMap String × Option Error :=
  match v with
  | .obj ms =>
    ms.foldl (fun st kv =>
      let r := decodeString kv.2 ""
      (st.1.insert kv.1 r.1, saveError st.2 r.2)) ((∅ : GoMap String), none)
  | .null => (∅, none)
  | other => (∅, some (.jsonType other.kind))

/-- JSON names of the fields of `ServerResponse`, in declaration order. -/
def serverResponseFields : List String :=
  ["subscriber_uid", "location", "mac_address", "role", "upstream_qos", "downstream_qos",
   "hostname", "wg_server_public_key", "wg_interface", "wg_server_ip", "wg_server_port",
   "wg_client_ip", "wg_routes", "wg_allowed_ips", "endpoint"]

/-- The field of a `ServerResponse` with the given JSON name. -/
def ServerResponse.getField (r : ServerResponse) (field : String) : String :=
  if field = "subscriber_uid" then r.SubscriberUID
  else if field = "location" then r.Location
  else if field = "mac_address" then r.MacAddress
  else if field = "role" then r.Role
  else if field = "upstream_qos" then r.UpstreamQoS
  else if field = "downstream_qos" then r.DownstreamQoS
  else if field = "hostname" then r.Hostname
  else if field = "wg_server_public_key" then r.WGServerPublicKey
  else if field = "wg_interface" then r.WGInterface
  else if field = "wg_server_ip" then r.WGServerIP
  else if field = "wg_server_port" then r.WGServerPort
  else if field = "wg_client_ip" then r.WGClientIP
  else if field = "wg_routes" then r.WGRoutes
  else if field = "wg_allowed_ips" then r.WGAllowedIPs
  else if field = "endpoint" then r.Endpoint
  else ""

/-- Assignment to the field of a `ServerResponse` with the given JSON name. -/
def ServerResponse.setField (r : ServerResponse) (field : String) (s : String) :
    ServerResponse :=
  if field = "subscriber_uid" then { r with SubscriberUID := s }
  else if field = "location" then { r with Location := s }
  else if field = "mac_address" then { r with MacAddress := s }
  else if field = "role" then { r with Role := s }
  else if field = "upstream_qos" then { r with UpstreamQoS := s }
  else if field = "downstream_qos" then { r with DownstreamQoS := s }
  else if field = "hostname" then { r with Hostname := s }
  else if field = "wg_server_public_key" then { r with WGServerPublicKey := s }
  else if field = "wg_interface" then { r with WGInterface := s }
  else if field = "wg_server_ip" then { r with WGServerIP := s }
  else if field = "wg_server_port" then { r with WGServerPort := s }
  else if field = "wg_client_ip" then { r with WGClientIP := s }
  else if field = "wg_routes" then { r with WGRoutes := s }
  else if field = "wg_allowed_ips" then { r with WGAllowedIPs := s }
  else if field = "endpoint" then { r with Endpoint := s }
  else r

/-- One member of a JSON object decoded into a `ServerResponse`. -/
def decodeServerResponseMember (st : ServerResponse × Option Error) (kv : String × JSON) :
    ServerResponse × Option Error :=
  match findField serverResponseFields kv.1 with
  | none => st
  | some f =>
    let r := decodeString kv.2 (st.1.getField f)
    (st.1.setField f r.1, saveError st.2 r.2)

/-- The call `json.Unmarshal(body, &respObj)` for a zero `ServerResponse`. -/
def unmarshalServerResponse (body : FileContent) : ServerResponse × Option Error :=
  match body.onlyValue with
  | none => ({}, some .jsonSyntax)
  | some (.obj ms) => ms.foldl decodeServerResponseMember ({}, none)
  | some .null => ({}, none)
  | some other => ({}, some (.jsonType other.kind))

/-! ## `rest`: URLs and requests -/

/-- The function `CreateURL`: a service URL `/api/<version>/<segments>` on the
server, with an optional query. -/
def CreateURL (env : Env) (scheme : String) (params : Option (List (String × String)))
    (segments : List String) (w : World) : URL :=
  { Scheme := scheme
    Host := JoinHostPort w.ServerHost (toString w.ServerPort)
    Path := "/" ++ env.pathJoin (["api", APIVersion] ++ segments.map env.PathEscape)
    RawQuery := params.getD [] }

/-- The function `SendJSONRequest`: a POST of a JSON body. -/
def SendJSONRequest (env : Env) (u : URL) (data : JSON) (w : World) : World × HTTPResult :=
  (w.emit (.httpPost u data), env.httpPost u data)

/-- The function `SendUdpuStatus`: posts the status heartbeat. -/
def SendUdpuStatus (env : Env) (subscriberUID state status : String) (w : World) : World :=
  let data := JSON.obj [("state", .str state), ("status", .str status),
    ("subscriber_uid", .str subscriberUID)]
  (SendJSONRequest env (CreateURL env "http" none ["udpu", "status"] w) data w).1

/-- The function `SendStampData`: posts the device stamp; a status 403 ends the
process. -/
def SendStampData (env : Env) (u : URL) (data : StampData) (w : World) :
    World × Option Error :=
  let body := JSON.obj [("mac_address", .str data.MACAddress), ("body", .str data.Body)]
  let r := SendJSONRequest env u body w
  match r.2 with
  | .failed e => (r.1, some e)
  | .response status _ =>
    if status = 403 then ({ r.1 with exit := some 1 }, none) else (r.1, none)

/-- The function `FetchStamp`: the stamp recorded by the server, or the empty
string and an error. -/
def FetchStamp (env : Env) (u : URL) (w : World) : World × String × Option Error :=
  let w := w.emit (.httpGet u)
  match env.httpGet u with
  | .failed e => (w, "", some e)
  | .response status body =>
    if status ≠ 200 then (w, "", some (.message "Server response status"))
    else
      match body.onlyValue with
      | none => (w, "", some .jsonSyntax)
      | some v =>
        let r := decodeStringMap v
        match r.2 with
        | some e => (w, "", some e)
        | none =>
          match r.1.lookup "body" with
          | none => (w, "", some (.message "Key 'body' does not exist"))
          | some stamp => (w, stamp, none)

/-- The registration test of `hasRealMAC`: the trimmed, lower-cased MAC is not
the all-zero placeholder. -/
def isRegisteredMAC (resp : ServerResponse) : Bool :=
  ToLower (TrimSpace resp.MacAddress) ≠ "00:00:00:00:00:00"

/-- The function `hasRealMAC`: reports whether the MAC is real and sends the
status accordingly. -/
def hasRealMAC (env : Env) (resp : ServerResponse) (w : World) : World × Bool :=
  let registered := isRegisteredMAC resp
  if registered then (SendUdpuStatus env resp.SubscriberUID "registered" "online" w, registered)
  else (SendUdpuStatus env resp.SubscriberUID "not_registered" "online" w, registered)

/-- The function `utils.GetClientSubscriberId`: the client name or "none". -/
def GetClientSubscriberId (w : World) : String :=
  match GetClient w with
  | .error _ => "none"
  | .ok client => if client.Name = "" then "none" else client.Name

/-- The function `GetUdpuDataByMac`: fetches the descriptor by MAC and updates
the registration flag. -/
def GetUdpuDataByMac (env : Env) (macAddress : String) (w : World) :
    World × Except Error ServerResponse :=
  let clientName := GetClientSubscriberId w
  let u := CreateURL env "http" (some [("subscriber", clientName)])
    ["adapter", macAddress, "udpu"] w
  let w := w.emit (.httpGet u)
  match env.httpGet u with
  | .failed e => ({ w with isUnregisteredDevice := true }, .error e)
  | .response status body =>
    if status ≠ 200 then
      ({ w with isUnregisteredDevice := true }, .error (.message "unexpected HTTP status"))
    else
      let r := unmarshalServerResponse body
      match r.2 with
      | some e => (w, .error e)
      | none =>
        let h := hasRealMAC env r.1 w
        ({ h.1 with isUnregisteredDevice := !h.2 }, .ok r.1)

/-- The function `WaitForData`: polls until the descriptor arrives or the
context is cancelled.  The outside world of the model answers a request the
same way every time, so a request that fails keeps failing until the context is
cancelled; its attempts are recorded once. -/
def WaitForData (env : Env) (macAddress : String) (w : World) :
    World × Except Error ServerResponse :=
  if w.cancelled then (w, .error (.message "context canceled"))
  else
    let r := GetUdpuDataByMac env macAddress w
    match r.2 with
    | .ok resp => (r.1, .ok resp)
    | .error _ => ({ r.1 with cancelled := true }, .error (.message "context canceled"))

/-- The function `StartUdpuStatusLoop`: starts the status heartbeat goroutine. -/
def StartUdpuStatusLoop (subscriberUID : String) (w : World) : World :=
  w.emit (.go (.statusLoop subscriberUID))

/-! ## `ws`: the push channel -/

/-- The function `InitWS`: dials the push channel, again after every refusal,
until a dial is accepted, and stores the connection in `WSConn`; every dial is
recorded.  When every dial is refused the loop never ends and the function
does not return: the world is then marked as blocked with the first dial
recorded, and `WSConn` is left alone. -/
def InitWS (env : Env) (subscriberUID : String) (w : World) : World :=
  let u := CreateURL env "ws" (some [("channel", subscriberUID)]) ["pubsub"] w
  match env.wsDial u with
  | none => { w.emit (.wsDial u) with blocked := true }
  | some refused =>
    { w with
      trace := w.trace ++ List.replicate (refused + 1) (.wsDial u)
      WSConn := some subscriberUID }

/-- The call `global.WSConn.WriteMessage(websocket.TextMessage, msg)`. -/
def WriteMessage (env : Env) (msg : JSON) (w : World) : World × Option Error :=
  match w.WSConn with
  | none => (goPanic w, none)
  | some _ => (w.emit (.wsWrite msg), env.wsWrite msg)

/-! ## `global`: commands, jobs and the scheduler -/

/-- The function `sendJobLog`, run in its own goroutine after each command: posts
the outcome to the log endpoint.  A missing client record or a failed request
ends the process through `logx.Fatalf`. -/
def sendJobLog (env : Env) (name command stdOut stdErr : String) (statusCode : Int)
    (w : World) : World :=
  match GetClient w with
  | .error _ => Fatalf w
  | .ok client =>
    let data := JSON.obj [("client", .str client.Name), ("name", .str name),
      ("command", .str command), ("std_err", .str stdErr), ("std_out", .str stdOut),
      ("status_code", .str (toString statusCode)), ("timestamp", .str env.nowRFC3339)]
    let u : URL :=
      { Scheme := "http"
        Host := JoinHostPort w.ServerHost (toString w.ServerPort)
        Path := "/" ++ env.pathJoin ["api", APIVersion, "logs", "jobs"] }
    let w := w.emit (.httpPost u data)
    match env.httpPost u data with
    | .failed _ => Fatalf w
    | .response _ _ => w

/-- The function `ExecuteCommand`: runs a shell command and returns its trimmed
standard output, or its trimmed standard error and an error. -/
def ExecuteCommand (env : Env) (command name : String) (w : World) :
    World × String × Option Error :=
  let command := replaceQuotes command
  let w := w.emit (.shell command)
  let r := env.shell command
  let output := TrimSpace r.stdout
  let errorOutput := TrimSpace r.stderr
  let exitCode : Int := r.processState.getD (-1)
  let w := w.emit (.go (.sendJobLog name command output errorOutput exitCode))
  match r.err with
  | some _ => (w, errorOutput, some (.message ("Error, stderr: " ++ errorOutput)))
  | none => (w, output, none)

/-- The function `ExecuteJob`: runs the job once and posts the result over the
push channel. -/
def ExecuteJob (env : Env) (data : ExecuteJobData) (w : World) : World :=
  let r := ExecuteCommand env data.Command data.Name w
  let msg := JSON.obj [("response", .str r.2.1)]
  (WriteMessage env msg r.1).1

/-- The function `GetDataFromServer`: a GET whose body is decoded into a dynamic
value; nil (here `none`) on any failure and for a JSON `null`. -/
def GetDataFromServer (env : Env) (u : URL) (w : World) : World × Option JSON :=
  let w := w.emit (.httpGet u)
  match env.httpGet u with
  | .failed _ => (w, none)
  | .response status body =>
    if status ≠ 200 then (w, none)
    else
      match body.onlyValue with
      | none => (w, none)
      | some .null => (w, none)
      | some v => (w, some v)

/-- The function `ConvertJobDataToMap`: a job as a generic map for storage. -/
def ConvertJobDataToMap (data : JobData) : FieldMap :=
  GoMap.ofList
    [("name", .str data.Name),
     ("command", .str data.Command),
     ("frequency", .str data.Frequency),
     ("locked", .str data.Locked),
     ("require_output", .str data.RequireOutput),
     ("vbuser_id", .str data.VbuserID),
     ("required_software", .str data.RequiredSoftware),
     ("job_type", .str data.JobType)]

/-- The function `GetJobs`: fetches a list of jobs; nil (here `none`) on any
failure. -/
def GetJobs (env : Env) (u : URL) (w : World) : World × Option (List JobData) :=
  let w := w.emit (.httpGet u)
  match env.httpGet u with
  | .failed _ => (w, none)
  | .response status body =>
    if status ≠ 200 then (w, none)
    else
      let r := unmarshalJobs body
      match r.2 with
      | some _ => (w, none)
      | none => (w, r.1)

/-- The function `ScheduleJob`: schedules periodic execution according to the
frequency code; an unsupported code schedules nothing. -/
def ScheduleJob (jobFrequency : String) (data : ExecuteJobData) (w : World) : World :=
  let interval : Option String :=
    if jobFrequency = "1" then some "@every 1m"
    else if jobFrequency = "15" then some "@every 15m"
    else if jobFrequency = "60" then some "@every 1h"
    else if jobFrequency = "1440" then some "@every 24h"
    else none
  match interval with
  | none => w
  | some spec =>
    match cronEvery spec with
    | none => w
    | some _ => (w.emit (.cronAddFunc spec data)).emit .cronStart

/-- The function `GetFilteredJobs`: requests the jobs named in a comma-separated
list.  Every failure but a status other than 200 ends the process. -/
def GetFilteredJobs (env : Env) (baseURL : URL) (jobList : String) (w : World) :
    World × Except Error (List JobData) :=
  let u := { baseURL with
    RawQuery := (baseURL.RawQuery.filter fun kv => kv.1 ≠ "filter_by") ++
      [("filter_by", jobList)] }
  let w := w.emit (.httpGet u)
  match env.httpGet u with
  | .failed e => (Fatalf w, .error e)
  | .response status body =>
    if status ≠ 200 then (w, .error (.message "bad status"))
    else
      let r := unmarshalJobs body
      match r.2 with
      | some e => (Fatalf w, .error e)
      | none => (w, .ok (r.1.getD []))

/-! ## `event`: job and queue messages -/

/-- The function `updateVbuser`: sends a PATCH request to update vbuser fields. -/
def updateVbuser (env : Env) (url : String) (payload : GoMap String) (w : World) :
    World × Option Error :=
  (w.emit (.httpPatch url payload), env.httpPatch url payload)

/-- The payload that `processJob` builds from the job type and the output. -/
def vbuserPayload (jobType output : String) : GoMap String :=
  if jobType = "update_ep" then GoMap.ofList [("ghn_ep_mac", output)]
  else if jobType = "update_dm" then GoMap.ofList [("ghn_dm_mac", output)]
  else if jobType = "update_min_rate" then GoMap.ofList [("lq_min_rate", output)]
  else if jobType = "update_max_rate" then
    GoMap.ofList [("lq_max_rate", output), ("lq_current_rate", output)]
  else ∅

/-- The function `processJob`: executes a job and optionally updates vbuser
fields. -/
def processJob (env : Env) (data : JobData) (w : World) : World × String × Option Error :=
  let host := w.ServerHost ++ ":" ++ toString w.ServerPort
  if data.VbuserID ≠ "" then
    let r := ExecuteCommand env data.Command data.Name w
    match r.2.2 with
    | some err => (r.1, "", some err)
    | none =>
      let output := r.2.1
      let vbuserURL := "http://" ++ host ++ "/api/v1.0/vbuser/" ++ data.VbuserID
      let payload := vbuserPayload data.JobType output
      let w := if payload ≠ ∅ then (updateVbuser env vbuserURL payload r.1).1 else r.1
      (w, output, none)
  else
    let r := ExecuteCommand env data.Command data.Name w
    match r.2.2 with
    | some err => (r.1, "", some err)
    | none => (r.1, r.2.1, none)

/-- The value of `dataMap["url"].(string)` for a decoded JSON body: the body has
to be an object whose (last) member `url` is a string. -/
def urlOfBody : Option JSON → Option String
  | some (.obj ms) =>
    match ms.reverse.find? (fun kv => kv.1 = "url") with
    | some (_, .str urlStr) => some urlStr
    | _ => none
  | _ => none

/-- The loop of `downloadRequiredSoftware`: one repository lookup per software
ID, collecting the URLs found. -/
def resolveSoftware (env : Env) (host : String) :
    List String → World × List String → World × List String
  | [], st => st
  | softwareID :: rest, st =>
    let u : URL := { Scheme := "http", Host := host, Path := "/api/v1.0/repo/" ++ softwareID }
    let r := GetDataFromServer env u st.1
    match urlOfBody r.2 with
    | none => resolveSoftware env host rest (r.1, st.2)
    | some urlStr => resolveSoftware env host rest (r.1, st.2 ++ [urlStr])

/-- The function `downloadRequiredSoftware`: resolves software URLs and starts
the concurrent download. -/
def downloadRequiredSoftware (env : Env) (softwareIDs : List String) (w : World) : World :=
  let host := w.RepoHost ++ ":" ++ toString w.RepoPort
  let r := resolveSoftware env host softwareIDs (w, [])
  if r.2.length > 0 then
    r.1.emit (.go (.DownloadSoftwareConcurrently r.2 r.1.SoftwarePath))
  else r.1

/-- The upsert used for a received job: `CreateData` if `GetData` finds nothing
under the name, `UpdateData` otherwise. -/
def upsertJob (name : String) (dataMap : FieldMap) (w : World) : World :=
  match GetData "job" name w with
  | none => CreateData "job" dataMap w
  | some _ => UpdateData "job" name dataMap w

/-- The function `JobEvent`: handles a job message: persist, schedule, execute,
and optionally respond. -/
def JobEvent (env : Env) (data : JobData) (w : World) : World :=
  if data.Locked ≠ "false" then w
  else
    let w :=
      if data.RequiredSoftware ≠ "None" then
        downloadRequiredSoftware env (SplitComma data.RequiredSoftware) w
      else w
    let dataMap := ConvertJobDataToMap data
    let w := upsertJob data.Name dataMap w
    let w :=
      if data.Frequency = EveryBoot ∧ data.Command ≠ "" then upsertJob data.Name dataMap w
      else w
    let executeData : ExecuteJobData :=
      { Name := data.Name, Command := data.Command, RequireOutput := data.RequireOutput }
    let w := ScheduleJob data.Frequency executeData w
    let r := processJob env data w
    match r.2.2 with
    | some _ => r.1
    | none =>
      if data.RequireOutput = "false" then r.1
      else (WriteMessage env (.obj [("response", .str r.2.1)]) r.1).1

/-- The loop of `QueueEvent` over the resolved jobs; it ends when the process
has been terminated. -/
def runQueueJobs (env : Env) : List JobData → World → World
  | [], w => w
  | job :: rest, w =>
    if w.exit.isSome then w
    else
      let w :=
        if job.RequiredSoftware ≠ "" then
          downloadRequiredSoftware env (SplitComma job.RequiredSoftware) w
        else w
      if job.RequireOutput = "true" then
        let r := ExecuteCommand env job.Command job.Name w
        match r.2.2 with
        | some _ => runQueueJobs env rest r.1
        | none =>
          runQueueJobs env rest (WriteMessage env (.obj [("response", .str r.2.1)]) r.1).1
      else runQueueJobs env rest w

/-- The function `QueueEvent`: resolves and executes jobs from a queue and
optionally replies. -/
def QueueEvent (env : Env) (data : QueueData) (w : World) : World :=
  if data.Locked ≠ "false" then w
  else
    let serverHost := w.ServerHost ++ ":" ++ toString w.ServerPort
    let sUrl : URL := { Scheme := "http", Host := serverHost, Path := "/api/v1.0/jobs/" }
    let r := GetFilteredJobs env sUrl data.Jobs w
    match r.2 with
    | .error _ => r.1
    | .ok jobs => runQueueJobs env jobs r.1

/-! ## `jobs`: boot-time processing -/

/-- The function `executeJobFromMap`: validates the map and executes the job. -/
def executeJobFromMap (env : Env) (jobData : FieldMap) (w : World) : World :=
  match jobData.getString "name" with
  | none => w
  | some name =>
    match jobData.getString "command" with
    | none => w
    | some command =>
      match jobData.getString "require_output" with
      | none => w
      | some requireOutput =>
        ExecuteJob env { Name := name, Command := command, RequireOutput := requireOutput } w

/-- The test of `ProcessJobs` on one job map:
`locked, ok := jobData["locked"].(string); !ok || locked != "true"`. -/
def startsExecution (jobData : FieldMap) : Bool :=
  match jobData.getString "locked" with
  | none => true
  | some locked => locked ≠ "true"

/-- The function `ProcessJobs`: starts execution, each in a goroutine of its own,
for the jobs that pass the test on `locked`. -/
def ProcessJobs : List FieldMap → World → World
  | [], w => w
  | jobData :: rest, w =>
    if startsExecution jobData then ProcessJobs rest (w.emit (.go (.executeJobFromMap jobData)))
    else ProcessJobs rest w

/-- The function `UpdateJobs`: upserts jobs into the local store. -/
def UpdateJobs : List JobData → World → World
  | [], w => w
  | job :: rest, w => UpdateJobs rest (upsertJob job.Name (ConvertJobDataToMap job) w)

/-- The function `ProcessScheduledJobs`: schedules periodic execution for jobs. -/
def ProcessScheduledJobs : List FieldMap → World → World
  | [], w => w
  | jobData :: rest, w =>
    match jobData.getString "name", jobData.getString "command",
        jobData.getString "require_output", jobData.getString "frequency" with
    | some name, some command, some requireOutput, some frequency =>
      ProcessScheduledJobs rest
        (ScheduleJob frequency
          { Name := name, Command := command, RequireOutput := requireOutput } w)
    | _, _, _, _ => ProcessScheduledJobs rest w

/-! ## `process`: start of the job flows -/

/-- The field map `types.NewUdpuUpdate(r).ToMap()`. -/
def NewUdpuUpdateToMap (r : ServerResponse) : FieldMap :=
  GoMap.ofList
    [("udpu_upstream_qos", .str r.UpstreamQoS),
     ("udpu_downstream_qos", .str r.DownstreamQoS),
     ("udpu_hostname", .str r.Hostname),
     ("udpu_location", .str r.Location),
     ("udpu_role", .str r.Role),
     ("boot_status", .str "every_boot")]

/-- The function `ProcessUdpuData`: persists client data and starts the job
processing flows. -/
def ProcessUdpuData (env : Env) (respObj : ServerResponse) (w : World) : World :=
  let w :=
    match GetData "client" respObj.SubscriberUID w with
    | none =>
      let r := InsertIntoClient respObj w
      match r.2 with
      | some _ => Fatalf r.1
      | none => r.1
    | some _ => UpdateData "client" respObj.SubscriberUID (NewUdpuUpdateToMap respObj) w
  if w.exit.isSome then w
  else
    match GetClient w with
    | .error _ => Fatalf w
    | .ok client =>
      let w :=
        if client.BootStatus = BootStatusFirst then
          let r := GetJobs env (CreateURL env "http" none ["roles", client.UdpuRole, "jobs"] w) w
          match r.2 with
          | some firstBootJobsList =>
            let w := UpdateJobs firstBootJobsList r.1
            ProcessJobs ((GetFirstBootJobs w).getD []) w
          | none => r.1
        else w
      let w :=
        if client.BootStatus = BootStatusRegular then
          let r := GetJobs env (CreateURL env "http" none ["jobs", "frequency", "every_boot"] w) w
          let w :=
            match r.2 with
            | some everyBootJobsList => UpdateJobs everyBootJobsList r.1
            | none => r.1
          ProcessJobs ((GetEveryBootJobs w).getD []) w
        else w
      ProcessScheduledJobs ((GetJobsScheduled w).getD []) w

/-- The first decoding step of `ProcessAndRespondAsync`:
`json.Unmarshal(message, &requestMessage)` for the struct whose only field is
`ActionType` with the JSON name `action_type`. -/
def unmarshalActionType (message : FileContent) : String × Option Error :=
  match message.onlyValue with
  | none => ("", some .jsonSyntax)
  | some (.obj ms) =>
    ms.foldl (fun st kv =>
      match findField ["action_type"] kv.1 with
      | none => st
      | some _ =>
        let r := decodeString kv.2 st.1
        (r.1, saveError st.2 r.2)) ("", none)
  | some .null => ("", none)
  | some other => ("", some (.jsonType other.kind))

/-- The call `json.Unmarshal(message, &jobData)` for a zero `JobData`. -/
def unmarshalJobData (message : FileContent) : JobData × Option Error :=
  match message.onlyValue with
  | none => ({}, some .jsonSyntax)
  | some v => decodeJobData v {}

/-- JSON names of the fields of `QueueData`, in declaration order. -/
def queueDataFields : List String := ["name", "jobs", "locked"]

/-- One member of a JSON object decoded into a `QueueData`; a key that matches
no field is skipped. -/
def decodeQueueDataMember (st : QueueData × Option Error) (kv : String × JSON) :
    QueueData × Option Error :=
  match findField queueDataFields kv.1 with
  | some "name" =>
    let r := decodeString kv.2 st.1.Name
    ({ st.1 with Name := r.1 }, saveError st.2 r.2)
  | some "jobs" =>
    let r := decodeString kv.2 st.1.Jobs
    ({ st.1 with Jobs := r.1 }, saveError st.2 r.2)
  | some "locked" =>
    let r := decodeString kv.2 st.1.Locked
    ({ st.1 with Locked := r.1 }, saveError st.2 r.2)
  | _ => st

/-- The call `json.Unmarshal(message, &queueData)` for a zero `QueueData`. -/
def unmarshalQueueData (message : FileContent) : QueueData × Option Error :=
  match message.onlyValue with
  | none => ({}, some .jsonSyntax)
  | some (.obj ms) => ms.foldl decodeQueueDataMember ({}, none)
  | some .null => ({}, none)
  | some other => ({}, some (.jsonType other.kind))

/-- The goroutine that `ProcessAndRespondAsync` starts for an inbound message:
the message is routed by its action type to `JobEvent` or `QueueEvent`; a
message that does not decode, and any other action type, is logged and
dropped. -/
def ProcessAndRespondAsync (env : Env) (message : FileContent) (w : World) : World :=
  let requestMessage := unmarshalActionType message
  match requestMessage.2 with
  | some _ => w
  | none =>
    if requestMessage.1 = "job" then
      let jobData := unmarshalJobData message
      match jobData.2 with
      | some _ => w
      | none => JobEvent env jobData.1 w
    else if requestMessage.1 = "queue" then
      let queueData := unmarshalQueueData message
      match queueData.2 with
      | some _ => w
      | none => QueueEvent env queueData.1 w
    else w

/-- The field of a `QueueData` with the given JSON name. -/
def QueueData.getField (q : QueueData) (field : String) : String :=
  if field = "name" then q.Name
  else if field = "jobs" then q.Jobs
  else if field = "locked" then q.Locked
  else ""

/-- Assignment to the field of a `QueueData` with the given JSON name. -/
def QueueData.setField (q : QueueData) (field : String) (s : String) : QueueData :=
  if field = "name" then { q with Name := s }
  else if field = "jobs" then { q with Jobs := s }
  else if field = "locked" then { q with Locked := s }
  else q

/-- One member of a JSON object decoded into a struct of string fields that is
read and written by field name; a key that matches no field is skipped. -/
def decodeWith {R : Type} (fields : List String) (get : R → String → String)
    (set : R → String → String → R) (st : R × Option Error) (kv : String × JSON) :
    R × Option Error :=
  match findField fields kv.1 with
  | none => st
  | some f =>
    let r := decodeString kv.2 (get st.1 f)
    (set st.1 f r.1, saveError st.2 r.2)

/-! ## Reading of an inbound message by its members -/

/-- The string of a JSON value that is a string. -/
def JSON.string? : JSON → Option String
  | .str s => some s
  | _ => none

/-- Whether a JSON value can be stored into a Go string: a string, or `null`,
which stores nothing. -/
def JSON.fitsString : JSON → Bool
  | .str _ => true
  | .null => true
  | _ => false

/-- Whether every member of an object whose key names one of the fields has a
value that can be stored into a string. -/
def membersFit (fields : List String) (ms : List (String × JSON)) : Bool :=
  ms.all fun kv => (findField fields kv.1).isNone || kv.2.fitsString

/-- The strings that the members of an object give to a field, in the order of
the text: those of the string-valued members whose key names the field. -/
def memberStrings (fields : List String) (ms : List (String × JSON)) (f : String) :
    List String :=
  ms.filterMap fun kv => if findField fields kv.1 = some f then kv.2.string? else none

/-- The value that the members of an object give to a field: the last of its
strings, and the empty string when there is none. -/
def memberValue (fields : List String) (ms : List (String × JSON)) (f : String) : String :=
  (memberStrings fields ms f).getLast?.getD ""

/-- The job that the members of an object describe. -/
def jobOfMembers (ms : List (String × JSON)) : JobData :=
  { Command := memberValue jobDataFields ms "command"
    VbuserID := memberValue jobDataFields ms "vbuser_id"
    Frequency := memberValue jobDataFields ms "frequency"
    Locked := memberValue jobDataFields ms "locked"
    RequiredSoftware := memberValue jobDataFields ms "required_software"
    Name := memberValue jobDataFields ms "name"
    RequireOutput := memberValue jobDataFields ms "require_output"
    JobType := memberValue jobDataFields ms "type" }

/-- The queue that the members of an object describe. -/
def queueOfMembers (ms : List (String × JSON)) : QueueData :=
  { Name := memberValue queueDataFields ms "name"
    Jobs := memberValue queueDataFields ms "jobs"
    Locked := memberValue queueDataFields ms "locked" }

/-- Where an inbound message goes. -/
inductive Route where
  | job (data : JobData)
  | queue (data : QueueData)
  | dropped
  deriving DecidableEq, Repr

/-- The routing of an inbound message read off its text: a message that is one
JSON object, whose members named `action_type` are strings or `null` and give
the action type `job`, and whose members named after the fields of a job are
strings or `null`, goes to the job handler as the job its members describe;
likewise for `queue`; every other message is dropped. -/
def routeOf (message : FileContent) : Route :=
  match message.onlyValue with
  | some (.obj ms) =>
    if membersFit ["action_type"] ms then
      if memberValue ["action_type"] ms "action_type" = "job" then
        if membersFit jobDataFields ms then .job (jobOfMembers ms) else .dropped
      else if memberValue ["action_type"] ms "action_type" = "queue" then
        if membersFit queueDataFields ms then .queue (queueOfMembers ms) else .dropped
      else .dropped
    else .dropped
  | _ => .dropped

/-! ## `repo`: downloads -/

/-- The function `getFileNameFromURL`: the text after the last `/` of the URL,
or a default name with the time stamp when the URL or that text is empty. -/
def getFileNameFromURL (env : Env) (url : String) : String :=
  let defaultFileName := "default_name_" ++ toString env.now
  if url = "" then defaultFileName
  else
    let splits := (splitChars '/' url.data).map String.mk
    match splits.getLast? with
    | none => defaultFileName
    | some fileName => if fileName = "" then defaultFileName else fileName

/-- One element of a path met by `filepath.Clean`, given the elements kept so
far: an empty element and `.` are dropped; `..` removes the element before it,
is dropped at the root, and is kept at the start of a path that is not rooted
or after another `..`; every other element is kept. -/
def cleanStep (rooted : Bool) (kept : List String) (e : String) : List String :=
  if e = "" ∨ e = "." then kept
  else if e = ".." then
    match kept.getLast? with
    | none => if rooted then kept else kept ++ [e]
    | some top => if top = ".." then kept ++ [e] else kept.dropLast
  else kept ++ [e]

/-- Whether a Unix path begins at the root. -/
def isRooted (path : String) : Bool := path.data.head? = some '/'

/-- The elements of the cleaned form of a Unix path. -/
def pathElements (path : String) : List String :=
  ((splitChars '/' path.data).map String.mk).foldl (cleanStep (isRooted path)) []

/-- The text of a cleaned path with the given elements: the elements separated
by `/`, after a `/` if the path is rooted, and `.` for no element at all. -/
def renderPath (rooted : Bool) (elems : List String) : String :=
  if rooted then "/" ++ String.intercalate "/" elems
  else if elems = [] then "." else String.intercalate "/" elems

/-- The function `filepath.Clean` on a Unix path. -/
def filepathClean (path : String) : String := renderPath (isRooted path) (pathElements path)

/-- The function `filepath.Join` on Unix: the elements from the first non-empty
one on are joined with `/` and the result is cleaned; no such element gives the
empty string. -/
def filepathJoin (elem : List String) : String :=
  match elem.dropWhile (fun e => e = "") with
  | [] => ""
  | rest => filepathClean (String.intercalate "/" rest)

/-- The function `downloadFile`: fetches a single file and writes it into the
directory `filePath`; returns the success flag and the final file name. -/
def downloadFile (env : Env) (url filePath : String) (w : World) : World × Bool × String :=
  if url = "" then (w, false, "")
  else
    let w := w.emit (.httpGetURL url)
    match env.httpGetURL url with
    | .failed _ => (w, false, "")
    | .response status body =>
      if status = 200 then
        let fileName := getFileNameFromURL env url
        let filePath := filepathJoin [filePath, fileName]
        match w.fsError (.create filePath) with
        | some _ => (w, false, "")
        | none =>
          match w.fsError (.copy filePath) with
          | some _ => ({ w with files := w.files.insert filePath (.raw "") }, false, "")
          | none => ({ w with files := w.files.insert filePath body }, true, fileName)
      else (w, false, "")

/-! ## `main`: the start-up sequence

Flag parsing and the handler of the shutdown signal are not modelled; `main` is
followed up to the point where it blocks on the lifetime context, the
goroutines it starts being recorded as tasks. -/

/-- The function `utils.GenerateSecret`: the SHA-256 hex digest of mac+secret. -/
def GenerateSecret (env : Env) (mac secret : String) : String :=
  hexEncode (env.sha256 (utf8Bytes (mac ++ secret)))

/-- The closure `startRegisteredRuntime` of `main`: for a non-nil descriptor, and
only the first time, persists the subscriber UID, sets up the tunnel, opens the
push channel and starts its listener, starts the status loop and processes the
descriptor. -/
def startRegisteredRuntime (env : Env) (cur : Option ServerResponse) (w : World) : World :=
  match cur with
  | none => w
  | some cur =>
    if w.registeredRuntimeOnce then w
    else
      let w := { w with registeredRuntimeOnce := true }
      let w := (UpdateOrCreateClientName cur.SubscriberUID w).1
      let w := w.emit (.setupWG cur)
      let w :=
        match env.setupWG cur with
        | some _ => w
        | none =>
          match env.parseCIDR cur.WGServerIP with
          | some ipPart => { w with ServerHost := ipPart }
          | none => w
      let w := InitWS env cur.SubscriberUID w
      if w.blocked then w
      else
        let w := w.emit (.go (.listenLoop cur.SubscriberUID))
        let w := StartUdpuStatusLoop cur.SubscriberUID w
        ProcessUdpuData env cur w

/-- One tick of the polling goroutine that `main` starts for a placeholder MAC;
the flag tells whether the goroutine ends. -/
def pollTick (env : Env) (mac : String) (w : World) : World × Bool :=
  let r := GetUdpuDataByMac env mac w
  match r.2 with
  | .error _ => (r.1, false)
  | .ok upd =>
    let w := { r.1 with respAtomic := some upd }
    let w := (UpdateOrCreateClientName upd.SubscriberUID w).1
    if upd.MacAddress ≠ ZeroMAC then (startRegisteredRuntime env (some upd) w, true)
    else (w, false)

/-- The part of `main` after the stamp has been accepted: waits for the
descriptor, persists the subscriber UID, starts the registered runtime or the
polling goroutine, and starts the sender for unregistered devices. -/
def mainAwaitIdentity (env : Env) (mac : String) (w : World) : World :=
  let r := WaitForData env mac w
  match r.2 with
  | .error _ => Fatalf r.1
  | .ok respObj =>
    let w := (UpdateOrCreateClientName respObj.SubscriberUID r.1).1
    let w := { w with respAtomic := some respObj }
    let w :=
      if respObj.MacAddress = ZeroMAC then w.emit (.go (.pollByMac mac))
      else startRegisteredRuntime env w.respAtomic w
    if w.exit.isSome ∨ w.blocked then w else w.emit (.go .unregisteredSender)

/-- The part of `main` from "Generate device stamp" on.  Without a prior secret
the stamp is sent to the server; with one, the server's stamp for this MAC is
fetched and compared, and on a mismatch the lifetime context is cancelled and
`main` returns. -/
def mainVerifyStamp (env : Env) (mac : String) (w : World) : World :=
  let udpuStamp := GenerateSecret env mac w.secretKey
  if !w.hadExisting then
    let data : StampData := { MACAddress := mac, Body := udpuStamp }
    let stampsURL := CreateURL env "http" none ["stamps"] w
    let r := SendStampData env stampsURL data w
    if r.1.exit.isSome then r.1 else mainAwaitIdentity env mac r.1
  else
    let stampsURLWithMAC := CreateURL env "http" none ["stamps", mac] w
    let r := FetchStamp env stampsURLWithMAC w
    if r.2.1 ≠ udpuStamp then { r.1 with cancelled := true }
    else mainAwaitIdentity env mac r.1

/-- The secret handling of `main`: the store in local-test mode, the U-Boot
environment in production. -/
def mainSecret (env : Env) (w : World) : World :=
  if env.flags.LocalTest then
    match GetClientSecretKey w with
    | some k => { w with secretKey := k, hadExisting := true }
    | none =>
      let w := { w with secretKey := env.randomHash }
      let w := (SetClientSecretKey w.secretKey w).1
      { w with hadExisting := false }
  else
    let w := w.emit (.getFwEnv SecretEnv)
    match env.getFwEnv SecretEnv with
    | .ok k =>
      if k ≠ "" then { w with secretKey := k, hadExisting := true }
      else
        let w := { w with secretKey := env.randomHash }
        let w := w.emit (.setFwEnv SecretEnv w.secretKey)
        { w with hadExisting := false }
    | .error _ =>
      let w := { w with secretKey := env.randomHash }
      let w := w.emit (.setFwEnv SecretEnv w.secretKey)
      { w with hadExisting := false }

/-- The part of `main` that finds the device's addresses and the services, and
then goes on to the stamp. -/
def mainNetwork (env : Env) (w : World) : World :=
  let w :=
    if env.flags.LocalTest then
      { w with
        ServerHost := LocalTestServerHost, ServerPort := LocalTestServerPort,
        RepoHost := LocalTestRepoHost, RepoPort := LocalTestRepoPort }
    else w
  match env.outboundIP with
  | .error _ => Fatalf w
  | .ok ip =>
    let w := { w with deviceIP := ip }
    if env.flags.LocalTest then
      let mac := if env.localTestMAC ≠ "" then env.localTestMAC else LocalTestMAC
      mainVerifyStamp env mac w
    else
      match env.macAddress with
      | .error _ => Fatalf w
      | .ok mac =>
        let w := w.emit (.discover env.flags.DiscoveryHost env.flags.DiscoveryPort "server")
        let w := { w with
          ServerHost := (env.discover "server").1, ServerPort := (env.discover "server").2 }
        let w := w.emit (.discover env.flags.DiscoveryHost env.flags.DiscoveryPort "repo")
        let w := { w with
          RepoHost := (env.discover "repo").1, RepoPort := (env.discover "repo").2 }
        mainVerifyStamp env mac w

/-- The function `main`, up to the point where it blocks on the lifetime
context. -/
def main (env : Env) (w : World) : World :=
  if env.flags.DiscoveryHost = "" ∨ env.flags.DiscoveryPort = 0 then Fatalf w
  else
    let w := { w with
      SoftwarePath := env.flags.DownloadPath, MacInterface := env.flags.MacInterface }
    let w := InitDatabase env w
    if w.exit.isSome then w
    else
      let r := CreateTables w
      match r.2 with
      | some _ => Fatalf r.1
      | none => mainNetwork env (mainSecret env r.1)

/-! ## Sample inputs -/

/-- An outside world in which no request gets a response, every command prints
nothing and succeeds, and the digest of everything is the single byte 0. -/
def silentEnv : Env :=
  { sha256 := fun _ => [0]
    PathEscape := fun seg => seg
    pathJoin := fun parts => String.intercalate "/" parts
    now := 0
    nowRFC3339 := "1970-01-01T00:00:00Z"
    configFilePath := "udpu_config.json"
    flags := { DiscoveryHost := "discovery", DiscoveryPort := 80 }
    shell := fun _ => {}
    httpGet := fun _ => .failed (.message "no route to host")
    httpGetURL := fun _ => .failed (.message "no route to host")
    httpPost := fun _ _ => .failed (.message "no route to host")
    httpPatch := fun _ _ => some (.message "no route to host")
    wsWrite := fun _ => none
    getFwEnv := fun _ => .error (.message "fw_printenv error")
    setFwEnv := fun _ _ => none
    randomHash := "00"
    outboundIP := .ok "10.0.0.2"
    localTestMAC := ""
    macAddress := .ok "aa:bb:cc:dd:ee:ff"
    discover := fun _ => ("server", 8888)
    setupWG := fun _ => none
    parseCIDR := fun _ => none
    wsDial := fun _ => some 0 }

/-- A stored job with frequency "15" that carries the lock. -/
def lockedPeriodicJob : Job :=
  { Name := "rotate", Command := "logrotate", Frequency := "15", Locked := "true",
    RequireOutput := "false", RequiredSoftware := "None" }

/-- A stored first-boot job whose lock field was never set. -/
def unsetLockJob : Job :=
  { Name := "probe", Command := "echo hi", Frequency := "first_boot", Locked := "",
    RequireOutput := "false" }

/-- A stored first-boot job whose lock field is neither "true" nor "false". -/
def oddLockJob : Job := { unsetLockJob with Locked := "maybe" }

/-- The job `unsetLockJob` as a message of the push channel. -/
def unsetLockMessage : JobData :=
  { Name := "probe", Command := "echo hi", Frequency := "first_boot", Locked := "",
    RequireOutput := "false" }

/-- A stored first-boot job that is locked. -/
def trueLockJob : Job := { unsetLockJob with Locked := "true" }

/-- A job message for `ping`, as a field map. -/
def pingFields : FieldMap :=
  GoMap.ofList [("name", Any.str "ping"), ("command", Any.str "echo hi")]

/-- An outside world like `silentEnv` in which every GET is answered with status
200 and the JSON object with the single member `body` holding the given stamp. -/
def stampEnv (stamp : String) : Env :=
  { silentEnv with
    httpGet := fun _ => .response 200 (.document (.obj [("body", .str stamp)])) }

/-- A world in which a prior secret exists. -/
def priorSecretWorld : World := { secretKey := "s3cret", hadExisting := true }

/-- An outside world like `silentEnv` whose push-channel endpoint refuses every
dial. -/
def deafEnv : Env := { silentEnv with wsDial := fun _ => none }

/-- An outside world like `silentEnv` whose push-channel endpoint accepts the
third dial. -/
def busyEnv : Env := { silentEnv with wsDial := fun _ => some 2 }

/-- A descriptor with a real MAC address. -/
def firstDescriptor : ServerResponse :=
  { SubscriberUID := "uid-1", MacAddress := "aa:bb:cc:dd:ee:ff", Role := "edge" }

/-- The descriptor of a later poll, with another subscriber. -/
def laterDescriptor : ServerResponse :=
  { SubscriberUID := "uid-2", MacAddress := "aa:bb:cc:dd:ee:ff", Role := "core" }

/-- An outside world like `silentEnv` in which every command prints `hi` and a
line feed and succeeds. -/
def hiEnv : Env := { silentEnv with shell := fun _ => { stdout := "hi\n" } }

/-- The job message of the ping scenario. -/
def pingMessage : JobData :=
  { Name := "ping", Command := "echo hi", Locked := "false", RequireOutput := "true",
    Frequency := "once", RequiredSoftware := "none" }

/-- A world with an empty store whose push channel is open. -/
def connectedWorld : World := { WSConn := some "uid-1" }

/-- An outside world like `hiEnv` in which the job list requested by a queue
holds the single job `ping` with the given required software and with
require_output "false"; no other request is answered. -/
def queueEnv (requiredSoftware : String) : Env :=
  { hiEnv with
    httpGet := fun u =>
      if u.Path = "/api/v1.0/jobs/" then
        .response 200 (.document (.arr [.obj [("name", .str "ping"),
          ("command", .str "echo hi"), ("locked", .str "false"),
          ("require_output", .str "false"),
          ("required_software", .str requiredSoftware)]]))
      else .failed (.message "no route to host") }

/-- An outside world like `hiEnv` in which the job list requested by a queue
holds the single job `ping` without the field require_output; no other request
is answered. -/
def bareQueueEnv : Env :=
  { hiEnv with
    httpGet := fun u =>
      if u.Path = "/api/v1.0/jobs/" then
        .response 200 (.document (.arr [.obj [("name", .str "ping"),
          ("command", .str "echo hi"), ("locked", .str "false")]]))
      else .failed (.message "no route to host") }

/-- A file system on which `/srv` and `/srv/software` are directories, so that no
file can be created at these two paths. -/
def refuseDirectories : FsCall → Option Error
  | .create path =>
    if path = "/srv" ∨ path = "/srv/software" then some (.message "is a directory") else none
  | _ => none

/-- A world with no file yet in which `/srv` and `/srv/software` are
directories. -/
def directoryWorld : World := { fsError := refuseDirectories }

/-- An outside world like `silentEnv` in which every download is answered with
status 200 and the body `payload`. -/
def repoEnv : Env := { silentEnv with httpGetURL := fun _ => .response 200 (.raw "payload") }

/-- An outside world like `silentEnv` whose digest function is SHA-256. -/
def digestEnv : Env := { silentEnv with sha256 := sha256 }

/-- An outside world like `silentEnv` for a device started in local-test mode. -/
def localTestEnv : Env :=
  { silentEnv with flags := { DiscoveryHost := "discovery", DiscoveryPort := 80,
                               LocalTest := true } }

/-- A world whose store is read from `udpu_config.json`, with the given content
of that file. -/
def fileWorld (content : FileContent) : World :=
  { cfgPath := "udpu_config.json", files := GoMap.ofList [("udpu_config.json", content)] }

/-- A store with a client record and one job whose command holds quotes,
ampersands, angle brackets and a tab. -/
def sampleStore : configFile :=
  { Client := { Name := "uid-1", BootStatus := "every_boot", UdpuSecretKey := "00" }
    Jobs := GoMap.ofList [("say", Job.mk "say" "echo \"hi\" && ls <tmp>\t#" "15" "false" "true" "" "" "")]
    Queues := ∅ }

/-- A file system that refuses to create a backup file and refuses nothing
else. -/
def refuseCreate : FsCall → Option Error
  | .create _ => some (.message "no space left on device")
  | _ => none

/-- A world whose store file holds text that is not JSON, on a file system that
refuses to create a backup file. -/
def fullDiskWorld : World :=
  { fileWorld (.raw "not json") with fsError := refuseCreate }

/-- The world of a device started for the first time in local-test mode, once
`main` has initialised the store. -/
def firstBootWorld : World := (CreateTables (InitDatabase localTestEnv {})).1

/-- The job message of the ping scenario as it arrives on the push channel. -/
def pingDocument : FileContent :=
  .document (.obj [("action_type", .str "job"), ("name", .str "ping"),
    ("command", .str "echo hi"), ("locked", .str "false"), ("require_output", .str "true"),
    ("frequency", .str "once"), ("required_software", .str "none")])

/-- A later message for `ping` that gives the name and the lock and nothing
else. -/
def bareDocument : FileContent :=
  .document (.obj [("action_type", .str "job"), ("name", .str "ping"),
    ("locked", .str "false")])

/-- An outside world like `silentEnv` whose digest function is SHA-256 and in
which the descriptor request is answered with the subscriber `uid-1`, the role
`edge` and the given MAC; no other request is answered. -/
def descriptorEnv (mac : String) : Env :=
  { silentEnv with
    sha256 := sha256
    httpGet := fun u =>
      if u.Path = "/api/v1.0/adapter/aa:bb:cc:dd:ee:ff/udpu" then
        .response 200 (.document (.obj [("subscriber_uid", .str "uid-1"),
          ("mac_address", .str mac), ("role", .str "edge")]))
      else .failed (.message "no route to host") }

/-- A store in which the record under the key `a` carries the name `b`, as a
store file written by hand can hold it. -/
def misnamedWorld : World :=
  { cfg := { Jobs := GoMap.ofList [("a", { Name := "b", Command := "ls" })] } }

/-- A world whose store holds the client record of the subscriber `uid-1`. -/
def registeredWorld : World := { cfg := { Client := { Name := "uid-1" } } }

/-- An outside world like `silentEnv` in which every POST is answered with the
given status. -/
def postStatusEnv (status : Nat) : Env :=
  { silentEnv with httpPost := fun _ _ => .response status (.raw "") }

/-- The world of a device started for the first time in production mode, once
`main` has initialised the store. -/
def productionWorld : World := (CreateTables (InitDatabase silentEnv {})).1

/-- The paths of the GET requests in a record of calls, in order. -/
def getPaths (trace : List Effect) : List String :=
  trace.filterMap fun e =>
    match e with
    | .httpGet u => some u.Path
    | _ => none

/-! ## Kinds of calls -/

/-- The kind of a recorded call. -/
inductive EffectKind where
  | goSendJobLog
  | goExecuteJob
  | goDownload
  | goListen
  | goStatus
  | goPoll
  | goUnregistered
  | httpGet
  | httpGetURL
  | httpPost
  | httpPatch
  | shell
  | cronAddFunc
  | cronStart
  | wsDial
  | wsWrite
  | setupWG
  | discover
  | getFwEnv
  | setFwEnv
  deriving DecidableEq, Repr

/-- The kind of a call. -/
def Effect.kind : Effect → EffectKind
  | .go (.sendJobLog _ _ _ _ _) => .goSendJobLog
  | .go (.executeJobFromMap _) => .goExecuteJob
  | .go (.DownloadSoftwareConcurrently _ _) => .goDownload
  | .go (.listenLoop _) => .goListen
  | .go (.statusLoop _) => .goStatus
  | .go (.pollByMac _) => .goPoll
  | .go .unregisteredSender => .goUnregistered
  | .httpGet _ => .httpGet
  | .httpGetURL _ => .httpGetURL
  | .httpPost _ _ => .httpPost
  | .httpPatch _ _ => .httpPatch
  | .shell _ => .shell
  | .cronAddFunc _ _ => .cronAddFunc
  | .cronStart => .cronStart
  | .wsDial _ => .wsDial
  | .wsWrite _ => .wsWrite
  | .setupWG _ => .setupWG
  | .discover _ _ _ => .discover
  | .getFwEnv _ => .getFwEnv
  | .setFwEnv _ _ => .setFwEnv

/-- The message of a call that writes to the push channel. -/
def Effect.wsMessage : Effect → Option JSON
  | .wsWrite msg => some msg
  | _ => none

/-- The world `w'` is `w` with further calls recorded, each of one of the given
kinds, and nothing else changed. -/
def OnlyCalls (kinds : List EffectKind) (w w' : World) : Prop :=
  ∃ t, w' = { w with trace := w.trace ++ t } ∧ ∀ e ∈ t, e.kind ∈ kinds

/-- The world `w'` is `w` with further calls recorded, each of one of the given
kinds, and with possibly another store, other files and another exit status;
every other variable is as in `w`. -/
def Step (kinds : List EffectKind) (w w' : World) : Prop :=
  ∃ t, w'.trace = w.trace ++ t ∧ (∀ e ∈ t, e.kind ∈ kinds) ∧
    { w' with cfg := w.cfg, files := w.files, trace := w.trace, exit := w.exit } = w

/-- Every job record is stored under its own name, and none under the empty
name or the name `<nil>`: the stores that `CreateData` builds are of this
kind, while a store file written by hand need not be. -/
def WellNamed (w : World) : Prop :=
  ∀ k j, w.cfg.Jobs.lookup k = some j → j.Name = k ∧ k ≠ "" ∧ k ≠ "<nil>"

/-- The sequence of calls `startRegisteredRuntime(c)` for the descriptors `c` of a
list, in order. -/
def startRegisteredRuntimeAll (env : Env) (calls : List (Option ServerResponse))
    (w : World) : World :=
  calls.foldl (fun w cur => startRegisteredRuntime env cur w) w

/-! # Theorems -/

/-! ## Finite maps -/

theorem GoMap.toList_toFinmap {α : Type} (a : AList fun _ : String => α) :
    GoMap.toList (AList.toFinmap a) = (sortEntries a.entries).map fun e => (e.1, e.2) := by
  simp [GoMap.toList, Finmap.liftOn_toFinmap]

theorem sortEntries_perm {α : Type} (l : List (Sigma fun _ : String => α)) :
    (sortEntries l).Perm l :=
  List.perm_insertionSort entryLE l

theorem sortEntries_nodupKeys {α : Type} (a : AList fun _ : String => α) :
    (sortEntries a.entries).NodupKeys :=
  (List.perm_nodupKeys (sortEntries_perm a.entries)).2 a.nodupKeys

theorem lookup_foldl_insert {α : Type} (l : List (Sigma fun _ : String => α))
    (h : l.NodupKeys) (acc : GoMap α) (x : String) :
    (l.foldl (fun m e => m.insert e.1 e.2) acc).lookup x
      = (l.dlookup x).orElse fun _ => acc.lookup x := by
  induction l generalizing acc with
  | nil => simp
  | cons e l ih =>
    obtain ⟨k, v⟩ := e
    rw [List.nodupKeys_cons] at h
    rw [List.foldl_cons, ih h.2]
    by_cases hx : x = k
    · subst hx
      have : l.dlookup x = none := List.dlookup_eq_none.2 h.1
      simp [this, Finmap.lookup_insert]
    · have hd : List.dlookup x (⟨k, v⟩ :: l) = List.dlookup x l :=
        List.dlookup_cons_ne l ⟨k, v⟩ hx
      rw [hd, Finmap.lookup_insert_of_ne _ hx]

/-- Inserting the entries of a map, in key order, into the empty map gives the map back. -/
theorem GoMap.foldl_insert_toList {α : Type} (m : GoMap α) :
    m.toList.foldl (fun acc kv => acc.insert kv.1 kv.2) ∅ = m := by
  induction m using Finmap.induction_on with
  | H a =>
    rw [GoMap.toList_toFinmap, List.foldl_map]
    apply Finmap.ext_lookup
    intro x
    rw [lookup_foldl_insert _ (sortEntries_nodupKeys a)]
    rw [List.perm_dlookup x (sortEntries_nodupKeys a) a.nodupKeys (sortEntries_perm a.entries)]
    simp [Finmap.lookup_toFinmap, AList.lookup]

/-- As a multiset, the key-ordered entries of a map are its entries. -/
theorem GoMap.coe_toList {α : Type} (m : GoMap α) :
    (m.toList : Multiset (String × α)) = m.entries.map fun e => (e.1, e.2) := by
  induction m using Finmap.induction_on with
  | H a =>
    rw [GoMap.toList_toFinmap]
    simp only [AList.toFinmap_entries]
    rw [← Multiset.map_coe]
    exact congrArg _ (Quotient.sound (sortEntries_perm a.entries))

theorem GoMap.mem_toList {α : Type} (m : GoMap α) (k : String) (v : α) :
    (k, v) ∈ m.toList ↔ m.lookup k = some v := by
  induction m using Finmap.induction_on with
  | H a =>
    rw [GoMap.toList_toFinmap, Finmap.lookup_toFinmap]
    constructor
    · intro h
      obtain ⟨e, he, heq⟩ := List.mem_map.1 h
      have he2 : e ∈ a.entries := (sortEntries_perm a.entries).mem_iff.1 he
      obtain ⟨k1, v1⟩ := e
      simp only [Prod.mk.injEq] at heq
      obtain ⟨rfl, rfl⟩ := heq
      exact AList.mem_lookup_iff.2 he2
    · intro h
      have he2 : (⟨k, v⟩ : Sigma fun _ : String => α) ∈ a.entries := AList.mem_lookup_iff.1 h
      exact List.mem_map.2 ⟨⟨k, v⟩, (sortEntries_perm a.entries).mem_iff.2 he2, rfl⟩

/-! ## The store file round-trips -/

theorem decodeClient_toJSON (c cur : Client) : decodeClient c.toJSON cur = (c, none) := by
  simp [Client.toJSON, clientFields, decodeClient, decodeClientMember, findField,
    decodeString, Client.getField, Client.setField, saveError]

theorem decodeJob_toJSON (j cur : Job) : decodeJob j.toJSON cur = (j, none) := by
  simp [Job.toJSON, jobFields, decodeJob, decodeJobMember, findField,
    decodeString, Job.getField, Job.setField, saveError]

theorem decodeQueue_toJSON (q cur : Queue) : decodeQueue q.toJSON cur = (q, none) := by
  simp [Queue.toJSON, queueFields, decodeQueue, decodeQueueMember, findField,
    decodeString, Queue.getField, Queue.setField, saveError]

theorem foldl_decodeJobsMember (l : List (String × Job)) (acc : GoMap Job) :
    (l.map fun kv => (kv.1, kv.2.toJSON)).foldl decodeJobsMember (acc, none)
      = (l.foldl (fun m kv => m.insert kv.1 kv.2) acc, none) := by
  induction l generalizing acc with
  | nil => rfl
  | cons kv l ih =>
    simp only [List.map_cons, List.foldl_cons]
    rw [← ih]
    simp [decodeJobsMember, decodeJob_toJSON, saveError]

theorem foldl_decodeQueuesMember (l : List (String × Queue)) (acc : GoMap Queue) :
    (l.map fun kv => (kv.1, kv.2.toJSON)).foldl decodeQueuesMember (acc, none)
      = (l.foldl (fun m kv => m.insert kv.1 kv.2) acc, none) := by
  induction l generalizing acc with
  | nil => rfl
  | cons kv l ih =>
    simp only [List.map_cons, List.foldl_cons]
    rw [← ih]
    simp [decodeQueuesMember, decodeQueue_toJSON, saveError]

/-- Decoding the encoding of a store into the zero store gives the store back. -/
theorem decodeConfig_toJSON (c : configFile) : decodeConfig c.toJSON {} = (c, none) := by
  obtain ⟨cl, jobs, queues⟩ := c
  simp only [configFile.toJSON, decodeConfig, List.foldl_cons, List.foldl_nil]
  simp [decodeConfigMember, findField, configFields, decodeClient_toJSON, saveError,
    decodeJobs, decodeQueues, foldl_decodeJobsMember, foldl_decodeQueuesMember,
    GoMap.foldl_insert_toList]

/-! ## The text of the store file -/

theorem hexVal_hexDigit (k : Nat) (h : k < 16) : hexVal (hexDigit k) = some k := by
  interval_cases k <;> rfl

theorem consChar_some (c : Char) (s rest : List Char) :
    consChar c (some (s, rest)) = some (c :: s, rest) := rfl

theorem scanChars_u00 (n : Nat) (h : n < 256) (fuel : Nat) (rest : List Char) :
    scanChars (fuel + 1)
      (backslash :: 'u' :: '0' :: '0' :: hexDigit (n / 16) :: hexDigit (n % 16) :: rest) =
      consChar (Char.ofNat n) (scanChars fuel rest) := by
  have h1 : hexVal (hexDigit (n / 16)) = some (n / 16) := hexVal_hexDigit _ (by omega)
  have h2 : hexVal (hexDigit (n % 16)) = some (n % 16) := hexVal_hexDigit _ (by omega)
  have h0 : hexVal '0' = some 0 := rfl
  have hq : backslash ≠ quoteChar := by decide
  have hx : hex4 '0' '0' (hexDigit (n / 16)) (hexDigit (n % 16)) = some n := by
    simp only [hex4, h0, h1, h2]
    congr 1
    omega
  rw [scanChars]
  simp only [hq, if_false, if_true, hx]
  rw [if_neg (by omega)]

theorem scanChars_escapeChar (c : Char) (fuel : Nat) (rest : List Char) :
    scanChars (fuel + 1) (escapeChar c ++ rest) = consChar c (scanChars fuel rest) := by
  unfold escapeChar
  split_ifs with h1 h2 h3 h4 h5 h6 h7 h8
  · rcases h1 with rfl | rfl <;> rfl
  · subst h2; rfl
  · subst h3; rfl
  · subst h4; rfl
  · subst h5; rfl
  · subst h6; rfl
  · have hn : c.toNat < 256 := by
      rcases h7 with h | rfl | rfl | rfl
      · omega
      · decide
      · decide
      · decide
    have := scanChars_u00 c.toNat hn fuel rest
    rw [Char.ofNat_toNat] at this
    exact this
  · rcases h8 with rfl | rfl <;> rfl
  · have hq : c ≠ quoteChar := fun h => h1 (Or.inl h)
    have hb : c ≠ backslash := fun h => h1 (Or.inr h)
    have hc : ¬ c.toNat < 32 := fun h => h7 (Or.inl h)
    show scanChars (fuel + 1) (c :: rest) = _
    simp only [scanChars, hq, hb, hc, if_false]

theorem scanChars_escaped (l : List Char) (fuel : Nat) (rest : List Char)
    (h : l.length < fuel) :
    scanChars fuel (l.flatMap escapeChar ++ quoteChar :: rest) = some (l, rest) := by
  induction l generalizing fuel with
  | nil =>
    obtain ⟨f, rfl⟩ : ∃ f, fuel = f + 1 := ⟨fuel - 1, by omega⟩
    simp [scanChars]
  | cons c l ih =>
    obtain ⟨f, rfl⟩ : ∃ f, fuel = f + 1 := ⟨fuel - 1, by omega⟩
    rw [List.flatMap_cons, List.append_assoc, scanChars_escapeChar, ih f (by simpa using h)]
    rfl

theorem escapeChar_length (c : Char) : 1 ≤ (escapeChar c).length := by
  unfold escapeChar
  split_ifs <;> simp

theorem flatMap_escapeChar_length (l : List Char) :
    l.length ≤ (l.flatMap escapeChar).length := by
  induction l with
  | nil => simp
  | cons c l ih =>
    have := escapeChar_length c
    simp only [List.flatMap_cons, List.length_append, List.length_cons]
    omega

theorem encodeString_length (s : String) : 2 ≤ (encodeString s).length := by
  simp [encodeString]

/-- The scanner reads back a string that the encoder wrote. -/
theorem scanChars_encodeString (s : String) (rest : List Char) :
    scanChars ((s.data.flatMap escapeChar ++ quoteChar :: rest).length)
      (s.data.flatMap escapeChar ++ quoteChar :: rest) = some (s.data, rest) := by
  apply scanChars_escaped
  have := flatMap_escapeChar_length s.data
  simp only [List.length_append, List.length_cons]
  omega

theorem skipSpace_newline (d : Nat) (cs : List Char) :
    skipSpace (newline d ++ cs) = skipSpace cs := by
  have h : ∀ n, skipSpace (List.replicate n ' ' ++ cs) = skipSpace cs := by
    intro n
    induction n with
    | zero => rfl
    | succ n ih =>
      rw [List.replicate_succ, List.cons_append, skipSpace]
      simp only [isSpaceJSON, true_or, decide_True, if_true]
      exact ih
  show skipSpace (Char.ofNat 10 :: (List.replicate (2 * d) ' ' ++ cs)) = _
  rw [skipSpace]
  have : isSpaceJSON (Char.ofNat 10) = true := by decide
  rw [if_pos this]
  exact h _

theorem skipSpace_cons (c : Char) (cs : List Char) (h : isSpaceJSON c = false) :
    skipSpace (c :: cs) = c :: cs := by
  rw [skipSpace, h]
  rfl

theorem scan_value_blank (fuel : Nat) (cs : List Char) :
    scan fuel .value (' ' :: cs) = scan fuel .value cs := by
  cases fuel with
  | zero => rfl
  | succ f =>
    rw [scan, scan, skipSpace]
    have : isSpaceJSON ' ' = true := by decide
    rw [if_pos this]

theorem newline_length (d : Nat) : (newline d).length = 2 * d + 1 := by
  simp [newline]

theorem encodeMembers_cons_length (d : Nat) (k : String) (v : JSON) (ms : List (String × JSON)) :
    (encodeMembers d ((k, v) :: ms)).length =
      1 + (2 * d + 1) + (encodeString k).length + 2 + (encodeValue d v).length +
        (encodeMembers d ms).length := by
  rw [encodeMembers]
  simp only [List.length_cons, List.length_append, newline_length]
  omega

/-- The scanner reads back a string value that the encoder wrote. -/
theorem scan_str (s : String) (d fuel : Nat) (rest : List Char)
    (h : (encodeValue d (.str s)).length ≤ fuel) :
    scan fuel .value (encodeValue d (.str s) ++ rest) = some (.str s, rest) := by
  have h2 := encodeString_length s
  rw [encodeValue] at h ⊢
  obtain ⟨f, rfl⟩ : ∃ f, fuel = f + 1 := ⟨fuel - 1, by omega⟩
  have hq : isSpaceJSON quoteChar = false := by decide
  have e : encodeString s ++ rest =
      quoteChar :: (s.data.flatMap escapeChar ++ quoteChar :: rest) := by
    simp [encodeString]
  rw [e, scan, skipSpace_cons _ _ hq]
  have h1 : quoteChar ≠ openBrace := by decide
  have h3 : quoteChar ≠ '[' := by decide
  simp only [h1, h3, if_false, if_true, scanChars_encodeString]

/-- The scanner reads back the members of an object that the encoder wrote, when
it reads back their values. -/
theorem scan_members (d : Nat) (ms : List (String × JSON))
    (hms : ∀ kv ∈ ms, ∀ d fuel rest, (encodeValue d kv.2).length ≤ fuel →
      scan fuel .value (encodeValue d kv.2 ++ rest) = some (kv.2, rest))
    (k : String) (v : JSON)
    (hv : ∀ d fuel rest, (encodeValue d v).length ≤ fuel →
      scan fuel .value (encodeValue d v ++ rest) = some (v, rest))
    (fuel : Nat) (rest : List Char)
    (h : (encodeString k).length + 2 + (encodeValue (d + 1) v).length +
      (encodeMembers (d + 1) ms).length ≤ fuel) :
    scan fuel .members (encodeString k ++ (':' :: ' ' :: (encodeValue (d + 1) v ++
      (encodeMembers (d + 1) ms ++ (newline d ++ closeBrace :: rest))))) =
      some (.obj ((k, v) :: ms), rest) := by
  induction ms generalizing k v fuel with
  | nil =>
    obtain ⟨f, rfl⟩ : ∃ f, fuel = f + 1 := ⟨fuel - 1, by omega⟩
    have e : encodeString k ++ (':' :: ' ' :: (encodeValue (d + 1) v ++
        (encodeMembers (d + 1) [] ++ (newline d ++ closeBrace :: rest)))) =
      quoteChar :: (k.data.flatMap escapeChar ++ quoteChar :: (':' :: ' ' ::
        (encodeValue (d + 1) v ++ (newline d ++ closeBrace :: rest)))) := by
      simp [encodeString, encodeMembers]
    rw [e, scan]
    simp only [if_true, scanChars_encodeString]
    rw [skipSpace_cons _ _ (by decide)]
    simp only [if_true, scan_value_blank]
    rw [hv (d + 1) f _ (by omega)]
    simp only [skipSpace_newline]
    rw [skipSpace_cons _ _ (by decide)]
    simp
  | cons m ms ih =>
    obtain ⟨k2, v2⟩ := m
    obtain ⟨f, rfl⟩ : ∃ f, fuel = f + 1 := ⟨fuel - 1, by omega⟩
    rw [encodeMembers_cons_length] at h
    have e : encodeString k ++ (':' :: ' ' :: (encodeValue (d + 1) v ++
        (encodeMembers (d + 1) ((k2, v2) :: ms) ++ (newline d ++ closeBrace :: rest)))) =
      quoteChar :: (k.data.flatMap escapeChar ++ quoteChar :: (':' :: ' ' ::
        (encodeValue (d + 1) v ++ (',' :: (newline (d + 1) ++ (encodeString k2 ++ (':' :: ' ' ::
          (encodeValue (d + 1) v2 ++ (encodeMembers (d + 1) ms ++
            (newline d ++ closeBrace :: rest)))))))))) := by
      simp [encodeString, encodeMembers]
    rw [e, scan]
    simp only [if_true, scanChars_encodeString]
    rw [skipSpace_cons _ _ (by decide)]
    simp only [if_true, scan_value_blank]
    rw [hv (d + 1) f _ (by omega)]
    simp only []
    rw [skipSpace_cons _ _ (by decide)]
    have hc : (',' : Char) ≠ closeBrace := by decide
    simp only [hc, if_false, if_true, skipSpace_newline]
    have hq : skipSpace (encodeString k2 ++ (':' :: ' ' :: (encodeValue (d + 1) v2 ++
        (encodeMembers (d + 1) ms ++ (newline d ++ closeBrace :: rest))))) =
        encodeString k2 ++ (':' :: ' ' :: (encodeValue (d + 1) v2 ++
        (encodeMembers (d + 1) ms ++ (newline d ++ closeBrace :: rest)))) := by
      show skipSpace (quoteChar :: _) = _
      exact skipSpace_cons _ _ (by decide)
    rw [hq, ih (fun kv hkv => hms kv (List.mem_cons_of_mem _ hkv)) k2 v2
      (hms (k2, v2) (List.mem_cons_self _ _)) f (by omega)]

/-- The scanner reads back every value of strings and objects that the encoder
wrote, at every depth and before every text. -/
theorem scan_encodeValue (v : JSON) (hv : StrTree v) :
    ∀ d fuel rest, (encodeValue d v).length ≤ fuel →
      scan fuel .value (encodeValue d v ++ rest) = some (v, rest) := by
  induction hv with
  | str s => exact scan_str s
  | obj ms h ih =>
    intro d fuel rest hf
    cases ms with
    | nil =>
      rw [encodeValue] at hf ⊢
      obtain ⟨f, rfl⟩ : ∃ f, fuel = f + 1 := ⟨fuel - 1, by simp at hf; omega⟩
      show scan (f + 1) .value (openBrace :: closeBrace :: rest) = _
      rw [scan, skipSpace_cons _ _ (by decide)]
      simp only [if_true]
      rw [skipSpace_cons _ _ (by decide)]
      simp
    | cons m ms =>
      obtain ⟨k, v⟩ := m
      rw [encodeValue] at hf ⊢
      simp only [List.length_cons, List.length_append, newline_length] at hf
      have h2 := encodeString_length k
      obtain ⟨f, rfl⟩ : ∃ f, fuel = f + 1 := ⟨fuel - 1, by omega⟩
      have e : (openBrace :: (newline (d + 1) ++ (encodeString k ++ (':' :: ' ' ::
          (encodeValue (d + 1) v ++ (encodeMembers (d + 1) ms ++
            (newline d ++ [closeBrace]))))))) ++ rest =
        openBrace :: (newline (d + 1) ++ (encodeString k ++ (':' :: ' ' ::
          (encodeValue (d + 1) v ++ (encodeMembers (d + 1) ms ++
            (newline d ++ closeBrace :: rest)))))) := by
        simp
      rw [e, scan, skipSpace_cons _ _ (by decide)]
      simp only [if_true, skipSpace_newline]
      have hq : skipSpace (encodeString k ++ (':' :: ' ' :: (encodeValue (d + 1) v ++
          (encodeMembers (d + 1) ms ++ (newline d ++ closeBrace :: rest))))) =
          encodeString k ++ (':' :: ' ' :: (encodeValue (d + 1) v ++
          (encodeMembers (d + 1) ms ++ (newline d ++ closeBrace :: rest)))) := by
        show skipSpace (quoteChar :: _) = _
        exact skipSpace_cons _ _ (by decide)
      rw [hq]
      have hne : encodeString k ++ (':' :: ' ' :: (encodeValue (d + 1) v ++
          (encodeMembers (d + 1) ms ++ (newline d ++ closeBrace :: rest)))) =
          quoteChar :: (k.data.flatMap escapeChar ++ quoteChar :: (':' :: ' ' ::
            (encodeValue (d + 1) v ++ (encodeMembers (d + 1) ms ++
              (newline d ++ closeBrace :: rest))))) := by
        simp [encodeString]
      have hm := scan_members d ms (fun kv hkv => ih kv (List.mem_cons_of_mem _ hkv)) k v
        (ih (k, v) (List.mem_cons_self _ _)) f rest (by omega)
      rw [hne] at hm ⊢
      have hqc : quoteChar ≠ closeBrace := by decide
      simp only [hqc, if_false]
      exact hm

/-- A decoder sees of the text that the encoder wrote for a value of strings and
objects exactly that value. -/
theorem scanJSON_encodeIndent (v : JSON) (hv : StrTree v) :
    scanJSON (encodeIndent v) = .document v := by
  unfold scanJSON encodeIndent
  have hl : (String.mk (encodeValue 0 v ++ [Char.ofNat 10])).length =
      (encodeValue 0 v).length + 1 := by
    show (encodeValue 0 v ++ [Char.ofNat 10]).length = _
    simp
  rw [hl]
  show (match scan ((encodeValue 0 v).length + 1 + 1) .value
      (encodeValue 0 v ++ [Char.ofNat 10]) with
    | none => FileContent.raw _
    | some (v, rest) =>
      if (skipSpace rest).isEmpty then .document v else .leading v (String.mk rest)) = _
  rw [scan_encodeValue v hv 0 _ _ (by omega)]
  rfl

theorem lock_ne (p : String) : p ++ ".lock" ≠ p := by
  intro h
  have hl := congrArg String.length h
  simp [String.length_append] at hl
  exact absurd hl (by decide)

/-- The outcomes of a write: without an error the file holds what a decoder
sees of the text of the value; with an error the file is as it was, the
renaming has not happened; and a file system that refuses no call gives no
error. -/
theorem writeJSONAtomic_file (path : String) (v : JSON) (w : World) :
    ((writeJSONAtomic path v w).2 = none →
      (writeJSONAtomic path v w).1.files.lookup path = some (scanJSON (encodeIndent v))) ∧
    ((writeJSONAtomic path v w).2 ≠ none →
      (writeJSONAtomic path v w).1.files.lookup path = w.files.lookup path) ∧
    ((∀ call, w.fsError call = none) → (writeJSONAtomic path v w).2 = none) := by
  cases h1 : w.fsError (.mkdirAll path) with
  | some e =>
    refine ⟨?_, ?_, ?_⟩
    · simp [writeJSONAtomic, h1]
    · simp [writeJSONAtomic, h1]
    · intro hall
      rw [hall] at h1
      exact absurd h1 (by simp)
  | none =>
    cases h2 : w.fsError (.openLock path) with
    | some e =>
      refine ⟨?_, ?_, ?_⟩
      · simp [writeJSONAtomic, h1, h2]
      · simp [writeJSONAtomic, h1, h2]
      · intro hall
        rw [hall] at h2
        exact absurd h2 (by simp)
    | none =>
      cases h3 : firstFsError w.fsError
          [.flock path, .createTemp path, .encode path, .sync path, .close path,
           .rename path] with
      | some e =>
        refine ⟨?_, ?_, ?_⟩
        · simp [writeJSONAtomic, h1, h2, h3]
        · intro _
          cases h4 : w.files.lookup (path ++ ".lock") with
          | some c => simp [writeJSONAtomic, h1, h2, h3, h4]
          | none =>
            simp only [writeJSONAtomic, h1, h2, h3, h4]
            exact Finmap.lookup_insert_of_ne _ (lock_ne path).symm
        · intro hall
          simp [firstFsError, hall] at h3
      | none =>
        refine ⟨?_, ?_, ?_⟩
        · intro _
          simp only [writeJSONAtomic, h1, h2, h3]
          exact Finmap.lookup_insert _
        · simp [writeJSONAtomic, h1, h2, h3]
        · simp [writeJSONAtomic, h1, h2, h3]

theorem strTree_fields (fields : List String) (get : String → String) :
    StrTree (.obj (fields.map fun f => (f, .str (get f)))) := by
  refine .obj _ ?_
  intro kv hkv
  obtain ⟨f, -, rfl⟩ := List.mem_map.mp hkv
  exact .str _

/-- The encoding of a store is made of strings and objects only. -/
theorem strTree_toJSON (c : configFile) : StrTree c.toJSON := by
  refine .obj _ ?_
  intro kv hkv
  simp only [List.mem_cons, List.mem_singleton, List.not_mem_nil, or_false] at hkv
  rcases hkv with rfl | rfl | rfl
  · exact strTree_fields clientFields _
  · refine .obj _ ?_
    intro kv hkv
    obtain ⟨j, -, rfl⟩ := List.mem_map.mp hkv
    exact strTree_fields jobFields _
  · refine .obj _ ?_
    intro kv hkv
    obtain ⟨q, -, rfl⟩ := List.mem_map.mp hkv
    exact strTree_fields queueFields _

/-- A decoder sees of the text written for a store the encoding of the store. -/
theorem scanJSON_store (c : configFile) :
    scanJSON (encodeIndent c.toJSON) = .document c.toJSON :=
  scanJSON_encodeIndent c.toJSON (strTree_toJSON c)

set_option maxRecDepth 100000 in
/-- The text that `save` writes for the store `sampleStore`, line by line, and
what a decoder sees of it. -/
theorem encodeIndent_sampleStore :
    encodeIndent sampleStore.toJSON =
      "\x7b\n" ++
      "  \"client\": \x7b\n" ++
      "    \"name\": \"uid-1\",\n" ++
      "    \"client_frequency\": \"\",\n" ++
      "    \"boot_status\": \"every_boot\",\n" ++
      "    \"udpu_upstream_qos\": \"\",\n" ++
      "    \"udpu_downstream_qos\": \"\",\n" ++
      "    \"udpu_hostname\": \"\",\n" ++
      "    \"udpu_location\": \"\",\n" ++
      "    \"udpu_role\": \"\",\n" ++
      "    \"udpu_secret_key\": \"00\"\n" ++
      "  \x7d,\n" ++
      "  \"jobs\": \x7b\n" ++
      "    \"say\": \x7b\n" ++
      "      \"name\": \"say\",\n" ++
      "      \"command\": \"echo \\\"hi\\\" \\u0026\\u0026 ls \\u003ctmp\\u003e\\t#\",\n" ++
      "      \"frequency\": \"15\",\n" ++
      "      \"locked\": \"false\",\n" ++
      "      \"require_output\": \"true\",\n" ++
      "      \"required_software\": \"\",\n" ++
      "      \"job_type\": \"\",\n" ++
      "      \"vbuser_id\": \"\"\n" ++
      "    \x7d\n" ++
      "  \x7d,\n" ++
      "  \"queues\": \x7b\x7d\n" ++
      "\x7d\n" ∧
    scanJSON (encodeIndent sampleStore.toJSON) = .document sampleStore.toJSON :=
  ⟨by decide, by rfl⟩

theorem save_file_ok (w : World) (h : (save w).2 = none) :
    (save w).1.files.lookup w.cfgPath = some (.document w.cfg.toJSON) := by
  rw [← scanJSON_store]
  exact (writeJSONAtomic_file w.cfgPath w.cfg.toJSON w).1 h

theorem save_file_err (w : World) (h : (save w).2 ≠ none) :
    (save w).1.files.lookup w.cfgPath = w.files.lookup w.cfgPath :=
  (writeJSONAtomic_file w.cfgPath w.cfg.toJSON w).2.1 h

/-- Whatever the file system answers, `writeJSONAtomic` changes the files
alone. -/
theorem writeJSONAtomic_world (path : String) (v : JSON) (w : World) :
    ∃ f, (writeJSONAtomic path v w).1 = { w with files := f } := by
  unfold writeJSONAtomic
  repeat' split
  all_goals exact ⟨_, rfl⟩

/-- Claim C1.  Store round-trip, whatever the store holds (client record, jobs
map, queues map).  On a file system that refuses no call `save` returns no
error.  Whenever `save` returns no error, the store is as before, the store
file holds the indented JSON text of the three sections `client`, `jobs` and
`queues`, of which a decoder sees exactly the encoding of the store, and
`loadOrInit` run by a fresh process (store variable at its zero value, same
path and files) returns no error and leaves exactly the state that was saved:
the same client record, jobs map and queues map, and the files untouched.
Whenever `save` returns an error, the store file is as it was before the call,
so that a fresh process still reads what was last written. -/
theorem C1_store_round_trip (env : Env) (w : World) :
    ((∀ call, w.fsError call = none) → (save w).2 = none) ∧
    ((save w).2 = none →
      (save w).1.cfg = w.cfg ∧
      (save w).1.files.lookup w.cfgPath = some (scanJSON (encodeIndent w.cfg.toJSON)) ∧
      scanJSON (encodeIndent w.cfg.toJSON) = .document w.cfg.toJSON ∧
      decodeConfig w.cfg.toJSON {} = (w.cfg, none) ∧
      loadOrInit env { (save w).1 with cfg := {} } = ((save w).1, none)) ∧
    ((save w).2 ≠ none →
      (save w).1.cfg = w.cfg ∧
      (save w).1.files.lookup w.cfgPath = w.files.lookup w.cfgPath) := by
  refine ⟨(writeJSONAtomic_file w.cfgPath w.cfg.toJSON w).2.2, ?_, ?_⟩
  · intro hsaved
    obtain ⟨f, hw⟩ := writeJSONAtomic_world w.cfgPath w.cfg.toJSON w
    have hcfg : (save w).1.cfg = w.cfg := by
      show (writeJSONAtomic w.cfgPath w.cfg.toJSON w).1.cfg = w.cfg
      rw [hw]
    have hfile := save_file_ok w hsaved
    have hpath : (save w).1.cfgPath = w.cfgPath := by
      show (writeJSONAtomic w.cfgPath w.cfg.toJSON w).1.cfgPath = w.cfgPath
      rw [hw]
    refine ⟨hcfg, (writeJSONAtomic_file w.cfgPath w.cfg.toJSON w).1 hsaved,
      scanJSON_store w.cfg, decodeConfig_toJSON w.cfg, ?_⟩
    have hlook : ({ (save w).1 with cfg := {} } : World).files.lookup
        ({ (save w).1 with cfg := {} } : World).cfgPath = some (.document w.cfg.toJSON) := by
      show (save w).1.files.lookup (save w).1.cfgPath = _
      rw [hpath, hfile]
    unfold loadOrInit
    rw [hlook]
    simp only [readJSON, hlook, FileContent.firstValue, decodeConfig_toJSON, ensureMaps]
    rw [← hcfg]
  · intro herr
    obtain ⟨f, hw⟩ := writeJSONAtomic_world w.cfgPath w.cfg.toJSON w
    refine ⟨?_, save_file_err w herr⟩
    show (writeJSONAtomic w.cfgPath w.cfg.toJSON w).1.cfg = w.cfg
    rw [hw]

/-! ## Upsert, delete and query -/

theorem assignFrom_idem (m : FieldMap) (key cur : String) :
    assignFrom m key (assignFrom m key cur) = assignFrom m key cur := by
  unfold assignFrom
  cases m.lookup key <;> rfl

theorem jobMerge_idem (j : Job) (m : FieldMap) : (j.merge m).merge m = j.merge m := by
  simp [Job.merge, assignFrom_idem]

theorem queueMerge_idem (q : Queue) (m : FieldMap) : (q.merge m).merge m = q.merge m := by
  simp [Queue.merge, assignFrom_idem]

theorem clientMerge_idem (c : Client) (m : FieldMap) : (c.merge m).merge m = c.merge m := by
  simp [Client.merge, assignFrom_idem]

/-- Writing the store twice in a row leaves the files as after the first write. -/
theorem save_save (w : World) : (save (save w).1).1 = (save w).1 := by
  simp only [save, ensureMaps, writeJSONAtomic]
  have hp := lock_ne w.cfgPath
  cases h1 : w.fsError (.mkdirAll w.cfgPath) with
  | some e => simp [h1]
  | none =>
    cases h2 : w.fsError (.openLock w.cfgPath) with
    | some e => simp [h1, h2]
    | none =>
      cases h3 : firstFsError w.fsError
          [.flock w.cfgPath, .createTemp w.cfgPath, .encode w.cfgPath, .sync w.cfgPath,
           .close w.cfgPath, .rename w.cfgPath] with
      | some e =>
        cases h : w.files.lookup (w.cfgPath ++ ".lock") with
        | none => simp [h1, h2, h3, h, Finmap.lookup_insert]
        | some c => simp [h1, h2, h3, h]
      | none =>
        cases h : w.files.lookup (w.cfgPath ++ ".lock") with
        | none =>
          simp [h1, h2, h3, h, Finmap.lookup_insert_of_ne _ hp, Finmap.lookup_insert,
            Finmap.insert_insert]
        | some c => simp [h1, h2, h3, h, Finmap.lookup_insert_of_ne _ hp, Finmap.insert_insert]

/-- What `save` does to a world whose store has just been replaced: only the
files change, and they depend on the old files, the path and the new store. -/
theorem save_cfg (w : World) : (save w).1.cfg = w.cfg := by
  obtain ⟨f, h⟩ := writeJSONAtomic_world w.cfgPath w.cfg.toJSON w
  show (writeJSONAtomic w.cfgPath w.cfg.toJSON w).1.cfg = w.cfg
  rw [h]

theorem save_world (w : World) : ∃ f, (save w).1 = { w with files := f } :=
  writeJSONAtomic_world w.cfgPath w.cfg.toJSON w

theorem save_with_cfg (w : World) (c : configFile) (h : (save w).1.cfg = c) :
    (save { (save w).1 with cfg := c }).1 = (save w).1 := by
  subst h
  exact save_save w

theorem CreateData_job_cfg (w : World) (m : FieldMap) (v : Any) (n : String)
    (hname : m.lookup "name" = some v) (hn : Sprint v = n)
    (hne : n ≠ "") (hnil : n ≠ "<nil>") :
    (CreateData "job" m w).cfg =
      { w.cfg with
        Jobs := w.cfg.Jobs.insert n
          (Job.merge { ((w.cfg.Jobs.lookup n).getD {}) with Name := n } m) } := by
  have hm : m ≠ ∅ := by
    intro h
    rw [h, Finmap.lookup_empty] at hname
    exact absurd hname (by simp)
  subst hn
  simp only [CreateData, hm, if_false, hname, hne, hnil, or_self, if_true, save_cfg]

/-- Claim C2.  Upsert merge semantics of `CreateData` on the job table: when the
field map carries a name whose string form `n` is neither empty nor `<nil>`, the
job then stored under `n` has name `n` and has each of the seven other fields
equal to the string form of the map's value if the map has that key, and to the
value of the record previously stored under `n` (the all-empty record if none
was) otherwise; every other job, every queue and the client record are
unchanged. -/
theorem C2_CreateData_job_merge (w : World) (m : FieldMap) (v : Any) (n : String)
    (hname : m.lookup "name" = some v) (hn : Sprint v = n)
    (hne : n ≠ "") (hnil : n ≠ "<nil>") :
    (∃ j, (CreateData "job" m w).cfg.Jobs.lookup n = some j ∧ j.Name = n ∧
      j.Command = (match m.lookup "command" with
        | some x => Sprint x
        | none => ((w.cfg.Jobs.lookup n).getD {}).Command) ∧
      j.Frequency = (match m.lookup "frequency" with
        | some x => Sprint x
        | none => ((w.cfg.Jobs.lookup n).getD {}).Frequency) ∧
      j.Locked = (match m.lookup "locked" with
        | some x => Sprint x
        | none => ((w.cfg.Jobs.lookup n).getD {}).Locked) ∧
      j.RequireOutput = (match m.lookup "require_output" with
        | some x => Sprint x
        | none => ((w.cfg.Jobs.lookup n).getD {}).RequireOutput) ∧
      j.RequiredSoftware = (match m.lookup "required_software" with
        | some x => Sprint x
        | none => ((w.cfg.Jobs.lookup n).getD {}).RequiredSoftware) ∧
      j.JobType = (match m.lookup "job_type" with
        | some x => Sprint x
        | none => ((w.cfg.Jobs.lookup n).getD {}).JobType) ∧
      j.VbuserID = (match m.lookup "vbuser_id" with
        | some x => Sprint x
        | none => ((w.cfg.Jobs.lookup n).getD {}).VbuserID)) ∧
    (∀ k, k ≠ n → (CreateData "job" m w).cfg.Jobs.lookup k = w.cfg.Jobs.lookup k) ∧
    (CreateData "job" m w).cfg.Queues = w.cfg.Queues ∧
    (CreateData "job" m w).cfg.Client = w.cfg.Client := by
  rw [CreateData_job_cfg w m v n hname hn hne hnil]
  refine ⟨⟨_, Finmap.lookup_insert _, rfl, rfl, rfl, rfl, rfl, rfl, rfl, rfl⟩, ?_, rfl, rfl⟩
  intro k hk
  exact Finmap.lookup_insert_of_ne _ hk

/-- An instance of claim C2: the job message `ping` upserted into the empty
store leaves a job `ping` with the message's command and no frequency. -/
theorem C2_CreateData_job_merge_witness :
    pingFields.lookup "name" = some (Any.str "ping") ∧
    ∃ j, (CreateData "job" pingFields {}).cfg.Jobs.lookup "ping" = some j ∧
      j.Name = "ping" ∧ j.Command = "echo hi" ∧ j.Frequency = "" := by
  obtain ⟨⟨j, hj, hn, hc, hf, -⟩, -⟩ :=
    C2_CreateData_job_merge {} pingFields (Any.str "ping") "ping"
      (by decide) (by decide) (by decide) (by decide)
  exact ⟨by decide, j, hj, hn, hc, hf⟩

/-- Claim C3.  Upsert idempotence: for every table name (the three tables and
any other), every field map and every state, `CreateData` applied twice gives
the state that one application gives, and so does `UpdateData`; the state
compared is the whole world, the store and the files on disk included. -/
theorem C3_upsert_idempotent (table name : String) (m : FieldMap) (w : World) :
    CreateData table m (CreateData table m w) = CreateData table m w ∧
    UpdateData table name m (UpdateData table name m w) = UpdateData table name m w := by
  constructor
  · unfold CreateData
    by_cases hm : m = ∅
    · simp [hm]
    simp only [hm, if_false]
    by_cases hj : table = "job"
    · simp only [hj, if_true]
      cases hv : m.lookup "name" with
      | none => simp [hv]
      | some v =>
        simp only []
        by_cases hn : Sprint v = "" ∨ Sprint v = "<nil>"
        · simp [hn, hv]
        · simp only [hn, if_false, hv, save_cfg, Finmap.lookup_insert, Option.getD_some,
            Finmap.insert_insert]
          apply save_with_cfg
          simp [save_cfg, Job.merge, assignFrom_idem]
    simp only [hj, if_false]
    by_cases hq : table = "queue"
    · simp only [hq, if_true]
      cases hv : m.lookup "name" with
      | none => simp [hv]
      | some v =>
        simp only []
        by_cases hn : Sprint v = "" ∨ Sprint v = "<nil>"
        · simp [hn, hv]
        · simp only [hn, if_false, hv, save_cfg, Finmap.lookup_insert, Option.getD_some,
            Finmap.insert_insert]
          apply save_with_cfg
          simp [save_cfg, Queue.merge, assignFrom_idem]
    simp only [hq, if_false]
    by_cases hc : table = "client"
    · simp only [hc, if_true, save_cfg]
      apply save_with_cfg
      simp [save_cfg, clientMerge_idem]
    · simp [hc]
  · unfold UpdateData
    by_cases hm : m = ∅
    · simp [hm]
    simp only [hm, if_false]
    by_cases hj : table = "job"
    · simp only [hj, if_true]
      cases hv : w.cfg.Jobs.lookup name with
      | none => simp [hv]
      | some j =>
        simp only [save_cfg, Finmap.lookup_insert, Finmap.insert_insert]
        apply save_with_cfg
        simp [save_cfg, jobMerge_idem]
    simp only [hj, if_false]
    by_cases hq : table = "queue"
    · simp only [hq, if_true]
      cases hv : w.cfg.Queues.lookup name with
      | none => simp [hv]
      | some q =>
        simp only [save_cfg, Finmap.lookup_insert, Finmap.insert_insert]
        apply save_with_cfg
        simp [save_cfg, queueMerge_idem]
    simp only [hq, if_false]
    by_cases hc : table = "client"
    · simp only [hc, if_true, save_cfg]
      apply save_with_cfg
      simp [save_cfg, clientMerge_idem]
    · simp [hc]

theorem DeleteData_job_cfg (name : String) (w : World) :
    (DeleteData "job" name w).cfg = { w.cfg with Jobs := w.cfg.Jobs.erase name } := by
  simp only [DeleteData, if_true]
  cases h : w.cfg.Jobs.lookup name with
  | some j => simp only [save_cfg]
  | none =>
    have he : w.cfg.Jobs.erase name = w.cfg.Jobs := by
      apply Finmap.ext_lookup
      intro x
      by_cases hx : x = name
      · rw [hx, Finmap.lookup_erase, h]
      · rw [Finmap.lookup_erase_ne hx]
    simp [save_cfg, he]

theorem DeleteData_queue_cfg (name : String) (w : World) :
    (DeleteData "queue" name w).cfg = { w.cfg with Queues := w.cfg.Queues.erase name } := by
  have hq : ¬ ("queue" = "job") := by decide
  simp only [DeleteData, hq, if_false, if_true]
  cases h : w.cfg.Queues.lookup name with
  | some j => simp only [save_cfg]
  | none =>
    have he : w.cfg.Queues.erase name = w.cfg.Queues := by
      apply Finmap.ext_lookup
      intro x
      by_cases hx : x = name
      · rw [hx, Finmap.lookup_erase, h]
      · rw [Finmap.lookup_erase_ne hx]
    simp [save_cfg, he]

/-- Claim C4.  Delete on the job and queue tables: the record stored under the
name is gone and every other job, every queue and the client record are as
before; when nothing is stored under the name the store is unchanged; deleting
twice gives the same world (store and files) as deleting once, for every table
name; and after deleting a job, `GetData` for that name returns nil. -/
theorem C4_DeleteData (table name : String) (w : World) :
    ((DeleteData "job" name w).cfg.Jobs.lookup name = none ∧
      (∀ k, k ≠ name → (DeleteData "job" name w).cfg.Jobs.lookup k = w.cfg.Jobs.lookup k) ∧
      (DeleteData "job" name w).cfg.Queues = w.cfg.Queues ∧
      (DeleteData "job" name w).cfg.Client = w.cfg.Client) ∧
    ((DeleteData "queue" name w).cfg.Queues.lookup name = none ∧
      (∀ k, k ≠ name →
        (DeleteData "queue" name w).cfg.Queues.lookup k = w.cfg.Queues.lookup k) ∧
      (DeleteData "queue" name w).cfg.Jobs = w.cfg.Jobs ∧
      (DeleteData "queue" name w).cfg.Client = w.cfg.Client) ∧
    (w.cfg.Jobs.lookup name = none → (DeleteData "job" name w).cfg = w.cfg) ∧
    (w.cfg.Queues.lookup name = none → (DeleteData "queue" name w).cfg = w.cfg) ∧
    DeleteData table name (DeleteData table name w) = DeleteData table name w ∧
    GetData "job" name (DeleteData "job" name w) = none ∧
    GetData "queue" name (DeleteData "queue" name w) = none := by
  refine ⟨?_, ?_, ?_, ?_, ?_, ?_, ?_⟩
  · rw [DeleteData_job_cfg]
    exact ⟨Finmap.lookup_erase _ _, fun k hk => Finmap.lookup_erase_ne hk, rfl, rfl⟩
  · rw [DeleteData_queue_cfg]
    exact ⟨Finmap.lookup_erase _ _, fun k hk => Finmap.lookup_erase_ne hk, rfl, rfl⟩
  · intro h
    simp [DeleteData, h, save_cfg]
  · intro h
    have hq : ¬ ("queue" = "job") := by decide
    simp [DeleteData, h, save_cfg, hq]
  · unfold DeleteData
    by_cases hj : table = "job"
    · simp only [hj, if_true]
      cases h : w.cfg.Jobs.lookup name with
      | some j => simp [save_cfg, Finmap.lookup_erase, save_save]
      | none => simp [save_cfg, h, save_save]
    simp only [hj, if_false]
    by_cases hq : table = "queue"
    · simp only [hq, if_true]
      cases h : w.cfg.Queues.lookup name with
      | some j => simp [save_cfg, Finmap.lookup_erase, save_save]
      | none => simp [save_cfg, h, save_save]
    simp only [hq, if_false]
    by_cases hc : table = "client"
    · simp only [hc, if_true]
      by_cases hn : w.cfg.Client.Name = name
      · simp only [hn, if_true, save_cfg]
        by_cases hn2 : "" = name
        · simp only [hn2, if_true]
          exact save_with_cfg _ _ (save_cfg _)
        · simp only [hn2, if_false, save_save]
      · simp only [hn, if_false, save_cfg, save_save]
    · simp [hc]
  · simp [GetData, DeleteData_job_cfg, Finmap.lookup_erase]
  · have hq : ¬ ("queue" = "job") := by decide
    simp [GetData, DeleteData_queue_cfg, Finmap.lookup_erase, hq]

/-- The records of a map that a query selects, as a multiset of their images. -/
theorem GoMap.coe_filter_map_toList {α β : Type} (m : GoMap α) (p : α → Bool) (g : α → β) :
    (((m.toList.filter fun kv => p kv.2).map fun kv => g kv.2 : List β) : Multiset β)
      = (m.entries.filter fun e => p e.2 = true).map fun e => g e.2 := by
  have hf : ((m.toList.filter fun kv => p kv.2 : List (String × α)) : Multiset (String × α))
      = Multiset.filter (fun kv => p kv.2 = true) (m.toList : Multiset (String × α)) := by
    rw [Multiset.filter_coe]
    congr 2
    funext kv
    simp
  rw [← Multiset.map_coe, hf, GoMap.coe_toList, Multiset.filter_map, Multiset.map_map]
  rfl

theorem GoMap.filter_toList_eq_nil {α : Type} (m : GoMap α) (p : α → Bool) :
    (m.toList.filter fun kv => p kv.2) = [] ↔ ∀ k v, m.lookup k = some v → p v = false := by
  rw [List.filter_eq_nil_iff]
  constructor
  · intro h k v hkv
    have := h (k, v) ((GoMap.mem_toList m k v).2 hkv)
    simpa using this
  · intro h kv hkv
    have := h kv.1 kv.2 ((GoMap.mem_toList m kv.1 kv.2).1 hkv)
    simp [this]

theorem GetWithFrequency_job (f : String) (scheduled : Bool) (w : World) :
    GetWithFrequency "job" f scheduled w =
      (if ((w.cfg.Jobs.toList.filter fun kv =>
            if scheduled then isScheduledFrequency kv.2.Frequency
            else decide (kv.2.Frequency = f)).map fun kv => kv.2.structToMap).length = 0 then none
       else some ((w.cfg.Jobs.toList.filter fun kv =>
            if scheduled then isScheduledFrequency kv.2.Frequency
            else decide (kv.2.Frequency = f)).map fun kv => kv.2.structToMap)) := by
  simp [GetWithFrequency]

theorem GetWithFrequency_queue (f : String) (scheduled : Bool) (w : World) :
    GetWithFrequency "queue" f scheduled w =
      (if ((w.cfg.Queues.toList.filter fun kv =>
            if scheduled then isScheduledFrequency kv.2.Frequency
            else decide (kv.2.Frequency = f)).map fun kv => kv.2.structToMap).length = 0 then none
       else some ((w.cfg.Queues.toList.filter fun kv =>
            if scheduled then isScheduledFrequency kv.2.Frequency
            else decide (kv.2.Frequency = f)).map fun kv => kv.2.structToMap)) := by
  have hq : ¬ ("queue" = "job") := by decide
  simp [GetWithFrequency, hq]

theorem getD_ite_nil {β : Type} (l : List β) :
    (if l.length = 0 then none else some l).getD [] = l := by
  cases l <;> simp

theorem ite_nil_eq_none {β : Type} (l : List β) :
    (if l.length = 0 then none else some l) = none ↔ l = [] := by
  cases l <;> simp

/-- Claim C5.  Query by frequency, for the job and the queue table.  Without the
scheduled flag the result is, as a multiset of field maps, the stored records
whose frequency is the requested one; with the flag the requested frequency is
ignored and the result is the stored records whose frequency is "1", "15", "60"
or "1440"; in both modes the result is nil exactly when no stored record
matches. -/
theorem C5_GetWithFrequency (f : String) (w : World) :
    ((((GetWithFrequency "job" f false w).getD [] : List FieldMap) : Multiset FieldMap) =
        (w.cfg.Jobs.entries.filter fun e => e.2.Frequency = f).map fun e => e.2.structToMap) ∧
    (GetWithFrequency "job" f false w = none ↔
        ∀ k j, w.cfg.Jobs.lookup k = some j → j.Frequency ≠ f) ∧
    ((((GetWithFrequency "job" f true w).getD [] : List FieldMap) : Multiset FieldMap) =
        (w.cfg.Jobs.entries.filter fun e =>
          e.2.Frequency = "1" ∨ e.2.Frequency = "15" ∨ e.2.Frequency = "60" ∨
            e.2.Frequency = "1440").map fun e => e.2.structToMap) ∧
    (GetWithFrequency "job" f true w = none ↔
        ∀ k j, w.cfg.Jobs.lookup k = some j →
          ¬ (j.Frequency = "1" ∨ j.Frequency = "15" ∨ j.Frequency = "60" ∨
            j.Frequency = "1440")) ∧
    ((((GetWithFrequency "queue" f false w).getD [] : List FieldMap) : Multiset FieldMap) =
        (w.cfg.Queues.entries.filter fun e => e.2.Frequency = f).map
          fun e => e.2.structToMap) ∧
    (GetWithFrequency "queue" f false w = none ↔
        ∀ k q, w.cfg.Queues.lookup k = some q → q.Frequency ≠ f) ∧
    ((((GetWithFrequency "queue" f true w).getD [] : List FieldMap) : Multiset FieldMap) =
        (w.cfg.Queues.entries.filter fun e =>
          e.2.Frequency = "1" ∨ e.2.Frequency = "15" ∨ e.2.Frequency = "60" ∨
            e.2.Frequency = "1440").map fun e => e.2.structToMap) ∧
    (GetWithFrequency "queue" f true w = none ↔
        ∀ k q, w.cfg.Queues.lookup k = some q →
          ¬ (q.Frequency = "1" ∨ q.Frequency = "15" ∨ q.Frequency = "60" ∨
            q.Frequency = "1440")) := by
  refine ⟨?_, ?_, ?_, ?_, ?_, ?_, ?_, ?_⟩
  · rw [GetWithFrequency_job, getD_ite_nil]
    simpa using GoMap.coe_filter_map_toList w.cfg.Jobs (fun j => decide (j.Frequency = f))
      Job.structToMap
  · rw [GetWithFrequency_job, ite_nil_eq_none, List.map_eq_nil_iff]
    simpa using GoMap.filter_toList_eq_nil w.cfg.Jobs (fun j => decide (j.Frequency = f))
  · rw [GetWithFrequency_job, getD_ite_nil]
    simpa [isScheduledFrequency] using
      GoMap.coe_filter_map_toList w.cfg.Jobs (fun j => isScheduledFrequency j.Frequency)
        Job.structToMap
  · rw [GetWithFrequency_job, ite_nil_eq_none, List.map_eq_nil_iff]
    simpa [isScheduledFrequency] using
      GoMap.filter_toList_eq_nil w.cfg.Jobs (fun j => isScheduledFrequency j.Frequency)
  · rw [GetWithFrequency_queue, getD_ite_nil]
    simpa using GoMap.coe_filter_map_toList w.cfg.Queues (fun q => decide (q.Frequency = f))
      Queue.structToMap
  · rw [GetWithFrequency_queue, ite_nil_eq_none, List.map_eq_nil_iff]
    simpa using GoMap.filter_toList_eq_nil w.cfg.Queues (fun q => decide (q.Frequency = f))
  · rw [GetWithFrequency_queue, getD_ite_nil]
    simpa [isScheduledFrequency] using
      GoMap.coe_filter_map_toList w.cfg.Queues (fun q => isScheduledFrequency q.Frequency)
        Queue.structToMap
  · rw [GetWithFrequency_queue, ite_nil_eq_none, List.map_eq_nil_iff]
    simpa [isScheduledFrequency] using
      GoMap.filter_toList_eq_nil w.cfg.Queues (fun q => isScheduledFrequency q.Frequency)

/-! ## Locks, schedules and the duplicate check -/

/-- Claim C6.  Locked push messages are dropped: for a job message whose locked
field is not the string "false", `JobEvent` returns the world it was given (no
store mutation, no repository lookup, no download, no schedule, no command, no
outbound message), and so does `QueueEvent` for a queue message whose locked
field is not "false" (no request for the job list, no command, no message). -/
theorem C6_locked_messages_dropped (env : Env) (w : World) (job : JobData) (queue : QueueData)
    (hjob : job.Locked ≠ "false") (hqueue : queue.Locked ≠ "false") :
    JobEvent env job w = w ∧ QueueEvent env queue w = w := by
  constructor
  · simp [JobEvent, hjob]
  · simp [QueueEvent, hqueue]

/-- An instance of claim C6: messages locked with "true" and with an empty lock
field, in a world with an open push channel. -/
theorem C6_locked_messages_dropped_witness :
    JobEvent silentEnv { Name := "ping", Command := "echo hi", Locked := "true" }
        { WSConn := some "uid" } = { WSConn := some "uid" } ∧
      QueueEvent silentEnv { Name := "nightly", Jobs := "ping", Locked := "" }
        { WSConn := some "uid" } = { WSConn := some "uid" } :=
  C6_locked_messages_dropped silentEnv { WSConn := some "uid" }
    { Name := "ping", Command := "echo hi", Locked := "true" }
    { Name := "nightly", Jobs := "ping", Locked := "" } (by decide) (by decide)

/-- The function `ProcessJobs` starts a goroutine running `executeJobFromMap`, in
list order, for exactly the job maps whose locked value is not the string
"true" (a missing value, a value that is not a string and any other string
included), and changes nothing else. -/
theorem ProcessJobs_eq_filter (jobs : List FieldMap) (w : World) :
    ProcessJobs jobs w =
      { w with
        trace := w.trace ++
          (jobs.filter fun jobData => decide (jobData.getString "locked" ≠ some "true")).map
            fun jobData => Effect.go (.executeJobFromMap jobData) } := by
  induction jobs generalizing w with
  | nil => simp [ProcessJobs]
  | cons jobData rest ih =>
    unfold ProcessJobs
    cases h : jobData.getString "locked" with
    | none => simp [startsExecution, h, ih, World.emit]
    | some locked =>
      by_cases hl : locked = "true"
      · simp [startsExecution, h, hl, ih]
      · simp [startsExecution, h, hl, ih, World.emit]

/-- Claim C7 on the code: a stored job whose lock field is the empty string (so
not "false") is handed to a goroutine by `ProcessJobs`, and that goroutine
runs the job's command and answers over the push channel, although the
function is meant to start unlocked jobs only; the same job arriving as a
message is dropped by `JobEvent`, which tests the lock against "false".
`ProcessJobs` tests it against "true", so that it starts every job whose lock
is anything else. -/
theorem C7_job_without_lock_value_is_run :
    unsetLockJob.structToMap.getString "locked" = some "" ∧
    unsetLockJob.structToMap.getString "locked" ≠ some "false" ∧
    (ProcessJobs [unsetLockJob.structToMap] {}).trace =
      [Effect.go (.executeJobFromMap unsetLockJob.structToMap)] ∧
    (executeJobFromMap silentEnv unsetLockJob.structToMap { WSConn := some "uid" }).trace =
      [.shell "echo hi", .go (.sendJobLog "probe" "echo hi" "" "" 0),
       .wsWrite (.obj [("response", .str "")])] ∧
    JobEvent silentEnv unsetLockMessage { WSConn := some "uid" } = { WSConn := some "uid" } ∧
    (ProcessJobs [oddLockJob.structToMap, trueLockJob.structToMap] {}).trace =
      [Effect.go (.executeJobFromMap oddLockJob.structToMap)] :=
  ⟨by decide, by decide, by rfl, by rfl, by rfl, by rfl⟩

/-- Claim C8 on the code: a stored job locked with "true" and with frequency
"15" is registered with the scheduler by `ProcessScheduledJobs`, and the
scheduler is started. -/
theorem C8_locked_job_is_scheduled :
    lockedPeriodicJob.structToMap.getString "locked" = some "true" ∧
    (ProcessScheduledJobs [lockedPeriodicJob.structToMap] {}).trace =
      [.cronAddFunc "@every 15m"
          { Name := "rotate", Command := "logrotate", RequireOutput := "false" },
       .cronStart] :=
  ⟨by decide, by rfl⟩

/-- Claim C9.  Frequency-to-schedule mapping: `ScheduleJob` registers the job and
starts a scheduler with a spec whose period is 1, 15, 60 and 1440 minutes for
the frequencies "1", "15", "60" and "1440"; for every other frequency string it
leaves the world as it was, so nothing is registered and no scheduler started. -/
theorem C9_ScheduleJob_mapping (job : ExecuteJobData) (w : World) :
    (ScheduleJob "1" job w = (w.emit (.cronAddFunc "@every 1m" job)).emit .cronStart ∧
      cronEvery "@every 1m" = some (1 * 60)) ∧
    (ScheduleJob "15" job w = (w.emit (.cronAddFunc "@every 15m" job)).emit .cronStart ∧
      cronEvery "@every 15m" = some (15 * 60)) ∧
    (ScheduleJob "60" job w = (w.emit (.cronAddFunc "@every 1h" job)).emit .cronStart ∧
      cronEvery "@every 1h" = some (60 * 60)) ∧
    (ScheduleJob "1440" job w = (w.emit (.cronAddFunc "@every 24h" job)).emit .cronStart ∧
      cronEvery "@every 24h" = some (1440 * 60)) ∧
    (∀ f : String, f ≠ "1" → f ≠ "15" → f ≠ "60" → f ≠ "1440" → ScheduleJob f job w = w) ∧
    ScheduleJob "every_boot" job w = w ∧ ScheduleJob "first_boot" job w = w ∧
    ScheduleJob "once" job w = w ∧ ScheduleJob "" job w = w ∧
    ScheduleJob "01" job w = w ∧ ScheduleJob "30" job w = w := by
  have h1 : cronEvery "@every 1m" = some 60 := by decide
  have h15 : cronEvery "@every 15m" = some 900 := by decide
  have h60 : cronEvery "@every 1h" = some 3600 := by decide
  have h1440 : cronEvery "@every 24h" = some 86400 := by decide
  have hother : ∀ f : String, f ≠ "1" → f ≠ "15" → f ≠ "60" → f ≠ "1440" →
      ScheduleJob f job w = w := by
    intro f a b c d
    simp [ScheduleJob, a, b, c, d]
  refine ⟨⟨?_, h1⟩, ⟨?_, h15⟩, ⟨?_, h60⟩, ⟨?_, h1440⟩, hother, ?_, ?_, ?_, ?_, ?_, ?_⟩
  · simp [ScheduleJob, h1]
  · simp [ScheduleJob, h15]
  · simp [ScheduleJob, h60]
  · simp [ScheduleJob, h1440]
  all_goals exact hother _ (by decide) (by decide) (by decide) (by decide)

theorem GetUdpuDataByMac_trace (env : Env) (mac : String) (w : World) :
    ∃ rest, (GetUdpuDataByMac env mac w).1.trace =
      w.trace ++ [.httpGet (CreateURL env "http" (some [("subscriber", GetClientSubscriberId w)])
        ["adapter", mac, "udpu"] w)] ++ rest := by
  unfold GetUdpuDataByMac
  simp only []
  cases env.httpGet (CreateURL env "http" (some [("subscriber", GetClientSubscriberId w)])
      ["adapter", mac, "udpu"] w) with
  | failed e => exact ⟨[], by simp [World.emit]⟩
  | response status body =>
    simp only []
    split
    · exact ⟨[], by simp [World.emit]⟩
    · split
      · exact ⟨[], by simp [World.emit]⟩
      · simp only [hasRealMAC, SendUdpuStatus, SendJSONRequest, World.emit]
        split
        · exact ⟨_, rfl⟩
        · exact ⟨_, rfl⟩

theorem WaitForData_trace (env : Env) (mac : String) (w : World) (hc : w.cancelled = false) :
    ∃ rest, (WaitForData env mac w).1.trace =
      w.trace ++ [.httpGet (CreateURL env "http" (some [("subscriber", GetClientSubscriberId w)])
        ["adapter", mac, "udpu"] w)] ++ rest := by
  obtain ⟨rest, hrest⟩ := GetUdpuDataByMac_trace env mac w
  unfold WaitForData
  simp only [hc, Bool.false_eq_true, if_false]
  split
  · exact ⟨rest, hrest⟩
  · exact ⟨rest, hrest⟩

/-- Claim C10.  Duplicate MAC rejection: with a prior secret, the rest of `main`
fetches the server's stamp for the MAC; if it differs from
`GenerateSecret mac secret`, the lifetime context is cancelled and nothing else
happens (the only call recorded is the stamp request: no descriptor request,
no tunnel set-up, no push channel, no goroutine; the store, the files and the
start-up guard are as before); if it is equal, `main` goes on with identity
resolution from the state after the request, which unless the context is
already cancelled starts with the descriptor request of `WaitForData`. -/
theorem C10_duplicate_mac_rejection (env : Env) (mac : String) (w : World)
    (hprior : w.hadExisting = true) :
    ((FetchStamp env (CreateURL env "http" none ["stamps", mac] w) w).2.1
        ≠ GenerateSecret env mac w.secretKey →
      mainVerifyStamp env mac w =
        { w with
          trace := w.trace ++ [.httpGet (CreateURL env "http" none ["stamps", mac] w)]
          cancelled := true }) ∧
    ((FetchStamp env (CreateURL env "http" none ["stamps", mac] w) w).2.1
        = GenerateSecret env mac w.secretKey →
      mainVerifyStamp env mac w =
        mainAwaitIdentity env mac
          (w.emit (.httpGet (CreateURL env "http" none ["stamps", mac] w))) ∧
      (w.cancelled = false →
        ∃ rest, (WaitForData env mac
            (w.emit (.httpGet (CreateURL env "http" none ["stamps", mac] w)))).1.trace =
          w.trace ++ [.httpGet (CreateURL env "http" none ["stamps", mac] w),
            .httpGet (CreateURL env "http" (some [("subscriber", GetClientSubscriberId w)])
              ["adapter", mac, "udpu"] w)] ++ rest)) := by
  have hw : ∀ u, (FetchStamp env u w).1 = w.emit (.httpGet u) := by
    intro u
    unfold FetchStamp
    simp only []
    cases env.httpGet u with
    | failed e => rfl
    | response status body =>
      simp only []
      split
      · rfl
      · split
        · rfl
        · split
          · rfl
          · split <;> rfl
  refine ⟨?_, ?_⟩
  · intro hne
    simp only [mainVerifyStamp, hprior, Bool.not_true, Bool.false_eq_true, if_false, hw]
    simp [hne, World.emit, hprior]
  · intro heq
    refine ⟨?_, ?_⟩
    · simp only [mainVerifyStamp, hprior, Bool.not_true, Bool.false_eq_true, if_false, hw]
      simp [heq]
    · intro hc
      obtain ⟨rest, hrest⟩ := WaitForData_trace env mac
        (w.emit (.httpGet (CreateURL env "http" none ["stamps", mac] w))) hc
      exact ⟨rest, by simpa [World.emit, CreateURL, GetClientSubscriberId, GetClient] using hrest⟩

/-- An instance of claim C10: the server holds the stamp "ff" for the MAC while
the device computes "00"; `main` cancels its context after the stamp request. -/
theorem C10_duplicate_mac_rejection_witness :
    priorSecretWorld.hadExisting = true ∧
    mainVerifyStamp (stampEnv "ff") "aa:bb:cc:dd:ee:ff" priorSecretWorld =
      { priorSecretWorld with
        trace := priorSecretWorld.trace ++
          [.httpGet (CreateURL (stampEnv "ff") "http" none ["stamps", "aa:bb:cc:dd:ee:ff"]
            priorSecretWorld)]
        cancelled := true } :=
  ⟨rfl, (C10_duplicate_mac_rejection (stampEnv "ff") "aa:bb:cc:dd:ee:ff" priorSecretWorld rfl).1
    (by decide)⟩

/-! ## Calls recorded by the functions of the job engine -/

theorem onlyCalls_refl (kinds : List EffectKind) (w : World) : OnlyCalls kinds w w :=
  ⟨[], by simp, by simp⟩

theorem onlyCalls_trans {kinds : List EffectKind} {w w' w'' : World}
    (h : OnlyCalls kinds w w') (h' : OnlyCalls kinds w' w'') : OnlyCalls kinds w w'' := by
  obtain ⟨t, rfl, ht⟩ := h
  obtain ⟨t', rfl, ht'⟩ := h'
  refine ⟨t ++ t', by simp, ?_⟩
  intro e he
  rcases List.mem_append.1 he with h | h
  · exact ht e h
  · exact ht' e h

theorem onlyCalls_mono {kinds kinds' : List EffectKind} {w w' : World}
    (hsub : ∀ k ∈ kinds, k ∈ kinds') (h : OnlyCalls kinds w w') : OnlyCalls kinds' w w' := by
  obtain ⟨t, rfl, ht⟩ := h
  exact ⟨t, rfl, fun e he => hsub _ (ht e he)⟩

theorem onlyCalls_emit {kinds : List EffectKind} (w : World) (e : Effect)
    (he : e.kind ∈ kinds) : OnlyCalls kinds w (w.emit e) :=
  ⟨[e], rfl, by simpa using he⟩

theorem step_refl (kinds : List EffectKind) (w : World) : Step kinds w w :=
  ⟨[], by simp, by simp, rfl⟩

theorem step_trans {kinds : List EffectKind} {w w' w'' : World}
    (h : Step kinds w w') (h' : Step kinds w' w'') : Step kinds w w'' := by
  obtain ⟨t, ht, hk, hg⟩ := h
  obtain ⟨t', ht', hk', hg'⟩ := h'
  refine ⟨t ++ t', by rw [ht', ht, List.append_assoc], ?_, ?_⟩
  · intro e he
    rcases List.mem_append.1 he with h | h
    · exact hk e h
    · exact hk' e h
  · rw [← hg, ← hg']

theorem step_mono {kinds kinds' : List EffectKind} {w w' : World}
    (hsub : ∀ k ∈ kinds, k ∈ kinds') (h : Step kinds w w') : Step kinds' w w' := by
  obtain ⟨t, ht, hk, hg⟩ := h
  exact ⟨t, ht, fun e he => hsub _ (hk e he), hg⟩

theorem onlyCalls_step {kinds : List EffectKind} {w w' : World}
    (h : OnlyCalls kinds w w') : Step kinds w w' := by
  obtain ⟨t, rfl, ht⟩ := h
  exact ⟨t, rfl, ht, rfl⟩

/-- A change of the store, the files or the exit status alone is a step. -/
theorem step_store (kinds : List EffectKind) (w : World) (c : configFile) (f : Files)
    (x : Option Int) : Step kinds w { w with cfg := c, files := f, exit := x } :=
  ⟨[], by simp, by simp, rfl⟩

theorem save_step (kinds : List EffectKind) (w : World) : Step kinds w (save w).1 := by
  obtain ⟨f, h⟩ := save_world w
  rw [h]
  exact step_store kinds w w.cfg f w.exit

theorem save_store_ex (w : World) (c : configFile) :
    ∃ f, (save { w with cfg := c }).1 = { w with cfg := c, files := f } :=
  save_world { w with cfg := c }

theorem CreateData_store_ex (table : String) (kwargs : FieldMap) (w : World) :
    ∃ c f, CreateData table kwargs w = { w with cfg := c, files := f } := by
  unfold CreateData
  dsimp only
  repeat' split
  all_goals first
    | exact ⟨_, _, rfl⟩
    | exact ⟨_, save_store_ex w _⟩

theorem UpdateData_store_ex (table name : String) (fields : FieldMap) (w : World) :
    ∃ c f, UpdateData table name fields w = { w with cfg := c, files := f } := by
  unfold UpdateData
  dsimp only
  repeat' split
  all_goals first
    | exact ⟨_, _, rfl⟩
    | exact ⟨_, save_store_ex w _⟩

theorem CreateData_store (table : String) (kwargs : FieldMap) (w : World) :
    CreateData table kwargs w =
      { w with cfg := (CreateData table kwargs w).cfg, files := (CreateData table kwargs w).files } := by
  obtain ⟨c, f, h⟩ := CreateData_store_ex table kwargs w
  rw [h]

theorem UpdateData_store (table name : String) (fields : FieldMap) (w : World) :
    UpdateData table name fields w =
      { w with cfg := (UpdateData table name fields w).cfg,
               files := (UpdateData table name fields w).files } := by
  obtain ⟨c, f, h⟩ := UpdateData_store_ex table name fields w
  rw [h]

theorem upsertJob_store (name : String) (dataMap : FieldMap) (w : World) :
    upsertJob name dataMap w =
      { w with cfg := (upsertJob name dataMap w).cfg, files := (upsertJob name dataMap w).files } := by
  unfold upsertJob
  split
  · exact CreateData_store _ _ _
  · exact UpdateData_store _ _ _ _

theorem upsertJob_step (kinds : List EffectKind) (name : String) (dataMap : FieldMap)
    (w : World) : Step kinds w (upsertJob name dataMap w) := by
  rw [upsertJob_store]
  exact step_store kinds w _ _ w.exit

theorem UpdateJobs_step (kinds : List EffectKind) (jobList : List JobData) (w : World) :
    Step kinds w (UpdateJobs jobList w) := by
  induction jobList generalizing w with
  | nil => exact step_refl kinds w
  | cons job rest ih => exact step_trans (upsertJob_step kinds _ _ w) (ih _)

theorem ScheduleJob_calls (jobFrequency : String) (data : ExecuteJobData) (w : World) :
    OnlyCalls [.cronAddFunc, .cronStart] w (ScheduleJob jobFrequency data w) := by
  unfold ScheduleJob
  simp only []
  split
  · exact onlyCalls_refl _ _
  · split
    · exact onlyCalls_refl _ _
    · exact onlyCalls_trans (onlyCalls_emit _ _ (by simp [Effect.kind]))
        (onlyCalls_emit _ _ (by simp [Effect.kind]))

theorem ProcessScheduledJobs_calls (jobs : List FieldMap) (w : World) :
    OnlyCalls [.cronAddFunc, .cronStart] w (ProcessScheduledJobs jobs w) := by
  induction jobs generalizing w with
  | nil => exact onlyCalls_refl _ _
  | cons jobData rest ih =>
    unfold ProcessScheduledJobs
    split
    · exact onlyCalls_trans (ScheduleJob_calls _ _ _) (ih _)
    · exact ih _

theorem ProcessJobs_calls (jobs : List FieldMap) (w : World) :
    OnlyCalls [.goExecuteJob] w (ProcessJobs jobs w) := by
  induction jobs generalizing w with
  | nil => exact onlyCalls_refl _ _
  | cons jobData rest ih =>
    unfold ProcessJobs
    split
    · exact onlyCalls_trans (onlyCalls_emit _ _ (by simp [Effect.kind])) (ih _)
    · exact ih _

theorem GetJobs_calls (env : Env) (u : URL) (w : World) :
    OnlyCalls [.httpGet] w (GetJobs env u w).1 := by
  have h : (GetJobs env u w).1 = w.emit (.httpGet u) := by
    unfold GetJobs
    simp only []
    split
    · rfl
    · split
      · rfl
      · split <;> rfl
  rw [h]
  exact onlyCalls_emit _ _ (by simp [Effect.kind])

/-! ## Steps of the job flows -/

theorem Fatalf_step (kinds : List EffectKind) (w : World) : Step kinds w (Fatalf w) :=
  step_store kinds w w.cfg w.files (some 1)

theorem UpdateData_step (kinds : List EffectKind) (table name : String) (fields : FieldMap)
    (w : World) : Step kinds w (UpdateData table name fields w) := by
  rw [UpdateData_store]
  exact step_store kinds w _ _ w.exit

theorem step_of_eq_fields {kinds : List EffectKind} {w w' : World}
    (h : Step kinds w w') : w'.registeredRuntimeOnce = w.registeredRuntimeOnce ∧
      w'.WSConn = w.WSConn := by
  obtain ⟨t, -, -, hg⟩ := h
  have h1 := congrArg World.registeredRuntimeOnce hg
  have h2 := congrArg World.WSConn hg
  exact ⟨h1, h2⟩

theorem InsertIntoClient_step (kinds : List EffectKind) (r : ServerResponse) (w : World) :
    Step kinds w (InsertIntoClient r w).1 := by
  unfold InsertIntoClient
  dsimp only
  obtain ⟨f, h⟩ := save_store_ex w { w.cfg with Client :=
    { Name := r.SubscriberUID
      ClientFrequency := w.cfg.Client.ClientFrequency
      BootStatus := "first_boot"
      UdpuUpstreamQoS := r.UpstreamQoS
      UdpuDownstreamQoS := r.DownstreamQoS
      UdpuHostname := r.Hostname
      UdpuLocation := r.Location
      UdpuRole := r.Role
      UdpuSecretKey := w.cfg.Client.UdpuSecretKey } }
  rw [h]
  exact step_store kinds w _ f w.exit

/-- The calls of `ProcessUdpuData` are job-list requests, goroutines that
execute a job, and registrations with the scheduler. -/
theorem ProcessUdpuData_step (env : Env) (respObj : ServerResponse) (w : World) :
    Step [.httpGet, .goExecuteJob, .cronAddFunc, .cronStart] w
      (ProcessUdpuData env respObj w) := by
  have hsub1 : ∀ k ∈ [EffectKind.httpGet], k ∈
      [EffectKind.httpGet, .goExecuteJob, .cronAddFunc, .cronStart] := by simp
  have hsub2 : ∀ k ∈ [EffectKind.goExecuteJob], k ∈
      [EffectKind.httpGet, .goExecuteJob, .cronAddFunc, .cronStart] := by simp
  have hsub3 : ∀ k ∈ [EffectKind.cronAddFunc, .cronStart], k ∈
      [EffectKind.httpGet, .goExecuteJob, .cronAddFunc, .cronStart] := by simp
  have hjobs : ∀ (l : List FieldMap) (w : World),
      Step [.httpGet, .goExecuteJob, .cronAddFunc, .cronStart] w (ProcessJobs l w) :=
    fun l w => onlyCalls_step (onlyCalls_mono hsub2 (ProcessJobs_calls l w))
  have hget : ∀ (u : URL) (w : World),
      Step [.httpGet, .goExecuteJob, .cronAddFunc, .cronStart] w (GetJobs env u w).1 :=
    fun u w => onlyCalls_step (onlyCalls_mono hsub1 (GetJobs_calls env u w))
  unfold ProcessUdpuData
  dsimp only
  have h1 : Step [.httpGet, .goExecuteJob, .cronAddFunc, .cronStart] w
      (match GetData "client" respObj.SubscriberUID w with
        | none =>
          match (InsertIntoClient respObj w).2 with
          | some _ => Fatalf (InsertIntoClient respObj w).1
          | none => (InsertIntoClient respObj w).1
        | some _ =>
          UpdateData "client" respObj.SubscriberUID (NewUdpuUpdateToMap respObj) w) := by
    split
    · split
      · exact step_trans (InsertIntoClient_step _ _ _) (Fatalf_step _ _)
      · exact InsertIntoClient_step _ _ _
    · exact UpdateData_step _ _ _ _ _
  refine step_trans h1 ?_
  generalize (match GetData "client" respObj.SubscriberUID w with
        | none =>
          match (InsertIntoClient respObj w).2 with
          | some _ => Fatalf (InsertIntoClient respObj w).1
          | none => (InsertIntoClient respObj w).1
        | some _ =>
          UpdateData "client" respObj.SubscriberUID (NewUdpuUpdateToMap respObj) w) = w1
  split
  · exact step_refl _ _
  · split
    · exact Fatalf_step _ _
    · have hfirst : ∀ client : Client,
          Step [.httpGet, .goExecuteJob, .cronAddFunc, .cronStart] w1
            (if client.BootStatus = BootStatusFirst then
              match (GetJobs env
                  (CreateURL env "http" none ["roles", client.UdpuRole, "jobs"] w1) w1).2 with
              | some firstBootJobsList =>
                ProcessJobs
                  ((GetFirstBootJobs (UpdateJobs firstBootJobsList (GetJobs env
                    (CreateURL env "http" none ["roles", client.UdpuRole, "jobs"] w1) w1).1)).getD [])
                  (UpdateJobs firstBootJobsList (GetJobs env
                    (CreateURL env "http" none ["roles", client.UdpuRole, "jobs"] w1) w1).1)
              | none => (GetJobs env
                  (CreateURL env "http" none ["roles", client.UdpuRole, "jobs"] w1) w1).1
            else w1) := by
        intro client
        split
        · split
          · exact step_trans (hget _ _) (step_trans (UpdateJobs_step _ _ _) (hjobs _ _))
          · exact hget _ _
        · exact step_refl _ _
      refine step_trans ?_
        (onlyCalls_step (onlyCalls_mono hsub3 (ProcessScheduledJobs_calls _ _)))
      split
      · refine step_trans ?_ (hjobs _ _)
        split
        · refine step_trans ?_ (UpdateJobs_step _ _ _)
          exact step_trans (hfirst _) (hget _ _)
        · exact step_trans (hfirst _) (hget _ _)
      · exact hfirst _

/-! ## The guard of the registered runtime -/

theorem UpdateOrCreateClientName_store_ex (newName : String) (w : World) :
    ∃ c f, (UpdateOrCreateClientName newName w).1 = { w with cfg := c, files := f } := by
  unfold UpdateOrCreateClientName
  split
  · exact ⟨_, _, rfl⟩
  · dsimp only
    split <;> exact ⟨_, save_store_ex w _⟩

theorem UpdateOrCreateClientName_frame (newName : String) (w : World) :
    (UpdateOrCreateClientName newName w).1.trace = w.trace ∧
    (UpdateOrCreateClientName newName w).1.registeredRuntimeOnce = w.registeredRuntimeOnce ∧
    (UpdateOrCreateClientName newName w).1.blocked = w.blocked := by
  obtain ⟨c, f, h⟩ := UpdateOrCreateClientName_store_ex newName w
  rw [h]
  exact ⟨rfl, rfl, rfl⟩

/-- A first call with a descriptor: the guard fires and the tunnel set-up is
recorded; then either every dial of the push channel is refused and the call
never returns, or the dials up to the accepted one are recorded, the listener
and the status loop are started and `ProcessUdpuData` runs. -/
theorem startRegisteredRuntime_first (env : Env) (d : ServerResponse) (w : World)
    (hfresh : w.registeredRuntimeOnce = false) (hrun : w.blocked = false) :
    ∃ (u : URL) (w2 : World), w2.registeredRuntimeOnce = true ∧ w2.blocked = false ∧
      w2.trace = w.trace ++ [.setupWG d] ∧
      (env.wsDial u = none →
        startRegisteredRuntime env (some d) w =
          { w2 with trace := w2.trace ++ [.wsDial u], blocked := true }) ∧
      (∀ n, env.wsDial u = some n →
        startRegisteredRuntime env (some d) w =
          ProcessUdpuData env d
            { w2 with
              WSConn := some d.SubscriberUID
              trace := w2.trace ++ List.replicate (n + 1) (.wsDial u) ++
                [.go (.listenLoop d.SubscriberUID), .go (.statusLoop d.SubscriberUID)] }) := by
  unfold startRegisteredRuntime
  simp only [hfresh, Bool.false_eq_true, if_false]
  obtain ⟨h1, h2, h3⟩ := UpdateOrCreateClientName_frame d.SubscriberUID
    { w with registeredRuntimeOnce := true }
  generalize (UpdateOrCreateClientName d.SubscriberUID
      { w with registeredRuntimeOnce := true }).1 = w1 at h1 h2 h3
  have key : ∀ w2 : World, w2.registeredRuntimeOnce = true → w2.blocked = false →
      w2.trace = w.trace ++ [.setupWG d] →
      ∃ (u : URL) (w5 : World), w5.registeredRuntimeOnce = true ∧ w5.blocked = false ∧
        w5.trace = w.trace ++ [.setupWG d] ∧
        (env.wsDial u = none →
          (if (InitWS env d.SubscriberUID w2).blocked = true then InitWS env d.SubscriberUID w2
           else ProcessUdpuData env d (StartUdpuStatusLoop d.SubscriberUID
            ((InitWS env d.SubscriberUID w2).emit (.go (.listenLoop d.SubscriberUID))))) =
            { w5 with trace := w5.trace ++ [.wsDial u], blocked := true }) ∧
        (∀ n, env.wsDial u = some n →
          (if (InitWS env d.SubscriberUID w2).blocked = true then InitWS env d.SubscriberUID w2
           else ProcessUdpuData env d (StartUdpuStatusLoop d.SubscriberUID
            ((InitWS env d.SubscriberUID w2).emit (.go (.listenLoop d.SubscriberUID))))) =
            ProcessUdpuData env d
              { w5 with
                WSConn := some d.SubscriberUID
                trace := w5.trace ++ List.replicate (n + 1) (.wsDial u) ++
                  [.go (.listenLoop d.SubscriberUID), .go (.statusLoop d.SubscriberUID)] }) := by
    intro w2 hg hb ht
    refine ⟨CreateURL env "ws" (some [("channel", d.SubscriberUID)]) ["pubsub"] w2, w2,
      hg, hb, ht, ?_, ?_⟩
    · intro hdial
      simp [InitWS, hdial, World.emit]
    · intro n hdial
      simp [InitWS, hdial, World.emit, hb, StartUdpuStatusLoop]
  have hw1 : (w1.emit (.setupWG d)).trace = w.trace ++ [.setupWG d] := by
    simp [World.emit, h1]
  have h3 : w1.blocked = false := h3.trans hrun
  cases hs : env.setupWG d with
  | some e => exact key (w1.emit (.setupWG d)) h2 h3 hw1
  | none =>
    cases hp : env.parseCIDR d.WGServerIP with
    | some ipPart => exact key { w1.emit (.setupWG d) with ServerHost := ipPart } h2 h3 hw1
    | none => exact key (w1.emit (.setupWG d)) h2 h3 hw1

theorem startRegisteredRuntime_fired (env : Env) (cur : Option ServerResponse) (w : World)
    (hfired : w.registeredRuntimeOnce = true) : startRegisteredRuntime env cur w = w := by
  unfold startRegisteredRuntime
  cases cur with
  | none => rfl
  | some d => simp [hfired]

theorem startRegisteredRuntimeAll_fired (env : Env) (calls : List (Option ServerResponse))
    (w : World) (hfired : w.registeredRuntimeOnce = true) :
    startRegisteredRuntimeAll env calls w = w := by
  induction calls with
  | nil => rfl
  | cons cur rest ih =>
    simp only [startRegisteredRuntimeAll, List.foldl_cons] at ih ⊢
    rw [startRegisteredRuntime_fired env cur w hfired]
    exact ih

theorem step_keeps_blocked {kinds : List EffectKind} {w w' : World} (h : Step kinds w w') :
    w'.blocked = w.blocked := by
  obtain ⟨t, -, -, hg⟩ := h
  have h1 := congrArg World.blocked hg
  exact h1

theorem startRegisteredRuntime_sets_guard (env : Env) (d : ServerResponse) (w : World)
    (hfresh : w.registeredRuntimeOnce = false) (hrun : w.blocked = false) :
    (startRegisteredRuntime env (some d) w).registeredRuntimeOnce = true := by
  obtain ⟨u, w5, h5, -, -, hfail, hok⟩ := startRegisteredRuntime_first env d w hfresh hrun
  cases hd : env.wsDial u with
  | none =>
    rw [hfail hd]
    exact h5
  | some n =>
    rw [hok n hd, (step_of_eq_fields (ProcessUdpuData_step env d _)).1]
    exact h5

/-- Claim C11 as stated fails: against a push-channel endpoint that refuses
every dial, two calls with descriptors record the tunnel set-up and a dial for
the first descriptor and nothing else; the first call never returns from
`InitWS`, so the listener, the status loop and `ProcessUdpuData` are started
not once but never.  Against an endpoint that accepts the first dial the same
calls start them once. -/
theorem C11_counterexample :
    (startRegisteredRuntimeAll deafEnv [some firstDescriptor, some laterDescriptor]
      {}).trace.map Effect.kind = [.setupWG, .wsDial] ∧
    (startRegisteredRuntimeAll deafEnv [some firstDescriptor, some laterDescriptor]
      {}).blocked = true ∧
    (startRegisteredRuntimeAll deafEnv [some firstDescriptor, some laterDescriptor]
      {}).WSConn = none ∧
    (startRegisteredRuntimeAll deafEnv [some firstDescriptor, some laterDescriptor]
      {}).registeredRuntimeOnce = true ∧
    (startRegisteredRuntimeAll silentEnv [some firstDescriptor, some laterDescriptor]
      {}).trace.map Effect.kind =
      [.setupWG, .wsDial, .goListen, .goStatus, .httpGet] :=
  ⟨by decide, by decide, by decide, by decide, by decide⟩

/-- Claim C11, amended.  At-most-once start of the registered runtime: from a
world in which the guard has not fired, a sequence of calls of
`startRegisteredRuntime` leaves the world unchanged if all descriptors are nil,
and otherwise leaves the world that the single call with the first non-nil
descriptor `d` leaves, with the guard fired.  That call records the tunnel
set-up for `d` once and then dials the push channel.  When a dial is accepted
after `n` refused ones, the `n + 1` dials are followed, once each, by the start
of the listener and of the status loop for `d` and by the calls of
`ProcessUdpuData` (job-list requests, job goroutines, scheduler registrations)
and no other.  When every dial is refused, the call never returns: nothing
follows the dials, and neither the listener nor the status loop nor
`ProcessUdpuData` is started by this or by any later call.  A call with a nil
descriptor changes nothing, the guard included. -/
theorem C11_registered_runtime_starts_at_most_once (env : Env) (w : World)
    (calls : List (Option ServerResponse)) (hfresh : w.registeredRuntimeOnce = false)
    (hrun : w.blocked = false) :
    (∀ w0 : World, startRegisteredRuntime env none w0 = w0) ∧
    (calls.filterMap id = [] → startRegisteredRuntimeAll env calls w = w) ∧
    (∀ d ds, calls.filterMap id = d :: ds →
      startRegisteredRuntimeAll env calls w = startRegisteredRuntime env (some d) w ∧
      (startRegisteredRuntimeAll env calls w).registeredRuntimeOnce = true ∧
      ∃ u,
        (∀ n, env.wsDial u = some n →
          (startRegisteredRuntimeAll env calls w).blocked = false ∧
          ∃ rest, (startRegisteredRuntimeAll env calls w).trace =
              w.trace ++ [.setupWG d] ++ List.replicate (n + 1) (.wsDial u) ++
                [.go (.listenLoop d.SubscriberUID), .go (.statusLoop d.SubscriberUID)] ++
                rest ∧
            ∀ e ∈ rest, e.kind ∈ [.httpGet, .goExecuteJob, .cronAddFunc, .cronStart]) ∧
        (env.wsDial u = none →
          (startRegisteredRuntimeAll env calls w).blocked = true ∧
          (startRegisteredRuntimeAll env calls w).trace =
            w.trace ++ [.setupWG d, .wsDial u])) := by
  refine ⟨fun _ => rfl, ?_, ?_⟩
  · intro hnil
    induction calls with
    | nil => rfl
    | cons cur rest ih =>
      cases cur with
      | none =>
        simp only [List.filterMap_cons, id] at hnil
        simpa [startRegisteredRuntimeAll, startRegisteredRuntime] using ih hnil
      | some d => simp at hnil
  · intro d ds hd
    have hall : startRegisteredRuntimeAll env calls w = startRegisteredRuntime env (some d) w := by
      induction calls with
      | nil => simp at hd
      | cons cur rest ih =>
        cases cur with
        | none =>
          simp only [List.filterMap_cons, id] at hd
          simpa [startRegisteredRuntimeAll, startRegisteredRuntime] using ih hd
        | some d0 =>
          simp only [List.filterMap_cons, id, List.cons.injEq] at hd
          obtain ⟨rfl, -⟩ := hd
          exact startRegisteredRuntimeAll_fired env rest _
            (startRegisteredRuntime_sets_guard env d0 w hfresh hrun)
    refine ⟨hall, ?_, ?_⟩
    · rw [hall]
      exact startRegisteredRuntime_sets_guard env d w hfresh hrun
    · rw [hall]
      obtain ⟨u, w5, -, h5b, h5t, hfail, hok⟩ := startRegisteredRuntime_first env d w hfresh hrun
      refine ⟨u, ?_, ?_⟩
      · intro n hdial
        rw [hok n hdial]
        have hstep := ProcessUdpuData_step env d
          { w5 with
            WSConn := some d.SubscriberUID
            trace := w5.trace ++ List.replicate (n + 1) (.wsDial u) ++
              [.go (.listenLoop d.SubscriberUID), .go (.statusLoop d.SubscriberUID)] }
        refine ⟨by rw [step_keeps_blocked hstep]; exact h5b, ?_⟩
        obtain ⟨t, ht, hk, -⟩ := hstep
        exact ⟨t, by rw [ht, h5t], hk⟩
      · intro hdial
        rw [hfail hdial]
        refine ⟨rfl, ?_⟩
        show w5.trace ++ [.wsDial u] = _
        rw [h5t]
        simp

/-! ## Commands and artifact lookups -/

theorem GetDataFromServer_world (env : Env) (u : URL) (w : World) :
    (GetDataFromServer env u w).1 = w.emit (.httpGet u) := by
  unfold GetDataFromServer
  dsimp only
  repeat' split
  all_goals rfl

theorem resolveSoftware_calls (env : Env) (host : String) (ids : List String)
    (st : World × List String) :
    OnlyCalls [.httpGet, .goDownload] st.1 (resolveSoftware env host ids st).1 := by
  induction ids generalizing st with
  | nil => exact onlyCalls_refl _ _
  | cons softwareID rest ih =>
    unfold resolveSoftware
    dsimp only
    have hstep : OnlyCalls [.httpGet, .goDownload] st.1
        (GetDataFromServer env
          { Scheme := "http", Host := host, Path := "/api/v1.0/repo/" ++ softwareID } st.1).1 := by
      rw [GetDataFromServer_world]
      exact onlyCalls_emit _ _ (by simp [Effect.kind])
    split
    · exact onlyCalls_trans hstep (ih _)
    · exact onlyCalls_trans hstep (ih _)

/-- The calls of `downloadRequiredSoftware` are repository lookups and the start
of the download goroutine. -/
theorem downloadRequiredSoftware_calls (env : Env) (softwareIDs : List String) (w : World) :
    OnlyCalls [.httpGet, .goDownload] w (downloadRequiredSoftware env softwareIDs w) := by
  unfold downloadRequiredSoftware
  dsimp only
  have h := resolveSoftware_calls env (w.RepoHost ++ ":" ++ toString w.RepoPort) softwareIDs (w, [])
  split
  · exact onlyCalls_trans h (onlyCalls_emit _ _ (by simp [Effect.kind]))
  · exact h

/-- The first call of `downloadRequiredSoftware` is the repository lookup of the
first software ID. -/
theorem downloadRequiredSoftware_head (env : Env) (softwareID : String) (rest : List String)
    (w : World) :
    ∃ t, (downloadRequiredSoftware env (softwareID :: rest) w).trace =
      w.trace ++ .httpGet (URL.mk "http" (w.RepoHost ++ ":" ++ toString w.RepoPort)
        ("/api/v1.0/repo/" ++ softwareID) []) :: t := by
  have hres : ∀ acc, ∃ t, (resolveSoftware env (w.RepoHost ++ ":" ++ toString w.RepoPort)
      (softwareID :: rest) (w, acc)).1.trace =
      w.trace ++ .httpGet (URL.mk "http" (w.RepoHost ++ ":" ++ toString w.RepoPort)
        ("/api/v1.0/repo/" ++ softwareID) []) :: t := by
    intro acc
    unfold resolveSoftware
    dsimp only
    split
    · obtain ⟨t, ht, -⟩ := resolveSoftware_calls env (w.RepoHost ++ ":" ++ toString w.RepoPort)
        rest ((GetDataFromServer env (URL.mk "http"
          (w.RepoHost ++ ":" ++ toString w.RepoPort) ("/api/v1.0/repo/" ++ softwareID) []) w).1, acc)
      refine ⟨t, ?_⟩
      rw [ht, GetDataFromServer_world]
      simp [World.emit]
    · rename_i urlStr _
      obtain ⟨t, ht, -⟩ := resolveSoftware_calls env (w.RepoHost ++ ":" ++ toString w.RepoPort)
        rest ((GetDataFromServer env (URL.mk "http"
          (w.RepoHost ++ ":" ++ toString w.RepoPort) ("/api/v1.0/repo/" ++ softwareID) []) w).1, acc ++ [urlStr])
      refine ⟨t, ?_⟩
      rw [ht, GetDataFromServer_world]
      simp [World.emit]
  unfold downloadRequiredSoftware
  dsimp only
  obtain ⟨t, ht⟩ := hres []
  generalize resolveSoftware env (w.RepoHost ++ ":" ++ toString w.RepoPort)
    (softwareID :: rest) (w, []) = r at ht ⊢
  split
  · exact ⟨t ++ [.go (.DownloadSoftwareConcurrently r.2 r.1.SoftwarePath)],
      by simp [World.emit, ht]⟩
  · exact ⟨t, ht⟩

theorem splitChars_ne_nil (sep : Char) (cs : List Char) : splitChars sep cs ≠ [] := by
  cases cs with
  | nil => simp [splitChars]
  | cons c cs =>
    unfold splitChars
    split
    · simp
    · split <;> simp

theorem SplitComma_cons (s : String) : ∃ first rest, SplitComma s = first :: rest := by
  unfold SplitComma
  cases h : splitChars ',' s.data with
  | nil => exact absurd h (splitChars_ne_nil _ _)
  | cons a l => exact ⟨_, _, rfl⟩

theorem ExecuteCommand_world (env : Env) (command name : String) (w : World) :
    (ExecuteCommand env command name w).1 =
      { w with trace := w.trace ++ [.shell (replaceQuotes command),
        .go (.sendJobLog name (replaceQuotes command)
          (TrimSpace (env.shell (replaceQuotes command)).stdout)
          (TrimSpace (env.shell (replaceQuotes command)).stderr)
          ((env.shell (replaceQuotes command)).processState.getD (-1)))] } := by
  unfold ExecuteCommand
  dsimp only
  split <;> simp [World.emit]

theorem ExecuteCommand_ok (env : Env) (command name : String) (w : World)
    (hok : (env.shell (replaceQuotes command)).err = none) :
    (ExecuteCommand env command name w).2 =
      (TrimSpace (env.shell (replaceQuotes command)).stdout, none) := by
  unfold ExecuteCommand
  dsimp only
  rw [hok]

/-- When its command succeeds, `processJob` returns the trimmed standard output
and records the command, the log goroutine and at most a vbuser update. -/
theorem processJob_ok (env : Env) (data : JobData) (w : World)
    (hok : (env.shell (replaceQuotes data.Command)).err = none) :
    (processJob env data w).2 = (TrimSpace (env.shell (replaceQuotes data.Command)).stdout, none) ∧
    OnlyCalls [.cronAddFunc, .cronStart, .shell, .goSendJobLog, .httpPatch] w
      (processJob env data w).1 := by
  have hcmd : OnlyCalls [.cronAddFunc, .cronStart, .shell, .goSendJobLog, .httpPatch] w
      (ExecuteCommand env data.Command data.Name w).1 := by
    rw [ExecuteCommand_world]
    exact ⟨_, rfl, by simp [Effect.kind]⟩
  unfold processJob
  dsimp only
  split
  · rw [ExecuteCommand_ok env _ _ _ hok]
    dsimp only
    refine ⟨rfl, ?_⟩
    split
    · exact onlyCalls_trans hcmd (onlyCalls_emit _ _ (by simp [Effect.kind]))
    · exact hcmd
  · rw [ExecuteCommand_ok env _ _ _ hok]
    exact ⟨rfl, hcmd⟩

/-! ## Job messages -/

theorem ConvertJobDataToMap_lookup (data : JobData) :
    (ConvertJobDataToMap data).lookup "name" = some (.str data.Name) ∧
    (ConvertJobDataToMap data).lookup "command" = some (.str data.Command) ∧
    (ConvertJobDataToMap data).lookup "frequency" = some (.str data.Frequency) ∧
    (ConvertJobDataToMap data).lookup "locked" = some (.str data.Locked) ∧
    (ConvertJobDataToMap data).lookup "require_output" = some (.str data.RequireOutput) ∧
    (ConvertJobDataToMap data).lookup "required_software" = some (.str data.RequiredSoftware) ∧
    (ConvertJobDataToMap data).lookup "job_type" = some (.str data.JobType) ∧
    (ConvertJobDataToMap data).lookup "vbuser_id" = some (.str data.VbuserID) := by
  simp [ConvertJobDataToMap, GoMap.ofList, Finmap.dlookup_list_toFinmap, List.dlookup]

theorem ConvertJobDataToMap_ne_empty (data : JobData) : ConvertJobDataToMap data ≠ ∅ := by
  intro h
  have h1 := (ConvertJobDataToMap_lookup data).1
  rw [h, Finmap.lookup_empty] at h1
  exact absurd h1 (by simp)

theorem Job_merge_ConvertJobDataToMap (j : Job) (data : JobData) :
    j.merge (ConvertJobDataToMap data) =
      { Name := j.Name, Command := data.Command, Frequency := data.Frequency,
        Locked := data.Locked, RequireOutput := data.RequireOutput,
        RequiredSoftware := data.RequiredSoftware, JobType := data.JobType,
        VbuserID := data.VbuserID } := by
  obtain ⟨-, h2, h3, h4, h5, h6, h7, h8⟩ := ConvertJobDataToMap_lookup data
  simp [Job.merge, assignFrom, h2, h3, h4, h5, h6, h7, h8, Sprint]

/-- The record that the upsert of a received job leaves under the job's name
carries the message's values, whatever was stored before. -/
theorem upsertJob_lookup (data : JobData) (w : World)
    (hne : data.Name ≠ "") (hnil : data.Name ≠ "<nil>") :
    ∃ j, (upsertJob data.Name (ConvertJobDataToMap data) w).cfg.Jobs.lookup data.Name = some j ∧
      j.Command = data.Command ∧ j.Frequency = data.Frequency ∧ j.Locked = data.Locked ∧
      j.RequireOutput = data.RequireOutput ∧ j.RequiredSoftware = data.RequiredSoftware ∧
      j.JobType = data.JobType ∧ j.VbuserID = data.VbuserID := by
  unfold upsertJob
  cases hl : w.cfg.Jobs.lookup data.Name with
  | none =>
    simp only [GetData, hl, if_true]
    rw [CreateData_job_cfg w _ (.str data.Name) data.Name (ConvertJobDataToMap_lookup data).1 rfl
      hne hnil, Job_merge_ConvertJobDataToMap]
    exact ⟨_, Finmap.lookup_insert _, rfl, rfl, rfl, rfl, rfl, rfl, rfl⟩
  | some j0 =>
    simp only [GetData, hl, if_true, UpdateData, ConvertJobDataToMap_ne_empty, if_false, save_cfg]
    rw [Job_merge_ConvertJobDataToMap]
    exact ⟨_, Finmap.lookup_insert _, rfl, rfl, rfl, rfl, rfl, rfl, rfl⟩

theorem WriteMessage_open (env : Env) (msg : JSON) (w : World) (c : String)
    (hconn : w.WSConn = some c) : (WriteMessage env msg w).1 = w.emit (.wsWrite msg) := by
  unfold WriteMessage
  rw [hconn]

/-- The shape of `JobEvent` on an unlocked message whose command succeeds, with
the push channel open: after the lookups `w1` and the upserts `w2`, the calls
are those of the scheduler and of `processJob`, followed by the reply unless
require_output is "false". -/
theorem JobEvent_unlocked_ok (env : Env) (data : JobData) (w w1 w2 : World) (c : String)
    (hlocked : data.Locked = "false")
    (hok : (env.shell (replaceQuotes data.Command)).err = none)
    (hconn : w.WSConn = some c)
    (hw1 : w1 = if data.RequiredSoftware ≠ "None" then
      downloadRequiredSoftware env (SplitComma data.RequiredSoftware) w else w)
    (hw2 : w2 = if data.Frequency = EveryBoot ∧ data.Command ≠ "" then
      upsertJob data.Name (ConvertJobDataToMap data)
        (upsertJob data.Name (ConvertJobDataToMap data) w1)
      else upsertJob data.Name (ConvertJobDataToMap data) w1) :
    ∃ t, (∀ e ∈ t, e.kind ∈ [.cronAddFunc, .cronStart, .shell, .goSendJobLog, .httpPatch]) ∧
      JobEvent env data w =
        { w2 with
          trace := w1.trace ++ t ++
            if data.RequireOutput = "false" then []
            else [.wsWrite (.obj [("response",
              .str (TrimSpace (env.shell (replaceQuotes data.Command)).stdout))])] } := by
  have h1conn : w1.WSConn = some c := by
    rw [hw1]
    split
    · obtain ⟨t, ht, -⟩ := downloadRequiredSoftware_calls env (SplitComma data.RequiredSoftware) w
      rw [ht]
      exact hconn
    · exact hconn
  have h2 : w2.trace = w1.trace ∧ w2.WSConn = some c := by
    rw [hw2]
    split
    · rw [upsertJob_store, upsertJob_store _ _ w1]
      exact ⟨rfl, h1conn⟩
    · rw [upsertJob_store]
      exact ⟨rfl, h1conn⟩
  obtain ⟨t3, h3, k3⟩ := @onlyCalls_mono _
    [.cronAddFunc, .cronStart, .shell, .goSendJobLog, .httpPatch] _ _ (by simp)
    (ScheduleJob_calls data.Frequency
      { Name := data.Name, Command := data.Command, RequireOutput := data.RequireOutput } w2)
  obtain ⟨hres, t5, h5, k5⟩ := processJob_ok env data
    (ScheduleJob data.Frequency
      { Name := data.Name, Command := data.Command, RequireOutput := data.RequireOutput } w2) hok
  refine ⟨t3 ++ t5, ?_, ?_⟩
  · intro e he
    rcases List.mem_append.1 he with h | h
    · exact k3 e h
    · exact k5 e h
  · unfold JobEvent
    simp only [hlocked, ne_eq, not_true_eq_false, if_false]
    rw [← hw1, ← hw2]
    rw [hres]
    dsimp only
    have h2t := h2.1
    have h2c := h2.2
    clear hw1 hw2 h2
    split
    · rw [h5, h3]
      simp [h2t, *]
    · rw [WriteMessage_open env _ _ c (by rw [h5, h3]; exact h2c), h5, h3]
      simp [h2t, World.emit, *]

theorem wsMessage_of_kind (e : Effect) (h : e.kind ≠ .wsWrite) : e.wsMessage = none := by
  cases e <;> simp [Effect.kind, Effect.wsMessage] at h ⊢

theorem wsMessage_filter_nil (t : List Effect) (h : ∀ e ∈ t, e.kind ≠ .wsWrite) :
    t.filterMap Effect.wsMessage = [] := by
  induction t with
  | nil => rfl
  | cons e t ih =>
    rw [List.filterMap_cons, wsMessage_of_kind e (h e (List.mem_cons_self _ _))]
    exact ih fun e he => h e (List.mem_cons_of_mem _ he)

theorem processJob_calls (env : Env) (data : JobData) (w : World) :
    OnlyCalls [.shell, .goSendJobLog, .httpPatch] w (processJob env data w).1 := by
  have hcmd : OnlyCalls [.shell, .goSendJobLog, .httpPatch] w
      (ExecuteCommand env data.Command data.Name w).1 := by
    rw [ExecuteCommand_world]
    exact ⟨_, rfl, by simp [Effect.kind]⟩
  unfold processJob
  dsimp only
  split
  · split
    · exact hcmd
    · dsimp only
      split
      · exact onlyCalls_trans hcmd (onlyCalls_emit _ _ (by simp [Effect.kind]))
      · exact hcmd
  · split
    · exact hcmd
    · exact hcmd

theorem WriteMessage_step (env : Env) (msg : JSON) (w : World) :
    Step [.wsWrite] w (WriteMessage env msg w).1 := by
  unfold WriteMessage
  split
  · exact ⟨[], by simp [goPanic], by simp, rfl⟩
  · exact onlyCalls_step (onlyCalls_emit _ _ (by simp [Effect.kind]))

/-- After the lookups of required software, `JobEvent` makes no repository
request and starts no download, whatever the outcome of the command. -/
theorem JobEvent_after_lookups (env : Env) (data : JobData) (w : World)
    (hlocked : data.Locked = "false") :
    ∃ t, (JobEvent env data w).trace =
        (if data.RequiredSoftware ≠ "None" then
          downloadRequiredSoftware env (SplitComma data.RequiredSoftware) w else w).trace ++ t ∧
      ∀ e ∈ t, e.kind ∈
        [.cronAddFunc, .cronStart, .shell, .goSendJobLog, .httpPatch, .wsWrite] := by
  have key : ∀ w1 : World, Step
      [.cronAddFunc, .cronStart, .shell, .goSendJobLog, .httpPatch, .wsWrite] w1
      (let dataMap := ConvertJobDataToMap data
       let w := upsertJob data.Name dataMap w1
       let w :=
         if data.Frequency = EveryBoot ∧ data.Command ≠ "" then upsertJob data.Name dataMap w
         else w
       let executeData : ExecuteJobData :=
         { Name := data.Name, Command := data.Command, RequireOutput := data.RequireOutput }
       let w := ScheduleJob data.Frequency executeData w
       let r := processJob env data w
       match r.2.2 with
       | some _ => r.1
       | none =>
         if data.RequireOutput = "false" then r.1
         else (WriteMessage env (.obj [("response", .str r.2.1)]) r.1).1) := by
    intro w1
    dsimp only
    have h1 := upsertJob_step
      [.cronAddFunc, .cronStart, .shell, .goSendJobLog, .httpPatch, .wsWrite]
      data.Name (ConvertJobDataToMap data) w1
    have h2 : Step [.cronAddFunc, .cronStart, .shell, .goSendJobLog, .httpPatch, .wsWrite] w1
        (if data.Frequency = EveryBoot ∧ data.Command ≠ "" then
          upsertJob data.Name (ConvertJobDataToMap data)
            (upsertJob data.Name (ConvertJobDataToMap data) w1)
         else upsertJob data.Name (ConvertJobDataToMap data) w1) := by
      split
      · exact step_trans h1 (upsertJob_step _ _ _ _)
      · exact h1
    have h3 := step_trans h2 (onlyCalls_step (@onlyCalls_mono _
      [.cronAddFunc, .cronStart, .shell, .goSendJobLog, .httpPatch, .wsWrite] _ _
      (by simp) (ScheduleJob_calls data.Frequency
        { Name := data.Name, Command := data.Command, RequireOutput := data.RequireOutput } _)))
    have h4 := step_trans h3 (onlyCalls_step (@onlyCalls_mono _
      [.cronAddFunc, .cronStart, .shell, .goSendJobLog, .httpPatch, .wsWrite] _ _
      (by simp) (processJob_calls env data _)))
    split
    · exact h4
    · split
      · exact h4
      · exact step_trans h4 (step_mono (by simp) (WriteMessage_step env _ _))
  obtain ⟨t, ht, hk, -⟩ := key (if data.RequiredSoftware ≠ "None" then
    downloadRequiredSoftware env (SplitComma data.RequiredSoftware) w else w)
  refine ⟨t, ?_, hk⟩
  rw [← ht]
  unfold JobEvent
  simp only [hlocked, ne_eq, not_true_eq_false, if_false]

/-- What `JobEvent` sends over the open push channel for an unlocked message
whose command succeeds: the calls before the reply are no writes to the
channel, and the reply follows unless require_output is "false". -/
theorem JobEvent_reply (env : Env) (data : JobData) (w : World) (c : String)
    (hlocked : data.Locked = "false")
    (hok : (env.shell (replaceQuotes data.Command)).err = none)
    (hconn : w.WSConn = some c) :
    ∃ t, (∀ e ∈ t, e.kind ≠ .wsWrite) ∧
      (JobEvent env data w).trace = w.trace ++ t ++
        if data.RequireOutput = "false" then []
        else [.wsWrite (.obj [("response",
          .str (TrimSpace (env.shell (replaceQuotes data.Command)).stdout))])] := by
  obtain ⟨t, hk, h⟩ := JobEvent_unlocked_ok env data w _ _ c hlocked hok hconn rfl rfl
  have h1 : ∃ t1, (∀ e ∈ t1, e.kind ∈ [EffectKind.httpGet, .goDownload]) ∧
      (if data.RequiredSoftware ≠ "None" then
        downloadRequiredSoftware env (SplitComma data.RequiredSoftware) w else w).trace =
        w.trace ++ t1 := by
    split
    · obtain ⟨t1, h1, k1⟩ :=
        downloadRequiredSoftware_calls env (SplitComma data.RequiredSoftware) w
      exact ⟨t1, k1, by rw [h1]⟩
    · exact ⟨[], by simp, by simp⟩
  obtain ⟨t1, k1, h1⟩ := h1
  refine ⟨t1 ++ t, ?_, ?_⟩
  · intro e he
    rcases List.mem_append.1 he with h | h
    · have := k1 e h
      intro hw
      rw [hw] at this
      simp at this
    · have := hk e h
      intro hw
      rw [hw] at this
      simp at this
  · rw [h]
    dsimp only
    rw [h1, List.append_assoc w.trace]

/-! ## Claims on job messages -/


/-- An instance of claim C11: four calls, the second and the fourth with a
descriptor, against an endpoint that accepts the third dial, end in the world
of the single call with the second call's descriptor; the fourth call's
descriptor starts nothing. -/
theorem C11_registered_runtime_starts_at_most_once_witness :
    ({} : World).registeredRuntimeOnce = false ∧ ({} : World).blocked = false ∧
    startRegisteredRuntimeAll busyEnv
        [none, some firstDescriptor, none, some laterDescriptor] {} =
      startRegisteredRuntime busyEnv (some firstDescriptor) {} ∧
    (startRegisteredRuntimeAll busyEnv
        [none, some firstDescriptor, none, some laterDescriptor] {}).registeredRuntimeOnce =
      true :=
  ⟨rfl, rfl,
   ((C11_registered_runtime_starts_at_most_once busyEnv {}
      [none, some firstDescriptor, none, some laterDescriptor] rfl rfl).2.2
      firstDescriptor [laterDescriptor] rfl).1,
   ((C11_registered_runtime_starts_at_most_once busyEnv {}
      [none, some firstDescriptor, none, some laterDescriptor] rfl rfl).2.2
      firstDescriptor [laterDescriptor] rfl).2.1⟩

/-- Claim C12 as stated fails: an unlocked message with require_output "true"
and no name, whose command succeeds, is executed and answered, and no job record
is stored, under the empty name or any other. -/
theorem C12_counterexample :
    ({ pingMessage with Name := "" } : JobData).Locked = "false" ∧
    ({ pingMessage with Name := "" } : JobData).RequireOutput = "true" ∧
    (hiEnv.shell (replaceQuotes ({ pingMessage with Name := "" } : JobData).Command)).err =
      none ∧
    (JobEvent hiEnv { pingMessage with Name := "" } connectedWorld).cfg.Jobs.lookup "" = none ∧
    (JobEvent hiEnv { pingMessage with Name := "" } connectedWorld).cfg.Jobs = ∅ ∧
    (JobEvent hiEnv { pingMessage with Name := "" } connectedWorld).trace.filterMap
      Effect.wsMessage = [.obj [("response", .str "hi")]] :=
  ⟨by decide, by decide, by decide, by decide, by rfl, by rfl⟩

/-- Claim C12, amended.  For every unlocked job message with require_output
"true" whose name is neither empty nor `<nil>`, received while the push channel
is open, and whose command succeeds with standard output `s`: after `JobEvent`
the store holds under the message's name a job record with the message's
command, frequency, locked, require_output and required_software values, and
exactly one message has been written to the push channel, the JSON object with
the single key `response` whose value is `s` trimmed. -/
theorem C12_job_message_end_to_end (env : Env) (data : JobData) (w : World) (c s : String)
    (hlocked : data.Locked = "false") (hout : data.RequireOutput = "true")
    (hok : (env.shell (replaceQuotes data.Command)).err = none)
    (hs : (env.shell (replaceQuotes data.Command)).stdout = s)
    (hconn : w.WSConn = some c) (hne : data.Name ≠ "") (hnil : data.Name ≠ "<nil>") :
    (∃ j, (JobEvent env data w).cfg.Jobs.lookup data.Name = some j ∧
      j.Command = data.Command ∧ j.Frequency = data.Frequency ∧ j.Locked = data.Locked ∧
      j.RequireOutput = data.RequireOutput ∧ j.RequiredSoftware = data.RequiredSoftware) ∧
    ∃ t, (JobEvent env data w).trace = w.trace ++ t ∧
      t.filterMap Effect.wsMessage = [.obj [("response", .str (TrimSpace s))]] := by
  constructor
  · obtain ⟨t, -, h⟩ := JobEvent_unlocked_ok env data w _ _ c hlocked hok hconn rfl rfl
    rw [h]
    dsimp only
    split
    · obtain ⟨j, hj, h1, h2, h3, h4, h5, -⟩ := upsertJob_lookup data
        (upsertJob data.Name (ConvertJobDataToMap data)
          (if data.RequiredSoftware ≠ "None" then
            downloadRequiredSoftware env (SplitComma data.RequiredSoftware) w else w)) hne hnil
      exact ⟨j, hj, h1, h2, h3, h4, h5⟩
    · obtain ⟨j, hj, h1, h2, h3, h4, h5, -⟩ := upsertJob_lookup data
        (if data.RequiredSoftware ≠ "None" then
          downloadRequiredSoftware env (SplitComma data.RequiredSoftware) w else w) hne hnil
      exact ⟨j, hj, h1, h2, h3, h4, h5⟩
  · obtain ⟨t, hk, h⟩ := JobEvent_reply env data w c hlocked hok hconn
    have hf : data.RequireOutput ≠ "false" := by
      rw [hout]
      decide
    rw [if_neg hf, hs, List.append_assoc] at h
    refine ⟨_, h, ?_⟩
    rw [List.filterMap_append, wsMessage_filter_nil t hk]
    rfl

/-- An instance of claim C12: the message `ping` with command `echo hi`, whose
output is `hi` and a line feed, stores the record `ping` and sends the object
whose only member is `response` with the value `hi`. -/
theorem C12_job_message_end_to_end_witness :
    (∃ j, (JobEvent hiEnv pingMessage connectedWorld).cfg.Jobs.lookup "ping" = some j ∧
      j.Command = "echo hi" ∧ j.Frequency = "once" ∧ j.Locked = "false" ∧
      j.RequireOutput = "true" ∧ j.RequiredSoftware = "none") ∧
    ∃ t, (JobEvent hiEnv pingMessage connectedWorld).trace = connectedWorld.trace ++ t ∧
      t.filterMap Effect.wsMessage = [.obj [("response", .str (TrimSpace "hi\n"))]] :=
  C12_job_message_end_to_end hiEnv pingMessage connectedWorld "uid-1" "hi\n"
    rfl rfl rfl rfl rfl (by decide) (by decide)

/-- For every unlocked job message received while the push channel is open and
whose command succeeds, `JobEvent` writes a response message to the push
channel if and only if require_output is not the string "false": for "false"
nothing is written, and for every other value (the empty string of an omitted
field included) exactly the response with the trimmed output is written. -/
theorem JobEvent_replies_unless_false (env : Env) (data : JobData) (w : World) (c : String)
    (hlocked : data.Locked = "false")
    (hok : (env.shell (replaceQuotes data.Command)).err = none)
    (hconn : w.WSConn = some c) :
    ∃ t, (JobEvent env data w).trace = w.trace ++ t ∧
      ((∃ e ∈ t, e.kind = .wsWrite) ↔ data.RequireOutput ≠ "false") ∧
      (data.RequireOutput = "false" → t.filterMap Effect.wsMessage = []) ∧
      (data.RequireOutput ≠ "false" → t.filterMap Effect.wsMessage =
        [.obj [("response",
          .str (TrimSpace (env.shell (replaceQuotes data.Command)).stdout))]]) := by
  obtain ⟨t, hk, h⟩ := JobEvent_reply env data w c hlocked hok hconn
  by_cases hf : data.RequireOutput = "false"
  · rw [if_pos hf, List.append_nil] at h
    refine ⟨t, h, ?_, fun _ => wsMessage_filter_nil t hk, fun hn => absurd hf hn⟩
    constructor
    · rintro ⟨e, he, hw⟩
      exact absurd hw (hk e he)
    · intro hn
      exact absurd hf hn
  · rw [if_neg hf, List.append_assoc] at h
    refine ⟨_, h, ?_, fun hn => absurd hn hf, fun _ => ?_⟩
    · constructor
      · intro _
        exact hf
      · intro _
        exact ⟨_, List.mem_append_right _ (List.mem_singleton_self _), rfl⟩
    · rw [List.filterMap_append, wsMessage_filter_nil t hk]
      rfl

/-- Claim C13 on the code: an unlocked message that omits require_output (so
the value is the empty string, not "true") and whose command succeeds is
answered over the push channel by `JobEvent`, and so is a message with the
value "no"; only the value "false" stops the answer, although the answer is
meant for required output only.  `QueueEvent` does test against "true": the
same job without require_output, fetched for a queue, is neither run nor
answered. -/
theorem C13_reply_without_required_output :
    ({ pingMessage with RequireOutput := "" } : JobData).Locked = "false" ∧
    ({ pingMessage with RequireOutput := "" } : JobData).RequireOutput ≠ "true" ∧
    (hiEnv.shell (replaceQuotes
      ({ pingMessage with RequireOutput := "" } : JobData).Command)).err = none ∧
    (JobEvent hiEnv { pingMessage with RequireOutput := "" } connectedWorld).trace.filterMap
      Effect.wsMessage = [.obj [("response", .str "hi")]] ∧
    (JobEvent hiEnv { pingMessage with RequireOutput := "no" } connectedWorld).trace.filterMap
      Effect.wsMessage = [.obj [("response", .str "hi")]] ∧
    (JobEvent hiEnv { pingMessage with RequireOutput := "false" } connectedWorld).trace.filterMap
      Effect.wsMessage = [] ∧
    (QueueEvent bareQueueEnv { Name := "nightly", Jobs := "ping", Locked := "false" }
      connectedWorld).trace.map Effect.kind = [.httpGet] :=
  ⟨by decide, by decide, by decide, by rfl, by rfl, by rfl, by decide⟩

/-! ## Claims on required software -/


/-- Claim C14 as stated fails: for the unlocked message `ping`, whose
required_software is "none", `JobEvent` first asks the repository for an
artifact with the ID `none`. -/
theorem C14_counterexample :
    pingMessage.Locked = "false" ∧ pingMessage.RequiredSoftware = "none" ∧
    (JobEvent hiEnv pingMessage connectedWorld).trace =
      [.httpGet (URL.mk "http" ":0" "/api/v1.0/repo/none" []),
       .shell "echo hi", .go (.sendJobLog "ping" "echo hi" "hi" "" 0),
       .wsWrite (.obj [("response", .str "hi")])] :=
  ⟨by decide, by decide, by rfl⟩

/-- Claim C14, amended.  The sentinel is the string "None": for every unlocked
job message whose required_software is "None", `JobEvent` makes no repository
request and starts no download; for every other value it runs
`downloadRequiredSoftware` on the value split at commas, which begins with the
repository request for the first ID, and makes no further repository request
and starts no further download afterwards. -/
theorem C14_None_suppresses_resolution (env : Env) (data : JobData) (w : World)
    (hlocked : data.Locked = "false") :
    (data.RequiredSoftware = "None" →
      ∃ t, (JobEvent env data w).trace = w.trace ++ t ∧
        ∀ e ∈ t, e.kind ≠ .httpGet ∧ e.kind ≠ .goDownload) ∧
    (data.RequiredSoftware ≠ "None" →
      ∃ first rest t t', SplitComma data.RequiredSoftware = first :: rest ∧
        (JobEvent env data w).trace =
          (downloadRequiredSoftware env (first :: rest) w).trace ++ t ∧
        (∀ e ∈ t, e.kind ≠ .httpGet ∧ e.kind ≠ .goDownload) ∧
        (downloadRequiredSoftware env (first :: rest) w).trace =
          w.trace ++ .httpGet (URL.mk "http" (w.RepoHost ++ ":" ++ toString w.RepoPort)
            ("/api/v1.0/repo/" ++ first) []) :: t') := by
  obtain ⟨t, ht, hk⟩ := JobEvent_after_lookups env data w hlocked
  have hno : ∀ e ∈ t, e.kind ≠ .httpGet ∧ e.kind ≠ .goDownload := by
    intro e he
    have := hk e he
    constructor <;> intro hw <;> rw [hw] at this <;> simp at this
  constructor
  · intro hr
    refine ⟨t, ?_, hno⟩
    rw [ht, if_neg (by simpa using hr)]
  · intro hr
    obtain ⟨first, rest, hsplit⟩ := SplitComma_cons data.RequiredSoftware
    obtain ⟨t', ht'⟩ := downloadRequiredSoftware_head env first rest w
    refine ⟨first, rest, t, t', hsplit, ?_, hno, ht'⟩
    rw [ht, if_pos hr, hsplit]

/-- An instance of claim C14: the message `ping` with required_software "None"
leads to the command, its log goroutine and the reply, and to nothing else. -/
theorem C14_None_suppresses_resolution_witness :
    ({ pingMessage with RequiredSoftware := "None" } : JobData).RequiredSoftware = "None" ∧
    ∃ t, (JobEvent hiEnv { pingMessage with RequiredSoftware := "None" } connectedWorld).trace =
        connectedWorld.trace ++ t ∧
      ∀ e ∈ t, e.kind ≠ .httpGet ∧ e.kind ≠ .goDownload :=
  ⟨rfl, (C14_None_suppresses_resolution hiEnv { pingMessage with RequiredSoftware := "None" }
    connectedWorld rfl).1 rfl⟩

/-- Claim C15 on the code: for required software "None" the queue path asks the
repository for the artifact `None` while the direct path asks for nothing, and
for the empty string the direct path asks for the artifact with the empty ID
while the queue path asks for nothing. -/
theorem C15_queue_and_job_resolution_differ :
    (JobEvent (queueEnv "None")
        { Name := "ping", Command := "echo hi", Locked := "false", RequireOutput := "false",
          RequiredSoftware := "None" } connectedWorld).trace =
      [.shell "echo hi", .go (.sendJobLog "ping" "echo hi" "hi" "" 0)] ∧
    (QueueEvent (queueEnv "None") { Name := "nightly", Jobs := "ping", Locked := "false" }
        connectedWorld).trace =
      [.httpGet (URL.mk "http" ":0" "/api/v1.0/jobs/" [("filter_by", "ping")]),
       .httpGet (URL.mk "http" ":0" "/api/v1.0/repo/None" [])] ∧
    (JobEvent (queueEnv "")
        { Name := "ping", Command := "echo hi", Locked := "false", RequireOutput := "false",
          RequiredSoftware := "" } connectedWorld).trace =
      [.httpGet (URL.mk "http" ":0" "/api/v1.0/repo/" []),
       .shell "echo hi", .go (.sendJobLog "ping" "echo hi" "hi" "" 0)] ∧
    (QueueEvent (queueEnv "") { Name := "nightly", Jobs := "ping", Locked := "false" }
        connectedWorld).trace =
      [.httpGet (URL.mk "http" ":0" "/api/v1.0/jobs/" [("filter_by", "ping")])] :=
  ⟨by rfl, by rfl, by rfl, by rfl⟩

/-! ## Claims on commands -/


theorem ofList_cons_ne_empty {α : Type} (k : String) (v : α) (l : List (String × α)) :
    GoMap.ofList ((k, v) :: l) ≠ ∅ := by
  intro h
  have h1 : (GoMap.ofList ((k, v) :: l)).lookup k = some v := by
    simp [GoMap.ofList, Finmap.dlookup_list_toFinmap, List.dlookup]
  rw [h, Finmap.lookup_empty] at h1
  exact absurd h1 (by simp)

/-- Claim C16.  Routing of captured output by job type: when the command of a
job succeeds with (trimmed) output `o`, `processJob` returns `o`; its calls are
those of the command (the shell call and the log goroutine, no update), followed
for a job with a non-empty vbuser ID by one PATCH to the vbuser endpoint of
that ID with the payload `ghn_ep_mac: o` for job type `update_ep`,
`ghn_dm_mac: o` for `update_dm`, `lq_min_rate: o` for `update_min_rate`, and
`lq_max_rate: o, lq_current_rate: o` for `update_max_rate`; for every other job
type, and for every job with an empty vbuser ID, nothing follows. -/
theorem C16_jobType_routing (env : Env) (data : JobData) (w : World) (o : String)
    (hok : (env.shell (replaceQuotes data.Command)).err = none)
    (ho : TrimSpace (env.shell (replaceQuotes data.Command)).stdout = o) :
    ∃ cmd url, (processJob env data w).2 = (o, none) ∧
      ExecuteCommand env data.Command data.Name w = ({ w with trace := w.trace ++ cmd }, o, none) ∧
      (∀ e ∈ cmd, e.kind ≠ .httpPatch) ∧
      url = "http://" ++ (w.ServerHost ++ ":" ++ toString w.ServerPort) ++ "/api/v1.0/vbuser/" ++
        data.VbuserID ∧
      (data.VbuserID ≠ "" → data.JobType = "update_ep" → (processJob env data w).1 =
        { w with trace := w.trace ++ cmd ++
          [.httpPatch url (GoMap.ofList [("ghn_ep_mac", o)])] }) ∧
      (data.VbuserID ≠ "" → data.JobType = "update_dm" → (processJob env data w).1 =
        { w with trace := w.trace ++ cmd ++
          [.httpPatch url (GoMap.ofList [("ghn_dm_mac", o)])] }) ∧
      (data.VbuserID ≠ "" → data.JobType = "update_min_rate" → (processJob env data w).1 =
        { w with trace := w.trace ++ cmd ++
          [.httpPatch url (GoMap.ofList [("lq_min_rate", o)])] }) ∧
      (data.VbuserID ≠ "" → data.JobType = "update_max_rate" → (processJob env data w).1 =
        { w with trace := w.trace ++ cmd ++
          [.httpPatch url (GoMap.ofList [("lq_max_rate", o), ("lq_current_rate", o)])] }) ∧
      (data.VbuserID = "" ∨
          data.JobType ∉ ["update_ep", "update_dm", "update_min_rate", "update_max_rate"] →
        (processJob env data w).1 = { w with trace := w.trace ++ cmd }) := by
  have hw := ExecuteCommand_world env data.Command data.Name w
  have hr := ExecuteCommand_ok env data.Command data.Name w hok
  rw [ho] at hr
  have hcmd : ExecuteCommand env data.Command data.Name w =
      ((ExecuteCommand env data.Command data.Name w).1, o, none) := by
    rw [← hr]
  rw [hw] at hcmd
  refine ⟨_, _, ?_, hcmd, ?_, rfl, ?_, ?_, ?_, ?_, ?_⟩
  · rw [(processJob_ok env data w hok).1, ho]
  · intro e he
    simp only [List.mem_cons, List.mem_singleton, List.not_mem_nil, or_false] at he
    rcases he with rfl | rfl <;> simp [Effect.kind]
  · intro hv ht
    have hp : vbuserPayload "update_ep" o ≠ ∅ := ofList_cons_ne_empty _ _ _
    simp only [processJob, hv, ne_eq, not_false_eq_true, if_true, hcmd, ht, hp]
    simp [updateVbuser, World.emit, vbuserPayload]
  · intro hv ht
    have hp : vbuserPayload "update_dm" o ≠ ∅ := ofList_cons_ne_empty _ _ _
    simp only [processJob, hv, ne_eq, not_false_eq_true, if_true, hcmd, ht, hp]
    simp [updateVbuser, World.emit, vbuserPayload]
  · intro hv ht
    have hp : vbuserPayload "update_min_rate" o ≠ ∅ := ofList_cons_ne_empty _ _ _
    simp only [processJob, hv, ne_eq, not_false_eq_true, if_true, hcmd, ht, hp]
    simp [updateVbuser, World.emit, vbuserPayload]
  · intro hv ht
    have hp : vbuserPayload "update_max_rate" o ≠ ∅ := ofList_cons_ne_empty _ _ _
    simp only [processJob, hv, ne_eq, not_false_eq_true, if_true, hcmd, ht, hp]
    simp [updateVbuser, World.emit, vbuserPayload]
  · intro h
    by_cases hv : data.VbuserID = ""
    · simp only [processJob, hv, ne_eq, not_true_eq_false, if_false, hcmd]
    · have ht : data.JobType ∉
          ["update_ep", "update_dm", "update_min_rate", "update_max_rate"] := by
        rcases h with h | h
        · exact absurd h hv
        · exact h
      simp only [List.mem_cons, List.mem_singleton, List.not_mem_nil, or_false, not_or] at ht
      have hp : vbuserPayload data.JobType o = ∅ := by
        simp [vbuserPayload, ht.1, ht.2.1, ht.2.2.1, ht.2.2.2]
      simp only [processJob, hv, ne_eq, not_false_eq_true, if_true, hcmd, hp, not_true_eq_false,
        if_false]

/-- An instance of claim C16: the job `rate` of type `update_max_rate` for the
vbuser `vb7` sends both rate fields with the output `hi`. -/
theorem C16_jobType_routing_witness :
    ∃ cmd url, (processJob hiEnv
        { Name := "rate", Command := "echo hi", VbuserID := "vb7", JobType := "update_max_rate" }
        connectedWorld).2 = ("hi", none) ∧
      ExecuteCommand hiEnv "echo hi" "rate" connectedWorld =
        ({ connectedWorld with trace := connectedWorld.trace ++ cmd }, "hi", none) ∧
      (∀ e ∈ cmd, e.kind ≠ .httpPatch) ∧
      url = "http://" ++ (connectedWorld.ServerHost ++ ":" ++ toString connectedWorld.ServerPort)
        ++ "/api/v1.0/vbuser/" ++ "vb7" ∧
      (processJob hiEnv
        { Name := "rate", Command := "echo hi", VbuserID := "vb7", JobType := "update_max_rate" }
        connectedWorld).1 =
        { connectedWorld with trace := connectedWorld.trace ++ cmd ++
          [.httpPatch url (GoMap.ofList [("lq_max_rate", "hi"), ("lq_current_rate", "hi")])] } := by
  obtain ⟨cmd, url, h1, h2, h3, h4, -, -, -, h8, -⟩ := C16_jobType_routing hiEnv
    { Name := "rate", Command := "echo hi", VbuserID := "vb7", JobType := "update_max_rate" }
    connectedWorld "hi" (by decide) (by decide)
  exact ⟨cmd, url, h1, h2, h3, h4, h8 (by decide) rfl⟩

theorem replaceQuotes_data (command : String) :
    (replaceQuotes command).data =
      command.data.map fun c => if c = Char.ofNat 39 then Char.ofNat 34 else c := rfl

/-- Claim C17.  Quote normalisation: the string that `ExecuteCommand` hands to
the shell, in its only shell call, is `replaceQuotes c`: it has the length of
`c`, at every position it holds a double quote where `c` holds a single quote
and the character of `c` otherwise, it contains no single quote, and
normalising it again changes nothing. -/
theorem C17_quote_normalisation (env : Env) (c name : String) (w : World) :
    (∃ rest, (ExecuteCommand env c name w).1.trace =
        w.trace ++ .shell (replaceQuotes c) :: rest ∧ ∀ e ∈ rest, e.kind ≠ .shell) ∧
    (replaceQuotes c).length = c.length ∧
    (∀ i : Nat, (replaceQuotes c).data[i]? =
      (c.data[i]?).map fun ch => if ch = Char.ofNat 39 then Char.ofNat 34 else ch) ∧
    Char.ofNat 39 ∉ (replaceQuotes c).data ∧
    replaceQuotes (replaceQuotes c) = replaceQuotes c := by
  refine ⟨?_, ?_, ?_, ?_, ?_⟩
  · rw [ExecuteCommand_world]
    exact ⟨_, rfl, by simp [Effect.kind]⟩
  · show (replaceQuotes c).data.length = c.data.length
    rw [replaceQuotes_data, List.length_map]
  · intro i
    rw [replaceQuotes_data, List.getElem?_map]
  · rw [replaceQuotes_data, List.mem_map]
    rintro ⟨ch, -, hch⟩
    split at hch
    · exact absurd hch (by decide)
    · rename_i hne
      exact hne hch
  · apply String.ext
    rw [replaceQuotes_data, replaceQuotes_data, List.map_map]
    apply List.map_congr_left
    intro ch _
    simp only [Function.comp]
    split
    · simp
    · rename_i hne
      simp [hne]

/-! ## Claims on the stamp and the client record -/


theorem utf8Bytes_append (a b : String) : utf8Bytes (a ++ b) = utf8Bytes a ++ utf8Bytes b := by
  simp [utf8Bytes, String.data_append]

theorem sha256_length (msg : List Nat) : (sha256 msg).length = 32 := by
  simp [sha256, wordBytes]

theorem hexEncode_length (bytes : List Nat) : (hexEncode bytes).length = 2 * bytes.length := by
  show (bytes.flatMap fun b => [hexDigit (b / 16), hexDigit (b % 16)]).length = 2 * bytes.length
  induction bytes with
  | nil => rfl
  | cons b bs ih =>
    rw [List.flatMap_cons, List.length_append, ih, List.length_cons]
    simp only [List.length_cons, List.length_nil]
    omega

theorem hexDigit_mem (n : Nat) : hexDigit n ∈ "0123456789abcdef".data := by
  unfold hexDigit
  by_cases h : n < 16
  · interval_cases n <;> decide
  · rw [List.getD_eq_default _ _ (by simpa using h)]
    decide

theorem hexEncode_mem (bytes : List Nat) (c : Char) (hc : c ∈ (hexEncode bytes).data) :
    c ∈ "0123456789abcdef".data := by
  have hc : c ∈ bytes.flatMap fun b => [hexDigit (b / 16), hexDigit (b % 16)] := hc
  rw [List.mem_flatMap] at hc
  obtain ⟨b, -, hb⟩ := hc
  simp only [List.mem_cons, List.mem_singleton, List.not_mem_nil, or_false] at hb
  rcases hb with rfl | rfl <;> exact hexDigit_mem _

/-- Claim C18.  Stamp definition: where the digest function of the environment
is SHA-256, `GenerateSecret m s` is the lower-case hexadecimal encoding of the
SHA-256 digest of the bytes of `m` followed by the bytes of `s`; it depends on
nothing else, has exactly 64 characters, all of them hexadecimal digits in
lower case, and so is never the empty string. -/
theorem C18_GenerateSecret_digest (env : Env) (m s : String) (hsha : env.sha256 = sha256) :
    GenerateSecret env m s = hexEncode (sha256 (utf8Bytes m ++ utf8Bytes s)) ∧
    (∀ env' : Env, env'.sha256 = sha256 → GenerateSecret env' m s = GenerateSecret env m s) ∧
    (GenerateSecret env m s).length = 64 ∧
    (∀ c ∈ (GenerateSecret env m s).data, c ∈ "0123456789abcdef".data) ∧
    GenerateSecret env m s ≠ "" := by
  have h : ∀ env' : Env, env'.sha256 = sha256 →
      GenerateSecret env' m s = hexEncode (sha256 (utf8Bytes m ++ utf8Bytes s)) := by
    intro env' h'
    unfold GenerateSecret
    rw [h', utf8Bytes_append]
  have hlen : (GenerateSecret env m s).length = 64 := by
    rw [h env hsha, hexEncode_length, sha256_length]
  refine ⟨h env hsha, fun env' h' => by rw [h env' h', h env hsha], hlen, ?_, ?_⟩
  · intro c hc
    rw [h env hsha] at hc
    exact hexEncode_mem _ c hc
  · intro he
    rw [he] at hlen
    exact absurd hlen (by decide)

/-- An instance of claim C18: the stamp of the MAC `aa:bb:cc:dd:ee:ff` and the
secret `s3cret`. -/
theorem C18_GenerateSecret_digest_witness :
    digestEnv.sha256 = sha256 ∧
    GenerateSecret digestEnv "aa:bb:cc:dd:ee:ff" "s3cret" =
      "6bfca6fa643990fb2a9ae184f13cfc96fa9aea7a06e5404455c285d904b78c88" ∧
    (GenerateSecret digestEnv "aa:bb:cc:dd:ee:ff" "s3cret").length = 64 :=
  ⟨rfl,
   (C18_GenerateSecret_digest digestEnv "aa:bb:cc:dd:ee:ff" "s3cret" rfl).1.trans (by decide),
   (C18_GenerateSecret_digest digestEnv "aa:bb:cc:dd:ee:ff" "s3cret" rfl).2.2.1⟩

/-- The digest of the three bytes `abc`, the first test vector of the standard. -/
theorem sha256_abc :
    hexEncode (sha256 (utf8Bytes "abc")) =
      "ba7816bf8f01cfea414140de5dae2223b00361a396177a9cb410ff61f20015ad" := by
  decide

set_option maxRecDepth 100000 in
/-- Claim C19 on the code: on the first start in local-test mode `main` saves a
generated secret key in the client record, whose name is still empty; the call
of `UpdateOrCreateClientName` that follows replaces the record by one holding
the name alone, so the saved key is gone, while `InsertIntoClient` on the same
store keeps it. -/
theorem C19_client_name_drops_secret_key :
    GetClientSecretKey (mainSecret localTestEnv firstBootWorld) = some "00" ∧
    (mainSecret localTestEnv firstBootWorld).cfg.Client.Name = "" ∧
    (UpdateOrCreateClientName "uid-1" (mainSecret localTestEnv firstBootWorld)).2 = none ∧
    (UpdateOrCreateClientName "uid-1"
      (mainSecret localTestEnv firstBootWorld)).1.cfg.Client = { Name := "uid-1" } ∧
    (mainSecret localTestEnv firstBootWorld).files.lookup "udpu_config.json" =
      some (.document (configFile.toJSON { Client := { UdpuSecretKey := "00" } })) ∧
    (UpdateOrCreateClientName "uid-1"
      (mainSecret localTestEnv firstBootWorld)).1.files.lookup "udpu_config.json" =
      some (.document (configFile.toJSON { Client := { Name := "uid-1" } })) ∧
    GetClientSecretKey (UpdateOrCreateClientName "uid-1"
      (mainSecret localTestEnv firstBootWorld)).1 = none ∧
    GetClientSecretKey (InsertIntoClient firstDescriptor
      (mainSecret localTestEnv firstBootWorld)).1 = some "00" :=
  ⟨by decide, by decide, by decide, by decide, by rfl, by rfl, by decide, by decide⟩

/-! ## Claims on loading the store -/


theorem saveError_keeps (saved new : Option Error) (h : saved.isSome) :
    (saveError saved new).isSome := by
  cases saved with
  | none => simp at h
  | some e => rfl

theorem saveError_adds (saved new : Option Error) (h : new.isSome) :
    (saveError saved new).isSome := by
  cases saved with
  | none => exact h
  | some e => rfl

/-- A decoding loop that never drops an error ends with an error once one member
raises one. -/
theorem foldl_finds_error {σ κ : Type} (f : σ × Option Error → κ → σ × Option Error)
    (hkeep : ∀ st kv, st.2.isSome → (f st kv).2.isSome) (ms : List κ) (bad : κ)
    (hbad : bad ∈ ms) (hf : ∀ st, (f st bad).2.isSome) (st : σ × Option Error) :
    (ms.foldl f st).2.isSome := by
  have hrest : ∀ (l : List κ) (st : σ × Option Error), st.2.isSome → (l.foldl f st).2.isSome := by
    intro l
    induction l with
    | nil => exact fun _ h => h
    | cons kv l ih => exact fun st h => ih _ (hkeep st kv h)
  induction ms generalizing st with
  | nil => simp at hbad
  | cons kv ms ih =>
    rcases List.mem_cons.1 hbad with h | h
    · subst h
      exact hrest ms _ (hf st)
    · exact ih h _

theorem decodeClientMember_keeps (st : Client × Option Error) (kv : String × JSON)
    (h : st.2.isSome) : (decodeClientMember st kv).2.isSome := by
  unfold decodeClientMember
  split <;> exact saveError_keeps _ _ h

theorem decodeJobMember_keeps (st : Job × Option Error) (kv : String × JSON)
    (h : st.2.isSome) : (decodeJobMember st kv).2.isSome := by
  unfold decodeJobMember
  split <;> exact saveError_keeps _ _ h

theorem decodeQueueMember_keeps (st : Queue × Option Error) (kv : String × JSON)
    (h : st.2.isSome) : (decodeQueueMember st kv).2.isSome := by
  unfold decodeQueueMember
  split <;> exact saveError_keeps _ _ h

theorem decodeClient_unknown (v : JSON) (cur : Client)
    (h : hasUnknownField clientFields v = true) : (decodeClient v cur).2.isSome := by
  cases v with
  | obj ms =>
    simp only [hasUnknownField, List.any_eq_true, Option.isNone_iff_eq_none] at h
    obtain ⟨kv, hkv, hnone⟩ := h
    refine foldl_finds_error _ decodeClientMember_keeps ms kv hkv ?_ _
    intro st
    simp only [decodeClientMember, hnone]
    exact saveError_adds _ _ rfl
  | _ => simp [hasUnknownField] at h

theorem decodeJob_unknown (v : JSON) (cur : Job)
    (h : hasUnknownField jobFields v = true) : (decodeJob v cur).2.isSome := by
  cases v with
  | obj ms =>
    simp only [hasUnknownField, List.any_eq_true, Option.isNone_iff_eq_none] at h
    obtain ⟨kv, hkv, hnone⟩ := h
    refine foldl_finds_error _ decodeJobMember_keeps ms kv hkv ?_ _
    intro st
    simp only [decodeJobMember, hnone]
    exact saveError_adds _ _ rfl
  | _ => simp [hasUnknownField] at h

theorem decodeQueue_unknown (v : JSON) (cur : Queue)
    (h : hasUnknownField queueFields v = true) : (decodeQueue v cur).2.isSome := by
  cases v with
  | obj ms =>
    simp only [hasUnknownField, List.any_eq_true, Option.isNone_iff_eq_none] at h
    obtain ⟨kv, hkv, hnone⟩ := h
    refine foldl_finds_error _ decodeQueueMember_keeps ms kv hkv ?_ _
    intro st
    simp only [decodeQueueMember, hnone]
    exact saveError_adds _ _ rfl
  | _ => simp [hasUnknownField] at h

theorem decodeJobs_unknown (records : List (String × JSON)) (cur : GoMap Job)
    (h : (records.any fun r => hasUnknownField jobFields r.2) = true) :
    (decodeJobs (.obj records) cur).2.isSome := by
  simp only [List.any_eq_true] at h
  obtain ⟨r, hr, hbad⟩ := h
  refine foldl_finds_error _ (fun st kv hst => saveError_keeps _ _ hst) records r hr ?_ _
  intro st
  exact saveError_adds _ _ (decodeJob_unknown _ _ hbad)

theorem decodeQueues_unknown (records : List (String × JSON)) (cur : GoMap Queue)
    (h : (records.any fun r => hasUnknownField queueFields r.2) = true) :
    (decodeQueues (.obj records) cur).2.isSome := by
  simp only [List.any_eq_true] at h
  obtain ⟨r, hr, hbad⟩ := h
  refine foldl_finds_error _ (fun st kv hst => saveError_keeps _ _ hst) records r hr ?_ _
  intro st
  exact saveError_adds _ _ (decodeQueue_unknown _ _ hbad)

theorem decodeConfigMember_keeps (st : configFile × Option Error) (kv : String × JSON)
    (h : st.2.isSome) : (decodeConfigMember st kv).2.isSome := by
  unfold decodeConfigMember
  split <;> exact saveError_keeps _ _ h

/-- Strict decoding rejects every document with an unknown field. -/
theorem decodeConfig_unknown (v : JSON) (cur : configFile)
    (h : hasUnknownStoreField v = true) : (decodeConfig v cur).2.isSome := by
  cases v with
  | obj ms =>
    simp only [hasUnknownStoreField, List.any_eq_true] at h
    obtain ⟨kv, hkv, hbad⟩ := h
    refine foldl_finds_error _ decodeConfigMember_keeps ms kv hkv ?_ _
    intro st
    unfold decodeConfigMember
    split at hbad
    · rename_i hf
      simp only [hf]
      exact saveError_adds _ _ (decodeClient_unknown _ _ hbad)
    · rename_i hf
      simp only [hf]
      split at hbad
      · rename_i records hrec
        rw [hrec]
        exact saveError_adds _ _ (decodeJobs_unknown _ _ hbad)
      · simp at hbad
    · rename_i hf
      simp only [hf]
      split at hbad
      · rename_i records hrec
        rw [hrec]
        exact saveError_adds _ _ (decodeQueues_unknown _ _ hbad)
      · simp at hbad
    · exact saveError_adds _ _ rfl
  | _ => simp [hasUnknownStoreField] at h

theorem backup_ne (p x : String) : p ++ ".bak." ++ x ≠ p := by
  intro h
  have hl := congrArg String.length h
  simp [String.length_append] at hl
  have h5 : (".bak." : String).length = 5 := by decide
  omega

theorem readJSON_world (path : String) (w : World) :
    ∃ c, (readJSON path w).1 = { w with cfg := c } := by
  unfold readJSON
  repeat' split
  all_goals exact ⟨_, rfl⟩

/-- Claim C20 as stated fails: on a file system that refuses to create the
backup file, `loadOrInit` on a store file that is not JSON returns the syntax
error and leaves no backup file; the files are as before.  The error of
`backupCorrupt` is discarded by `loadOrInit`. -/
theorem C20_counterexample :
    fullDiskWorld.files.lookup fullDiskWorld.cfgPath = some (.raw "not json") ∧
    (loadOrInit silentEnv fullDiskWorld).2 = some .jsonSyntax ∧
    (loadOrInit silentEnv fullDiskWorld).1.files.lookup
      ("udpu_config.json" ++ ".bak." ++ toString silentEnv.now) = none ∧
    (loadOrInit silentEnv fullDiskWorld).1.files = fullDiskWorld.files ∧
    (backupCorrupt silentEnv "udpu_config.json" fullDiskWorld).2 =
      some (.message "no space left on device") :=
  ⟨rfl, rfl, rfl, rfl, rfl⟩

/-- Claim C20, amended.  Strict load with backup, for a store file that exists
with content `content`.  If the content does not begin with a JSON value
(malformed JSON), or if its JSON value has a field that is not one of `client`,
`jobs`, `queues` and their record fields, decoding fails.  Whenever decoding
fails, `loadOrInit` returns the decoding error, and every file other than
`<path>.bak.<unix time>`, the store file included, is as before; if the file
system refuses neither the creation of the backup file nor the copy into it,
the backup file holds the content of the store file, and if it refuses the
creation, there is no new file at all.  Whenever decoding succeeds,
`loadOrInit` returns no error and the files are as before, so there is no
backup. -/
theorem C20_strict_load_backup_when_permitted (env : Env) (w : World) (content : FileContent)
    (hfile : w.files.lookup w.cfgPath = some content) :
    (content.firstValue = none → (readJSON w.cfgPath w).2 = some .jsonSyntax) ∧
    (∀ v, content.firstValue = some v → hasUnknownStoreField v = true →
      (readJSON w.cfgPath w).2.isSome) ∧
    (∀ err, (readJSON w.cfgPath w).2 = some err →
      (loadOrInit env w).2 = some err ∧
      (loadOrInit env w).1.files.lookup w.cfgPath = some content ∧
      (∀ p, p ≠ w.cfgPath ++ ".bak." ++ toString env.now →
        (loadOrInit env w).1.files.lookup p = w.files.lookup p) ∧
      (w.fsError (.create (w.cfgPath ++ ".bak." ++ toString env.now)) = none →
        w.fsError (.copy (w.cfgPath ++ ".bak." ++ toString env.now)) = none →
        (loadOrInit env w).1.files.lookup (w.cfgPath ++ ".bak." ++ toString env.now) =
          some content) ∧
      (w.fsError (.create (w.cfgPath ++ ".bak." ++ toString env.now)) ≠ none →
        (loadOrInit env w).1.files = w.files)) ∧
    ((readJSON w.cfgPath w).2 = none →
      (loadOrInit env w).2 = none ∧ (loadOrInit env w).1.files = w.files) := by
  obtain ⟨c, hread⟩ := readJSON_world w.cfgPath w
  have hfiles : (readJSON w.cfgPath w).1.files = w.files := by rw [hread]
  refine ⟨?_, ?_, ?_, ?_⟩
  · intro hnone
    unfold readJSON
    rw [hfile]
    dsimp only
    rw [hnone]
  · intro v hv hbad
    unfold readJSON
    rw [hfile]
    dsimp only
    rw [hv]
    exact decodeConfig_unknown v w.cfg hbad
  · intro err herr
    have hload : loadOrInit env w =
        ((backupCorrupt env w.cfgPath { w with cfg := c }).1, some err) := by
      unfold loadOrInit
      rw [hfile]
      dsimp only
      rw [herr, hread]
    have hlook : ({ w with cfg := c } : World).files.lookup w.cfgPath = some content := hfile
    rw [hload]
    cases h1 : w.fsError (.create (w.cfgPath ++ ".bak." ++ toString env.now)) with
    | some e =>
      have hb : (backupCorrupt env w.cfgPath { w with cfg := c }).1 = { w with cfg := c } := by
        simp only [backupCorrupt, hlook, h1]
      rw [hb]
      exact ⟨rfl, hfile, fun _ _ => rfl, fun h => absurd h (by simp), fun _ => rfl⟩
    | none =>
      cases h2 : w.fsError (.copy (w.cfgPath ++ ".bak." ++ toString env.now)) with
      | some e =>
        have hb : (backupCorrupt env w.cfgPath { w with cfg := c }).1 =
            { w with
              cfg := c
              files := w.files.insert (w.cfgPath ++ ".bak." ++ toString env.now) (.raw "") } := by
          simp only [backupCorrupt, hlook, h1, h2]
        rw [hb]
        refine ⟨rfl, ?_, ?_, fun _ h => absurd h (by simp), fun h => absurd rfl h⟩
        · show (w.files.insert (w.cfgPath ++ ".bak." ++ toString env.now) _).lookup w.cfgPath =
            some content
          rw [Finmap.lookup_insert_of_ne _ (backup_ne _ _).symm, hfile]
        · intro p hp
          exact Finmap.lookup_insert_of_ne _ hp
      | none =>
        have hb : (backupCorrupt env w.cfgPath { w with cfg := c }).1 =
            { w with
              cfg := c
              files := w.files.insert (w.cfgPath ++ ".bak." ++ toString env.now) content } := by
          simp only [backupCorrupt, hlook, h1, h2]
        rw [hb]
        refine ⟨rfl, ?_, ?_, fun _ _ => Finmap.lookup_insert _, fun h => absurd rfl h⟩
        · show (w.files.insert (w.cfgPath ++ ".bak." ++ toString env.now) _).lookup w.cfgPath =
            some content
          rw [Finmap.lookup_insert_of_ne _ (backup_ne _ _).symm, hfile]
        · intro p hp
          exact Finmap.lookup_insert_of_ne _ hp
  · intro hnone
    unfold loadOrInit
    rw [hfile]
    dsimp only
    rw [hnone]
    exact ⟨rfl, hfiles⟩

/-- An instance of claim C20: a store file that holds text which is not JSON, on
a file system that refuses nothing. -/
theorem C20_strict_load_backup_when_permitted_witness :
    (fileWorld (.raw "not json")).files.lookup (fileWorld (.raw "not json")).cfgPath =
      some (.raw "not json") ∧
    (loadOrInit silentEnv (fileWorld (.raw "not json"))).2 = some .jsonSyntax ∧
    (loadOrInit silentEnv (fileWorld (.raw "not json"))).1.files.lookup "udpu_config.json" =
      some (.raw "not json") ∧
    (loadOrInit silentEnv (fileWorld (.raw "not json"))).1.files.lookup
      ("udpu_config.json" ++ ".bak." ++ toString silentEnv.now) = some (.raw "not json") :=
  ⟨rfl,
   ((C20_strict_load_backup_when_permitted silentEnv (fileWorld (.raw "not json"))
      (.raw "not json") rfl).2.2.1 .jsonSyntax rfl).1,
   ((C20_strict_load_backup_when_permitted silentEnv (fileWorld (.raw "not json"))
      (.raw "not json") rfl).2.2.1 .jsonSyntax rfl).2.1,
   ((C20_strict_load_backup_when_permitted silentEnv (fileWorld (.raw "not json"))
      (.raw "not json") rfl).2.2.1 .jsonSyntax rfl).2.2.2.1 rfl rfl⟩

/-! ## Claims on logs, stamps and registration -/


/-- Claim C21 on the code: when the POST of the job log fails in transport, or
when the store holds no client record, `sendJobLog` ends the process with exit
status 1; an answer with a status other than 200 is tolerated.  The result of
`ExecuteCommand` is the same whatever the log request meets. -/
theorem C21_failed_log_post_ends_process :
    (sendJobLog silentEnv "ping" "echo hi" "hi" "" 0 registeredWorld).exit = some 1 ∧
    (sendJobLog (postStatusEnv 200) "ping" "echo hi" "hi" "" 0 {}).exit = some 1 ∧
    (sendJobLog (postStatusEnv 500) "ping" "echo hi" "hi" "" 0 registeredWorld).exit = none ∧
    (sendJobLog (postStatusEnv 200) "ping" "echo hi" "hi" "" 0 registeredWorld).exit = none ∧
    (ExecuteCommand silentEnv "echo hi" "ping" registeredWorld).2 =
      (ExecuteCommand (postStatusEnv 200) "echo hi" "ping" registeredWorld).2 :=
  ⟨by decide, by decide, by decide, by decide, by decide⟩

/-- Claim C25 on the code: with a prior secret and a stamp request that gets no
answer, `FetchStamp` returns the empty string and an error, the empty string
differs from the computed stamp, and `main` cancels its context after the stamp
request, as it does for a duplicate MAC. -/
theorem C25_failed_stamp_fetch_terminates :
    (FetchStamp (descriptorEnv "aa:bb:cc:dd:ee:ff")
      (CreateURL (descriptorEnv "aa:bb:cc:dd:ee:ff") "http" none ["stamps", "aa:bb:cc:dd:ee:ff"]
        priorSecretWorld) priorSecretWorld).2 = ("", some (.message "no route to host")) ∧
    GenerateSecret (descriptorEnv "aa:bb:cc:dd:ee:ff") "aa:bb:cc:dd:ee:ff" "s3cret" =
      "6bfca6fa643990fb2a9ae184f13cfc96fa9aea7a06e5404455c285d904b78c88" ∧
    mainVerifyStamp (descriptorEnv "aa:bb:cc:dd:ee:ff") "aa:bb:cc:dd:ee:ff" priorSecretWorld =
      { priorSecretWorld with
        trace := [.httpGet (URL.mk "http" ":0" "/api/v1.0/stamps/aa:bb:cc:dd:ee:ff" [])]
        cancelled := true } :=
  ⟨by decide, by decide, by rfl⟩

/-- Claim C26 on the code: whatever the value of `RequireOutput`, `ExecuteJob`
runs the command and then writes the response with the output to the open push
channel. -/
theorem C26_ExecuteJob_always_replies (env : Env) (d : ExecuteJobData) :
    (ExecuteJob env d connectedWorld).trace =
      [.shell (replaceQuotes d.Command),
       .go (.sendJobLog d.Name (replaceQuotes d.Command)
         (TrimSpace (env.shell (replaceQuotes d.Command)).stdout)
         (TrimSpace (env.shell (replaceQuotes d.Command)).stderr)
         ((env.shell (replaceQuotes d.Command)).processState.getD (-1))),
       .wsWrite (.obj [("response",
         .str (ExecuteCommand env d.Command d.Name connectedWorld).2.1)])] ∧
    (ExecuteJob hiEnv { Name := "ping", Command := "echo hi", RequireOutput := "false" }
      connectedWorld).trace.filterMap Effect.wsMessage = [.obj [("response", .str "hi")]] := by
  constructor
  · unfold ExecuteJob
    dsimp only
    rw [WriteMessage_open env _ _ "uid-1" (by rw [ExecuteCommand_world]; rfl),
      ExecuteCommand_world]
    rfl
  · rfl

/-- Claim C27 on the code: on the first registration, from an empty store,
`main` writes the subscriber UID into the client record before
`ProcessUdpuData` looks the record up, so the record is found, the boot status
becomes `every_boot`, and the job list requested is that of every boot, not
that of the role. -/
theorem C27_first_registration_takes_every_boot_branch :
    productionWorld.cfg.Client = {} ∧
    (mainAwaitIdentity (descriptorEnv "aa:bb:cc:dd:ee:ff") "aa:bb:cc:dd:ee:ff"
      productionWorld).cfg.Client =
      { Name := "uid-1", BootStatus := "every_boot", UdpuRole := "edge" } ∧
    getPaths (mainAwaitIdentity (descriptorEnv "aa:bb:cc:dd:ee:ff") "aa:bb:cc:dd:ee:ff"
      productionWorld).trace =
      ["/api/v1.0/adapter/aa:bb:cc:dd:ee:ff/udpu", "/api/v1.0/jobs/frequency/every_boot"] ∧
    (ProcessUdpuData (descriptorEnv "aa:bb:cc:dd:ee:ff") firstDescriptor
      productionWorld).cfg.Client.BootStatus = "first_boot" ∧
    getPaths (ProcessUdpuData (descriptorEnv "aa:bb:cc:dd:ee:ff") firstDescriptor
      productionWorld).trace = ["/api/v1.0/roles/edge/jobs"] :=
  ⟨by decide, by decide, by decide, by decide, by decide⟩

/-- Claim C28.  `InsertIntoClient` keeps the existing key: whether or not the
write of the store file succeeds, afterwards the client record has the
descriptor's subscriber UID as name, the boot status `first_boot`, the
descriptor's QoS values, host name, location and role, and the secret key and
the client frequency that the record had before; jobs and queues are as before,
and no call is made.  The error returned is that of saving the new store; when
there is none, the store file holds the new store, and when there is one, the
store file is as it was. -/
theorem C28_InsertIntoClient_keeps_key (r : ServerResponse) (w : World) :
    (InsertIntoClient r w).1.cfg.Client =
      { Name := r.SubscriberUID
        ClientFrequency := w.cfg.Client.ClientFrequency
        BootStatus := "first_boot"
        UdpuUpstreamQoS := r.UpstreamQoS
        UdpuDownstreamQoS := r.DownstreamQoS
        UdpuHostname := r.Hostname
        UdpuLocation := r.Location
        UdpuRole := r.Role
        UdpuSecretKey := w.cfg.Client.UdpuSecretKey } ∧
    (InsertIntoClient r w).1.cfg.Jobs = w.cfg.Jobs ∧
    (InsertIntoClient r w).1.cfg.Queues = w.cfg.Queues ∧
    (InsertIntoClient r w).1.trace = w.trace ∧
    (InsertIntoClient r w).2 =
      (save { w with cfg := { w.cfg with Client := (InsertIntoClient r w).1.cfg.Client } }).2 ∧
    ((InsertIntoClient r w).2 = none →
      (InsertIntoClient r w).1.files.lookup w.cfgPath =
        some (.document (InsertIntoClient r w).1.cfg.toJSON)) ∧
    ((InsertIntoClient r w).2 ≠ none →
      (InsertIntoClient r w).1.files.lookup w.cfgPath = w.files.lookup w.cfgPath) := by
  have hcfg := save_cfg { w with cfg := { w.cfg with Client :=
    { Name := r.SubscriberUID
      ClientFrequency := w.cfg.Client.ClientFrequency
      BootStatus := "first_boot"
      UdpuUpstreamQoS := r.UpstreamQoS
      UdpuDownstreamQoS := r.DownstreamQoS
      UdpuHostname := r.Hostname
      UdpuLocation := r.Location
      UdpuRole := r.Role
      UdpuSecretKey := w.cfg.Client.UdpuSecretKey } } }
  obtain ⟨f, hw⟩ := save_store_ex w { w.cfg with Client :=
    { Name := r.SubscriberUID
      ClientFrequency := w.cfg.Client.ClientFrequency
      BootStatus := "first_boot"
      UdpuUpstreamQoS := r.UpstreamQoS
      UdpuDownstreamQoS := r.DownstreamQoS
      UdpuHostname := r.Hostname
      UdpuLocation := r.Location
      UdpuRole := r.Role
      UdpuSecretKey := w.cfg.Client.UdpuSecretKey } }
  have hc : (InsertIntoClient r w).1.cfg = { w.cfg with Client :=
    { Name := r.SubscriberUID
      ClientFrequency := w.cfg.Client.ClientFrequency
      BootStatus := "first_boot"
      UdpuUpstreamQoS := r.UpstreamQoS
      UdpuDownstreamQoS := r.DownstreamQoS
      UdpuHostname := r.Hostname
      UdpuLocation := r.Location
      UdpuRole := r.Role
      UdpuSecretKey := w.cfg.Client.UdpuSecretKey } } := hcfg
  refine ⟨by rw [hc], by rw [hc], by rw [hc], ?_, ?_, ?_, ?_⟩
  · show (save _).1.trace = w.trace
    rw [hw]
  · rw [hc]
    rfl
  · intro hnone
    rw [hc]
    exact save_file_ok _ hnone
  · intro herr
    exact save_file_err _ herr

/-- Claim C29 on the code: for a descriptor whose MAC is the placeholder
preceded by a blank, `hasRealMAC` trims the MAC and flags the device as
unregistered, while the test of `main` compares the untrimmed MAC with the
placeholder and starts the registered runtime. -/
theorem C29_placeholder_tests_disagree :
    isRegisteredMAC { MacAddress := " 00:00:00:00:00:00" } = false ∧
    (" 00:00:00:00:00:00" : String) ≠ ZeroMAC ∧
    (mainAwaitIdentity (descriptorEnv " 00:00:00:00:00:00") "aa:bb:cc:dd:ee:ff"
      productionWorld).isUnregisteredDevice = true ∧
    (mainAwaitIdentity (descriptorEnv " 00:00:00:00:00:00") "aa:bb:cc:dd:ee:ff"
      productionWorld).registeredRuntimeOnce = true ∧
    (mainAwaitIdentity (descriptorEnv " 00:00:00:00:00:00") "aa:bb:cc:dd:ee:ff"
      productionWorld).trace.map Effect.kind =
      [.httpGet, .httpPost, .setupWG, .wsDial, .goListen, .goStatus, .httpGet,
       .goUnregistered] :=
  ⟨by decide, by decide, by decide, by decide, by decide⟩

/-! ## Claims on downloads -/


theorem digitChar_ne_slash (n : Nat) (h : n < 10) : Nat.digitChar n ≠ '/' := by
  interval_cases n <;> decide

theorem toDigitsCore_no_slash (fuel n : Nat) (ds : List Char) (h : '/' ∉ ds) :
    '/' ∉ Nat.toDigitsCore 10 fuel n ds := by
  induction fuel generalizing n ds with
  | zero => simpa [Nat.toDigitsCore] using h
  | succ fuel ih =>
    have hd : '/' ∉ Nat.digitChar (n % 10) :: ds := by
      simp only [List.mem_cons, not_or]
      exact ⟨(digitChar_ne_slash _ (Nat.mod_lt _ (by decide))).symm, h⟩
    unfold Nat.toDigitsCore
    dsimp only
    split
    · exact hd
    · exact ih _ _ hd

theorem natRepr_no_slash (n : Nat) : '/' ∉ (toString n).data := by
  show '/' ∉ (Nat.repr n).data
  unfold Nat.repr Nat.toDigits
  exact toDigitsCore_no_slash _ _ _ (by simp)

theorem intRepr_no_slash (n : Int) : '/' ∉ (toString n).data := by
  cases n with
  | ofNat m => exact natRepr_no_slash m
  | negSucc m =>
    show '/' ∉ ("-" ++ toString (m + 1)).data
    rw [String.data_append, List.mem_append, not_or]
    exact ⟨by decide, natRepr_no_slash _⟩

theorem defaultName_ok (n : Int) :
    "default_name_" ++ toString n ≠ "" ∧ '/' ∉ ("default_name_" ++ toString n).data := by
  constructor
  · intro h
    have hl := congrArg String.length h
    rw [String.length_append] at hl
    have h13 : ("default_name_" : String).length = 13 := by decide
    have h0 : ("" : String).length = 0 := rfl
    omega
  · rw [String.data_append, List.mem_append, not_or]
    exact ⟨by decide, intRepr_no_slash n⟩

theorem splitChars_of_not_mem (sep : Char) (cs : List Char) (h : sep ∉ cs) :
    splitChars sep cs = [cs] := by
  induction cs with
  | nil => rfl
  | cons c cs ih =>
    simp only [List.mem_cons, not_or] at h
    unfold splitChars
    rw [if_neg (fun hc => h.1 hc.symm), ih h.2]

/-- The last piece that `splitChars` yields is the text after the last
separator. -/
theorem splitChars_getLast (sep : Char) (cs : List Char) :
    ∃ pre last, (splitChars sep cs).getLast? = some last ∧ cs = pre ++ last ∧ sep ∉ last ∧
      (pre = [] ∨ pre.getLast? = some sep) ∧ ((splitChars sep cs).length = 1 → pre = []) := by
  induction cs with
  | nil => exact ⟨[], [], rfl, rfl, by simp, Or.inl rfl, fun _ => rfl⟩
  | cons c cs ih =>
    obtain ⟨pre, last, hlast, hcs, hno, hpre, hone⟩ := ih
    by_cases hc : c = sep
    · refine ⟨c :: pre, last, ?_, by rw [hcs]; rfl, hno, Or.inr ?_, ?_⟩
      · unfold splitChars
        rw [if_pos hc]
        cases hs : splitChars sep cs with
        | nil => exact absurd hs (splitChars_ne_nil sep cs)
        | cons a t =>
          rw [List.getLast?_cons_cons, ← hs]
          exact hlast
      · rcases hpre with h | h
        · rw [h, hc]
          rfl
        · cases pre with
          | nil => simp at h
          | cons p ps => rw [List.getLast?_cons_cons]; exact h
      · intro hlen
        unfold splitChars at hlen
        rw [if_pos hc] at hlen
        have := splitChars_ne_nil sep cs
        cases hs : splitChars sep cs with
        | nil => exact absurd hs this
        | cons a b => rw [hs] at hlen; simp at hlen
    · cases hs : splitChars sep cs with
      | nil => exact absurd hs (splitChars_ne_nil sep cs)
      | cons a t =>
        have hsplit : splitChars sep (c :: cs) = (c :: a) :: t := by
          rw [splitChars, if_neg hc, hs]
        cases t with
        | nil =>
          have hp : pre = [] := hone (by rw [hs]; rfl)
          rw [hs] at hlast
          have ha : a = last := by simpa using hlast
          subst hp
          refine ⟨[], c :: a, by rw [hsplit]; rfl, by rw [hcs, ha]; rfl, ?_, Or.inl rfl,
            fun _ => rfl⟩
          rw [ha]
          simp only [List.mem_cons, not_or]
          exact ⟨fun h => hc h.symm, hno⟩
        | cons b t =>
          have hne : pre ≠ [] := by
            intro hp
            rw [hp, List.nil_append] at hcs
            rw [hcs, splitChars_of_not_mem sep last hno] at hs
            simp at hs
          refine ⟨c :: pre, last, ?_, by rw [hcs]; rfl, hno, Or.inr ?_, ?_⟩
          · rw [hsplit, List.getLast?_cons_cons]
            rw [hs, List.getLast?_cons_cons] at hlast
            exact hlast
          · rcases hpre with h | h
            · exact absurd h hne
            · cases pre with
              | nil => exact absurd rfl hne
              | cons p ps => rw [List.getLast?_cons_cons]; exact h
          · intro hlen
            rw [hsplit] at hlen
            simp at hlen

theorem getFileNameFromURL_eq (env : Env) (u : String) :
    ∃ pre last, u.data = pre ++ last ∧ '/' ∉ last ∧ (pre = [] ∨ pre.getLast? = some '/') ∧
      getFileNameFromURL env u =
        if u = "" then "default_name_" ++ toString env.now
        else if last = [] then "default_name_" ++ toString env.now else String.mk last := by
  obtain ⟨pre, last, hlast, hcs, hno, hpre, -⟩ := splitChars_getLast '/' u.data
  refine ⟨pre, last, hcs, hno, hpre, ?_⟩
  unfold getFileNameFromURL
  dsimp only
  rw [List.getLast?_map, hlast]
  dsimp only [Option.map]
  have hmk : (String.mk last = "") = (last = []) := by
    apply propext
    constructor
    · intro h
      exact congrArg String.data h
    · intro h
      rw [h]
  simp only [hmk]

theorem splitChars_append (sep : Char) (a b : List Char) :
    splitChars sep (a ++ sep :: b) = splitChars sep a ++ splitChars sep b := by
  induction a with
  | nil => simp [splitChars]
  | cons c a ih =>
    by_cases hc : c = sep
    · simp [splitChars, hc, ih]
    · cases hs : splitChars sep a with
      | nil => exact absurd hs (splitChars_ne_nil sep a)
      | cons h t =>
        rw [List.cons_append, splitChars, if_neg hc, ih, hs, splitChars, if_neg hc, hs]
        rfl

theorem cleanStep_name (rooted : Bool) (kept : List String) (name : String)
    (h0 : name ≠ "") (h1 : name ≠ ".") (h2 : name ≠ "..") :
    cleanStep rooted kept name = kept ++ [name] := by
  simp [cleanStep, h0, h1, h2]

theorem pathElements_name (name : String) (hno : '/' ∉ name.data)
    (h0 : name ≠ "") (h1 : name ≠ ".") (h2 : name ≠ "..") :
    pathElements name = [name] := by
  unfold pathElements
  rw [splitChars_of_not_mem '/' name.data hno]
  exact cleanStep_name _ [] name h0 h1 h2

theorem isRooted_join (dir name : String) (hdir : dir ≠ "") :
    isRooted (dir ++ "/" ++ name) = isRooted dir := by
  unfold isRooted
  have hd : dir.data ≠ [] := fun h => hdir (String.ext h)
  cases hdata : dir.data with
  | nil => exact absurd hdata hd
  | cons c cs =>
    simp [String.data_append, hdata]

theorem pathElements_join (dir name : String) (hdir : dir ≠ "") (hno : '/' ∉ name.data)
    (h0 : name ≠ "") (h1 : name ≠ ".") (h2 : name ≠ "..") :
    pathElements (dir ++ "/" ++ name) = pathElements dir ++ [name] := by
  unfold pathElements
  rw [isRooted_join dir name hdir]
  have hdata : (dir ++ "/" ++ name).data = dir.data ++ '/' :: name.data := by
    simp [String.data_append]
  rw [hdata, splitChars_append, splitChars_of_not_mem '/' name.data hno, List.map_append,
    List.foldl_append]
  exact cleanStep_name _ _ name h0 h1 h2

/-- A name that is one ordinary path element is joined to a directory as the
last element after those of the directory. -/
theorem filepathJoin_name (dir name : String) (hno : '/' ∉ name.data)
    (h0 : name ≠ "") (h1 : name ≠ ".") (h2 : name ≠ "..") :
    filepathJoin [dir, name] = renderPath (isRooted dir) (pathElements dir ++ [name]) := by
  unfold filepathJoin
  by_cases hdir : dir = ""
  · subst hdir
    have hr : isRooted name = false := by
      unfold isRooted
      cases hdata : name.data with
      | nil => rfl
      | cons c cs =>
        have hc : c ≠ '/' := by
          intro h
          apply hno
          rw [hdata, h]
          exact List.mem_cons_self _ _
        simp [hc]
    simp only [List.dropWhile, decide_True, h0, decide_False]
    show filepathClean name = _
    unfold filepathClean
    rw [pathElements_name name hno h0 h1 h2, hr]
    rfl
  · simp only [List.dropWhile, hdir, decide_False]
    show filepathClean (dir ++ "/" ++ name) = _
    unfold filepathClean
    rw [pathElements_join dir name hdir hno h0 h1 h2, isRooted_join dir name hdir]

/-- The name that `getFileNameFromURL` gives and the path that `downloadFile`
writes to.  For an empty URL, and for a URL that ends with `/`, the name is
`default_name_<unix time>`; for every other URL it is the text after the last
`/` (the whole URL if there is no `/`).  In every case the name is non-empty
and contains no `/`.  `downloadFile` writes the body of an answer with status
200, if the file system lets it, to the path that `filepath.Join` makes of the
configured directory and the name, and touches no other file.  When the name is
neither `.` nor `..`, that path is the cleaned directory followed by the name
as one further element. -/
theorem downloadFile_target (env : Env) (u dir : String) (w : World) :
    (u = "" ∨ u.data.getLast? = some '/' →
      getFileNameFromURL env u = "default_name_" ++ toString env.now) ∧
    (u ≠ "" → u.data.getLast? ≠ some '/' →
      ∃ pre, u.data = pre ++ (getFileNameFromURL env u).data ∧
        (pre = [] ∨ pre.getLast? = some '/')) ∧
    getFileNameFromURL env u ≠ "" ∧
    '/' ∉ (getFileNameFromURL env u).data ∧
    (∀ body, u ≠ "" → env.httpGetURL u = .response 200 body →
      w.fsError (.create (filepathJoin [dir, getFileNameFromURL env u])) = none →
      w.fsError (.copy (filepathJoin [dir, getFileNameFromURL env u])) = none →
      downloadFile env u dir w =
        ({ w with
            trace := w.trace ++ [.httpGetURL u]
            files := w.files.insert (filepathJoin [dir, getFileNameFromURL env u]) body },
          true, getFileNameFromURL env u)) ∧
    (∀ p, p ≠ filepathJoin [dir, getFileNameFromURL env u] →
      (downloadFile env u dir w).1.files.lookup p = w.files.lookup p) ∧
    (getFileNameFromURL env u ≠ "." → getFileNameFromURL env u ≠ ".." →
      filepathJoin [dir, getFileNameFromURL env u] =
        renderPath (isRooted dir) (pathElements dir ++ [getFileNameFromURL env u]) ∧
      filepathClean dir = renderPath (isRooted dir) (pathElements dir)) := by
  obtain ⟨pre, last, hcs, hno, hpre, hname⟩ := getFileNameFromURL_eq env u
  have hlast : last = [] → u = "" ∨ u.data.getLast? = some '/' := by
    intro hl
    rw [hl, List.append_nil] at hcs
    rcases hpre with h | h
    · left
      apply String.ext
      rw [hcs, h]
    · right
      rw [hcs]
      exact h
  have hslash : u.data.getLast? = some '/' → last = [] := by
    intro h
    by_contra hne
    rw [hcs, List.getLast?_append_of_ne_nil _ hne] at h
    exact hno (List.mem_of_getLast?_eq_some h)
  have hne : getFileNameFromURL env u ≠ "" := by
    rw [hname]
    split
    · exact (defaultName_ok env.now).1
    · split
      · exact (defaultName_ok env.now).1
      · rename_i hl
        intro h
        exact hl (congrArg String.data h)
  have hfree : '/' ∉ (getFileNameFromURL env u).data := by
    rw [hname]
    split
    · exact (defaultName_ok env.now).2
    · split
      · exact (defaultName_ok env.now).2
      · exact hno
  refine ⟨?_, ?_, hne, hfree, ?_, ?_, ?_⟩
  · intro h
    rw [hname]
    rcases h with h | h
    · rw [if_pos h]
    · rw [if_pos (hslash h)]
      split <;> rfl
  · intro hne hns
    have hl : last ≠ [] := fun hl => (hlast hl).elim hne hns
    rw [hname, if_neg hne, if_neg hl]
    exact ⟨pre, hcs, hpre⟩
  · intro body hu hget hcreate hcopy
    simp [downloadFile, hu, hget, World.emit, hcreate, hcopy]
  · intro p hp
    unfold downloadFile
    split
    · rfl
    · dsimp only
      split
      · rfl
      · split
        · show ((match (w.emit (.httpGetURL u)).fsError _ with
            | some _ => _
            | none => _) : World × Bool × String).1.files.lookup p = _
          split
          · rfl
          · split
            · exact Finmap.lookup_insert_of_ne _ hp
            · exact Finmap.lookup_insert_of_ne _ hp
        · rfl
  · intro h1 h2
    exact ⟨filepathJoin_name dir _ hfree hne h1 h2, rfl⟩

/-- Claim C22 on the code: for a URL whose last segment is `..` the name is
`..`, non-empty and free of `/`, and yet the file is not written inside the
configured directory `/srv/software`: the path that `downloadFile` creates is
`/srv`.  Where `/srv` is a directory, the creation is refused, nothing is
written and the download is reported as failed; on a file system that lets the
creation pass, the body is written to `/srv`, outside the configured
directory.  The last segment `.` gives the path of the directory itself.  An
ordinary last segment gives a file directly inside the directory. -/
theorem C22_last_segment_leaves_directory :
    getFileNameFromURL repoEnv "http://repo/pkg/.." = ".." ∧
    getFileNameFromURL repoEnv "http://repo/pkg/.." ≠ "" ∧
    '/' ∉ (getFileNameFromURL repoEnv "http://repo/pkg/..").data ∧
    filepathJoin ["/srv/software", getFileNameFromURL repoEnv "http://repo/pkg/.."] =
      "/srv" ∧
    (downloadFile repoEnv "http://repo/pkg/.." "/srv/software" directoryWorld).2 =
      (false, "") ∧
    (downloadFile repoEnv "http://repo/pkg/.." "/srv/software" directoryWorld).1.files =
      directoryWorld.files ∧
    (downloadFile repoEnv "http://repo/pkg/.." "/srv/software" {}).2 = (true, "..") ∧
    (downloadFile repoEnv "http://repo/pkg/.." "/srv/software" {}).1.files =
      GoMap.ofList [("/srv", .raw "payload")] ∧
    filepathJoin ["/srv/software", getFileNameFromURL repoEnv "http://repo/pkg/."] =
      "/srv/software" ∧
    (downloadFile repoEnv "http://repo/pkg/." "/srv/software" directoryWorld).2 =
      (false, "") ∧
    (downloadFile repoEnv "http://repo/pkg/tool.bin" "/srv/software" directoryWorld).2 =
      (true, "tool.bin") ∧
    (downloadFile repoEnv "http://repo/pkg/tool.bin" "/srv/software"
      directoryWorld).1.files = GoMap.ofList [("/srv/software/tool.bin", .raw "payload")] :=
  ⟨by decide, by decide, by decide, by decide, by decide, by rfl, by decide, by rfl,
   by decide, by decide, by decide, by rfl⟩

/-! ## Claims on inbound messages -/


theorem findField_mem (fields : List String) (key f : String)
    (h : findField fields key = some f) : f ∈ fields := by
  unfold findField at h
  split at h
  · rename_i g hg
    cases h
    exact List.mem_of_find?_eq_some hg
  · exact List.mem_of_find?_eq_some h

theorem decodeWith_keeps {R : Type} (fields : List String) (get : R → String → String)
    (set : R → String → String → R) (st : R × Option Error) (kv : String × JSON)
    (h : st.2.isSome) : (decodeWith fields get set st kv).2.isSome := by
  unfold decodeWith
  split
  · exact h
  · exact saveError_keeps _ _ h

/-- Members that fit are decoded without error, and every field ends with the
last string that the members give it, or with its old value. -/
theorem foldl_decodeWith_fit {R : Type} (fields : List String) (get : R → String → String)
    (set : R → String → String → R)
    (hlaw : ∀ d f g s, f ∈ fields → g ∈ fields →
      get (set d f s) g = if g = f then s else get d g)
    (ms : List (String × JSON)) (cur : R) (hfit : membersFit fields ms = true) :
    ∃ d, ms.foldl (decodeWith fields get set) (cur, none) = (d, none) ∧
      ∀ g ∈ fields, get d g = (memberStrings fields ms g).getLast?.getD (get cur g) := by
  induction ms generalizing cur with
  | nil => exact ⟨cur, rfl, fun g _ => rfl⟩
  | cons kv ms ih =>
    simp only [membersFit, List.all_cons, Bool.and_eq_true, Bool.or_eq_true] at hfit
    obtain ⟨hkv, hms⟩ := hfit
    cases hf : findField fields kv.1 with
    | none =>
      obtain ⟨d, hd, hg⟩ := ih cur hms
      refine ⟨d, ?_, ?_⟩
      · rw [List.foldl_cons]
        simp only [decodeWith, hf]
        exact hd
      · intro g hgm
        rw [hg g hgm]
        simp [memberStrings, List.filterMap_cons, hf]
    | some f =>
      have hfm := findField_mem fields kv.1 f hf
      rw [hf] at hkv
      simp only [Option.isNone_some, Bool.false_eq_true, false_or] at hkv
      cases hv : kv.2 with
      | str s =>
        obtain ⟨d, hd, hg⟩ := ih (set cur f s) hms
        refine ⟨d, ?_, ?_⟩
        · rw [List.foldl_cons]
          simp only [decodeWith, hf, hv, decodeString, saveError]
          exact hd
        · intro g hgm
          rw [hg g hgm, hlaw cur f g s hfm hgm]
          by_cases hgf : g = f
          · subst hgf
            simp [memberStrings, List.filterMap_cons, hf, hv, JSON.string?, List.getLast?_cons]
          · have hfg : ¬ f = g := fun h => hgf h.symm
            simp [memberStrings, List.filterMap_cons, hf, hv, hgf, hfg]
      | null =>
        obtain ⟨d, hd, hg⟩ := ih (set cur f (get cur f)) hms
        refine ⟨d, ?_, ?_⟩
        · rw [List.foldl_cons]
          simp only [decodeWith, hf, hv, decodeString, saveError]
          exact hd
        · intro g hgm
          rw [hg g hgm, hlaw cur f g _ hfm hgm]
          have : (if g = f then get cur f else get cur g) = get cur g := by
            split
            · rename_i h
              rw [h]
            · rfl
          rw [this]
          simp [memberStrings, List.filterMap_cons, hf, hv, JSON.string?]
      | bool b => rw [hv] at hkv; simp [JSON.fitsString] at hkv
      | num n => rw [hv] at hkv; simp [JSON.fitsString] at hkv
      | arr xs => rw [hv] at hkv; simp [JSON.fitsString] at hkv
      | obj xs => rw [hv] at hkv; simp [JSON.fitsString] at hkv

/-- A member that does not fit leaves an error. -/
theorem foldl_decodeWith_unfit {R : Type} (fields : List String) (get : R → String → String)
    (set : R → String → String → R) (ms : List (String × JSON)) (st : R × Option Error)
    (hfit : membersFit fields ms = false) :
    (ms.foldl (decodeWith fields get set) st).2.isSome := by
  have hex : ∃ kv ∈ ms, ¬ ((findField fields kv.1).isNone || kv.2.fitsString) = true := by
    simpa [membersFit] using hfit
  obtain ⟨kv, hmem, hbad⟩ := hex
  refine foldl_finds_error _ (decodeWith_keeps fields get set) ms kv hmem ?_ st
  intro st
  simp only [Bool.or_eq_true, not_or] at hbad
  obtain ⟨h1, h2⟩ := hbad
  cases hf : findField fields kv.1 with
  | none => rw [hf] at h1; simp at h1
  | some f =>
    simp only [decodeWith, hf]
    apply saveError_adds
    cases hv : kv.2 with
    | str s => rw [hv] at h2; simp [JSON.fitsString] at h2
    | null => rw [hv] at h2; simp [JSON.fitsString] at h2
    | bool b => rfl
    | num n => rfl
    | arr xs => rfl
    | obj xs => rfl
theorem getField_setField_ne (d : JobData) (f g s : String) (hfg : g ≠ f) :
    (d.setField g s).getField f = d.getField f := by
  have hf : ¬ f = g := fun h => hfg h.symm
  unfold JobData.setField
  split_ifs with h1 h2 h3 h4 h5 h6 h7 h8
  all_goals first | rfl | (subst_vars; simp only [JobData.getField, hf, if_false])

theorem decodeJobDataMember_eq :
    decodeJobDataMember = decodeWith jobDataFields JobData.getField JobData.setField := rfl

theorem decodeQueueDataMember_eq (st : QueueData × Option Error) (kv : String × JSON) :
    decodeQueueDataMember st kv =
      decodeWith queueDataFields QueueData.getField QueueData.setField st kv := by
  unfold decodeQueueDataMember decodeWith
  cases hf : findField queueDataFields kv.1 with
  | none => rfl
  | some f =>
    have hm := findField_mem _ _ _ hf
    simp only [queueDataFields, List.mem_cons, List.mem_singleton, List.not_mem_nil,
      or_false] at hm
    rcases hm with rfl | rfl | rfl <;> rfl

theorem jobData_law (d : JobData) (f g s : String) (hf : f ∈ jobDataFields)
    (hg : g ∈ jobDataFields) :
    (d.setField f s).getField g = if g = f then s else d.getField g := by
  by_cases h : g = f
  · subst h
    rw [if_pos rfl]
    simp only [jobDataFields, List.mem_cons, List.mem_singleton, List.not_mem_nil,
      or_false] at hg
    rcases hg with rfl | rfl | rfl | rfl | rfl | rfl | rfl | rfl <;> rfl
  · rw [if_neg h]
    exact getField_setField_ne d g f s (fun h2 => h h2.symm)

theorem queueData_law (d : QueueData) (f g s : String) (hf : f ∈ queueDataFields)
    (hg : g ∈ queueDataFields) :
    (d.setField f s).getField g = if g = f then s else d.getField g := by
  simp only [queueDataFields, List.mem_cons, List.mem_singleton, List.not_mem_nil,
    or_false] at hf hg
  rcases hf with rfl | rfl | rfl <;> rcases hg with rfl | rfl | rfl <;> rfl

theorem actionType_fold_eq (ms : List (String × JSON)) (st : String × Option Error) :
    ms.foldl (fun st kv =>
      match findField ["action_type"] kv.1 with
      | none => st
      | some _ =>
        let r := decodeString kv.2 st.1
        (r.1, saveError st.2 r.2)) st =
    ms.foldl (decodeWith ["action_type"] (fun d _ => d) (fun _ _ s => s)) st := rfl

/-- The action type that `ProcessAndRespondAsync` decodes from an object is the
one that its members give, unless a member named `action_type` does not fit. -/
theorem unmarshalActionType_obj (ms : List (String × JSON)) (rest : FileContent)
    (h : rest.onlyValue = some (.obj ms)) :
    (membersFit ["action_type"] ms = true →
      unmarshalActionType rest = (memberValue ["action_type"] ms "action_type", none)) ∧
    (membersFit ["action_type"] ms = false → (unmarshalActionType rest).2.isSome) := by
  unfold unmarshalActionType
  rw [h]
  simp only [actionType_fold_eq]
  constructor
  · intro hfit
    obtain ⟨d, hd, hg⟩ := foldl_decodeWith_fit ["action_type"] (fun (d : String) _ => d)
      (fun _ _ s => s) (fun d f g s hf hg => by
        simp only [List.mem_singleton] at hf hg
        rw [hf, hg, if_pos rfl]) ms "" hfit
    rw [hd, hg "action_type" (List.mem_singleton_self _)]
    rfl
  · intro hfit
    exact foldl_decodeWith_unfit _ _ _ ms _ hfit

/-- The job that `ProcessAndRespondAsync` decodes from an object is the one that
its members describe, unless a member named after a field does not fit. -/
theorem unmarshalJobData_obj (ms : List (String × JSON)) (message : FileContent)
    (h : message.onlyValue = some (.obj ms)) :
    (membersFit jobDataFields ms = true →
      unmarshalJobData message = (jobOfMembers ms, none)) ∧
    (membersFit jobDataFields ms = false → (unmarshalJobData message).2.isSome) := by
  unfold unmarshalJobData
  rw [h]
  simp only [decodeJobData, decodeJobDataMember_eq]
  constructor
  · intro hfit
    obtain ⟨d, hd, hg⟩ := foldl_decodeWith_fit jobDataFields JobData.getField JobData.setField
      jobData_law ms {} hfit
    rw [hd]
    have e : d = jobOfMembers ms := by
      have h1 := hg "command" (by decide)
      have h2 := hg "vbuser_id" (by decide)
      have h3 := hg "frequency" (by decide)
      have h4 := hg "locked" (by decide)
      have h5 := hg "required_software" (by decide)
      have h6 := hg "name" (by decide)
      have h7 := hg "require_output" (by decide)
      have h8 := hg "type" (by decide)
      obtain ⟨a1, a2, a3, a4, a5, a6, a7, a8⟩ := d
      change a1 = _ at h1
      change a2 = _ at h2
      change a3 = _ at h3
      change a4 = _ at h4
      change a5 = _ at h5
      change a6 = _ at h6
      change a7 = _ at h7
      change a8 = _ at h8
      subst h1 h2 h3 h4 h5 h6 h7 h8
      rfl
    rw [e]
  · intro hfit
    exact foldl_decodeWith_unfit _ _ _ ms _ hfit

/-- The queue that `ProcessAndRespondAsync` decodes from an object is the one
that its members describe, unless a member named after a field does not fit. -/
theorem unmarshalQueueData_obj (ms : List (String × JSON)) (message : FileContent)
    (h : message.onlyValue = some (.obj ms)) :
    (membersFit queueDataFields ms = true →
      unmarshalQueueData message = (queueOfMembers ms, none)) ∧
    (membersFit queueDataFields ms = false → (unmarshalQueueData message).2.isSome) := by
  unfold unmarshalQueueData
  rw [h]
  have hfold : ∀ st, ms.foldl decodeQueueDataMember st =
      ms.foldl (decodeWith queueDataFields QueueData.getField QueueData.setField) st := by
    intro st
    congr 1
    funext st kv
    exact decodeQueueDataMember_eq st kv
  simp only [hfold]
  constructor
  · intro hfit
    obtain ⟨d, hd, hg⟩ := foldl_decodeWith_fit queueDataFields QueueData.getField
      QueueData.setField queueData_law ms {} hfit
    rw [hd]
    have e : d = queueOfMembers ms := by
      have h1 := hg "name" (by decide)
      have h2 := hg "jobs" (by decide)
      have h3 := hg "locked" (by decide)
      obtain ⟨a1, a2, a3⟩ := d
      change a1 = _ at h1
      change a2 = _ at h2
      change a3 = _ at h3
      subst h1 h2 h3
      rfl
    rw [e]
  · intro hfit
    exact foldl_decodeWith_unfit _ _ _ ms _ hfit

/-- Claim C23.  Inbound message routing.  For every inbound message,
`ProcessAndRespondAsync` does what the text of the message says: it hands the
message to `JobEvent` exactly when the message is one JSON object whose
`action_type` is the string `job` and whose members decode as a job, and then
with the job that the members describe (every field the last string given to
it, empty when none is given); it hands it to `QueueEvent` exactly when the
`action_type` is `queue` and the members decode as a queue, with the queue that
the members describe; and in every other case it leaves the world as it was: no
store change, no call, no outbound message.  The other cases are: a message
that is not a single JSON value or not an object, an object without
`action_type` or with another action type, an object with a member
`action_type` that is neither a string nor `null`, and a job or queue object
one of whose fields has a value that is neither a string nor `null`. -/
theorem C23_inbound_message_routing (env : Env) (message : FileContent) (w : World) :
    ProcessAndRespondAsync env message w =
      (match routeOf message with
       | .job data => JobEvent env data w
       | .queue data => QueueEvent env data w
       | .dropped => w) ∧
    (∀ data, routeOf message = .job data ↔
      ∃ ms, message.onlyValue = some (.obj ms) ∧ membersFit ["action_type"] ms = true ∧
        memberValue ["action_type"] ms "action_type" = "job" ∧
        membersFit jobDataFields ms = true ∧ data = jobOfMembers ms) ∧
    (∀ data, routeOf message = .queue data ↔
      ∃ ms, message.onlyValue = some (.obj ms) ∧ membersFit ["action_type"] ms = true ∧
        memberValue ["action_type"] ms "action_type" = "queue" ∧
        membersFit queueDataFields ms = true ∧ data = queueOfMembers ms) := by
  refine ⟨?_, ?_, ?_⟩
  · unfold routeOf ProcessAndRespondAsync
    cases hv : message.onlyValue with
    | none => simp [unmarshalActionType, hv]
    | some v =>
      cases v with
      | null => simp [unmarshalActionType, hv]
      | bool b => simp [unmarshalActionType, hv]
      | num n => simp [unmarshalActionType, hv]
      | str s => simp [unmarshalActionType, hv]
      | arr xs => simp [unmarshalActionType, hv]
      | obj ms =>
        obtain ⟨ha1, ha2⟩ := unmarshalActionType_obj ms message hv
        obtain ⟨hj1, hj2⟩ := unmarshalJobData_obj ms message hv
        obtain ⟨hq1, hq2⟩ := unmarshalQueueData_obj ms message hv
        dsimp only
        cases hfa : membersFit ["action_type"] ms with
        | false =>
          obtain ⟨e, he⟩ := Option.isSome_iff_exists.mp (ha2 hfa)
          simp [he]
        | true =>
          rw [ha1 hfa]
          simp only [if_true]
          by_cases hjob : memberValue ["action_type"] ms "action_type" = "job"
          · simp only [hjob, if_true]
            cases hfj : membersFit jobDataFields ms with
            | false =>
              obtain ⟨e, he⟩ := Option.isSome_iff_exists.mp (hj2 hfj)
              simp [he]
            | true => simp [hj1 hfj]
          · simp only [hjob, if_false]
            by_cases hqueue : memberValue ["action_type"] ms "action_type" = "queue"
            · simp only [hqueue, if_true]
              cases hfq : membersFit queueDataFields ms with
              | false =>
                obtain ⟨e, he⟩ := Option.isSome_iff_exists.mp (hq2 hfq)
                simp [he]
              | true => simp [hq1 hfq]
            · simp only [hqueue, if_false]
  · intro data
    unfold routeOf
    constructor
    · intro h
      split at h
      · rename_i ms hv
        refine ⟨ms, hv, ?_⟩
        split_ifs at h with h1 h2 h3 h4 h5
        · exact ⟨h1, h2, h3, (Route.job.inj h).symm⟩
      · cases h
    · rintro ⟨ms, hv, h1, h2, h3, rfl⟩
      rw [hv]
      simp [h1, h2, h3]
  · intro data
    unfold routeOf
    constructor
    · intro h
      split at h
      · rename_i ms hv
        refine ⟨ms, hv, ?_⟩
        split_ifs at h with h1 h2 h3 h4 h5
        · exact ⟨h1, h4, h5, (Route.queue.inj h).symm⟩
      · cases h
    · rintro ⟨ms, hv, h1, h2, h3, rfl⟩
      rw [hv]
      have hne : ¬ memberValue ["action_type"] ms "action_type" = "job" := by
        rw [h2]
        decide
      simp [h1, h2, h3]

/-- The message of the ping scenario is handed to `JobEvent` as the job `ping`;
a message with another action type, a message that is not JSON, and a job
message whose name is a number are dropped. -/
theorem ProcessAndRespondAsync_samples :
    ProcessAndRespondAsync hiEnv pingDocument connectedWorld =
      JobEvent hiEnv pingMessage connectedWorld ∧
    ProcessAndRespondAsync hiEnv
      (.document (.obj [("action_type", .str "reboot"), ("name", .str "ping")]))
      connectedWorld = connectedWorld ∧
    ProcessAndRespondAsync hiEnv (.raw "ping") connectedWorld = connectedWorld ∧
    ProcessAndRespondAsync hiEnv
      (.document (.obj [("action_type", .str "job"), ("name", .num "5"),
        ("locked", .str "false")])) connectedWorld = connectedWorld ∧
    routeOf (.document (.obj [("name", .str "ping"), ("Action_Type", .str "queue"),
      ("locked", .null), ("action_type", .str "job"), ("name", .str "pong")])) =
      .job { Name := "pong" } ∧
    routeOf (.leading (.obj [("action_type", .str "job")]) "x") = .dropped :=
  ⟨by rfl, by rfl, by rfl, by rfl, by decide, by decide⟩

/-! ## Claims on upserts -/


theorem WriteMessage_cfg (env : Env) (msg : JSON) (w : World) :
    (WriteMessage env msg w).1.cfg = w.cfg := by
  unfold WriteMessage
  split <;> rfl

theorem onlyCalls_cfg {kinds : List EffectKind} {w w' : World} (h : OnlyCalls kinds w w') :
    w'.cfg = w.cfg := by
  obtain ⟨t, ht, -⟩ := h
  rw [ht]

/-- The store that `JobEvent` leaves for an unlocked message is the one left by
its upserts, whatever the command and the push channel do. -/
theorem JobEvent_cfg (env : Env) (data : JobData) (w : World)
    (hlocked : data.Locked = "false") :
    ∃ w1 : World, w1.cfg = w.cfg ∧
      (JobEvent env data w).cfg =
        (if data.Frequency = EveryBoot ∧ data.Command ≠ "" then
          upsertJob data.Name (ConvertJobDataToMap data)
            (upsertJob data.Name (ConvertJobDataToMap data) w1)
         else upsertJob data.Name (ConvertJobDataToMap data) w1).cfg := by
  refine ⟨if data.RequiredSoftware ≠ "None" then
    downloadRequiredSoftware env (SplitComma data.RequiredSoftware) w else w, ?_, ?_⟩
  · split
    · exact onlyCalls_cfg (downloadRequiredSoftware_calls env _ w)
    · rfl
  · unfold JobEvent
    simp only [hlocked, ne_eq, not_true_eq_false, if_false]
    generalize (if ¬data.RequiredSoftware = "None" then
      downloadRequiredSoftware env (SplitComma data.RequiredSoftware) w else w) = w1
    generalize (if data.Frequency = EveryBoot ∧ ¬data.Command = "" then
      upsertJob data.Name (ConvertJobDataToMap data)
        (upsertJob data.Name (ConvertJobDataToMap data) w1)
      else upsertJob data.Name (ConvertJobDataToMap data) w1) = w2
    have hp : (processJob env data (ScheduleJob data.Frequency
        { Name := data.Name, Command := data.Command, RequireOutput := data.RequireOutput }
        w2)).1.cfg = w2.cfg := by
      rw [onlyCalls_cfg (processJob_calls env data _), onlyCalls_cfg (ScheduleJob_calls _ _ _)]
    split
    · exact hp
    · split
      · exact hp
      · rw [WriteMessage_cfg, hp]

/-- The upsert of a received job over a stored record keeps the record's name
and replaces every other field by the message's value. -/
theorem upsertJob_present (data : JobData) (w : World) (j0 : Job)
    (hstored : w.cfg.Jobs.lookup data.Name = some j0) :
    (upsertJob data.Name (ConvertJobDataToMap data) w).cfg.Jobs.lookup data.Name =
      some { Name := j0.Name, Command := data.Command, Frequency := data.Frequency,
             Locked := data.Locked, RequireOutput := data.RequireOutput,
             RequiredSoftware := data.RequiredSoftware, JobType := data.JobType,
             VbuserID := data.VbuserID } := by
  unfold upsertJob
  simp only [GetData, hstored, if_true, UpdateData, ConvertJobDataToMap_ne_empty, if_false,
    save_cfg]
  rw [Job_merge_ConvertJobDataToMap]
  exact Finmap.lookup_insert _

theorem decodeJobData_absent (ms : List (String × JSON)) (f : String)
    (habs : ∀ kv ∈ ms, findField jobDataFields kv.1 ≠ some f) (st : JobData × Option Error) :
    (ms.foldl decodeJobDataMember st).1.getField f = st.1.getField f := by
  induction ms generalizing st with
  | nil => rfl
  | cons kv ms ih =>
    rw [List.foldl_cons, ih (fun kv hkv => habs kv (List.mem_cons_of_mem _ hkv))]
    unfold decodeJobDataMember
    have h := habs kv (List.mem_cons_self _ _)
    split
    · rfl
    · rename_i g hg
      exact getField_setField_ne _ _ _ _ (fun hgf => h (by rw [hg, hgf]))

/-- Claim C24 as stated fails: after the message `ping` with command `echo hi`
and frequency `once` has been stored, a second unlocked message for `ping`
that gives only the name and the lock leaves the record with an empty command,
an empty frequency and an empty require_output. -/
theorem C24_counterexample :
    (unmarshalJobData bareDocument).1 = { Name := "ping", Locked := "false" } ∧
    (ProcessAndRespondAsync hiEnv pingDocument connectedWorld).cfg.Jobs.lookup "ping" =
      some (Job.mk "ping" "echo hi" "once" "false" "true" "none" "" "") ∧
    (ProcessAndRespondAsync hiEnv bareDocument
      (ProcessAndRespondAsync hiEnv pingDocument connectedWorld)).cfg.Jobs.lookup "ping" =
      some (Job.mk "ping" "" "" "false" "" "" "" "") :=
  ⟨by decide, by decide, by decide⟩

/-- Claim C24, amended.  For every stored job record and every unlocked job
message with the same name, after `JobEvent` the stored record keeps its name
and holds the message's value in each of the fields command, frequency, locked,
require_output, required_software, job type and vbuser_id; and a field for
which the message has no member is decoded as the empty string, so that the
previous value of an omitted field is replaced by the empty string. -/
theorem C24_received_job_replaces_fields (env : Env) (data : JobData) (w : World) (j0 : Job)
    (hlocked : data.Locked = "false") (hstored : w.cfg.Jobs.lookup data.Name = some j0) :
    (JobEvent env data w).cfg.Jobs.lookup data.Name =
      some { Name := j0.Name, Command := data.Command, Frequency := data.Frequency,
             Locked := data.Locked, RequireOutput := data.RequireOutput,
             RequiredSoftware := data.RequiredSoftware, JobType := data.JobType,
             VbuserID := data.VbuserID } ∧
    ∀ (ms : List (String × JSON)) (f : String),
      (∀ kv ∈ ms, findField jobDataFields kv.1 ≠ some f) →
      (decodeJobData (.obj ms) {}).1.getField f = "" := by
  constructor
  · obtain ⟨w1, h1, h⟩ := JobEvent_cfg env data w hlocked
    rw [h]
    have hs1 : w1.cfg.Jobs.lookup data.Name = some j0 := by rw [h1, hstored]
    have hu := upsertJob_present data w1 j0 hs1
    split
    · exact upsertJob_present data _ (Job.mk j0.Name data.Command data.Frequency data.Locked
        data.RequireOutput data.RequiredSoftware data.JobType data.VbuserID) hu
    · exact hu
  · intro ms f habs
    show (ms.foldl decodeJobDataMember ({}, none)).1.getField f = ""
    rw [decodeJobData_absent ms f habs]
    unfold JobData.getField
    split_ifs <;> rfl

/-- An instance of claim C24: the record `ping` after a second message that
carries the name and the lock alone. -/
theorem C24_received_job_replaces_fields_witness :
    (JobEvent hiEnv { Name := "ping", Locked := "false" }
      (JobEvent hiEnv pingMessage connectedWorld)).cfg.Jobs.lookup "ping" =
      some (Job.mk "ping" "" "" "false" "" "" "" "") :=
  (C24_received_job_replaces_fields hiEnv { Name := "ping", Locked := "false" }
    (JobEvent hiEnv pingMessage connectedWorld)
    (Job.mk "ping" "echo hi" "once" "false" "true" "none" "" "") rfl (by decide)).1

theorem UpdateData_job_absent (n : String) (m : FieldMap) (w : World)
    (h : w.cfg.Jobs.lookup n = none) : UpdateData "job" n m w = w := by
  unfold UpdateData
  split
  · rfl
  · simp only [if_true, h]

theorem CreateData_eq_UpdateData (w : World) (m : FieldMap) (v : Any) (n : String) (j0 : Job)
    (hname : m.lookup "name" = some v) (hv : Sprint v = n) (hne : n ≠ "") (hnil : n ≠ "<nil>")
    (hstored : w.cfg.Jobs.lookup n = some j0) (hj : j0.Name = n) :
    CreateData "job" m w = UpdateData "job" n m w := by
  have hm : m ≠ ∅ := by
    intro h
    rw [h, Finmap.lookup_empty] at hname
    exact absurd hname (by simp)
  have heta : ({ j0 with Name := n } : Job) = j0 := by
    cases j0
    cases hj
    rfl
  subst hv
  simp only [CreateData, UpdateData, hm, if_false, if_true, hname, hne, hnil, or_self, hstored,
    Option.getD_some, heta]

theorem upsertJob_eq_CreateData (w : World) (m : FieldMap) (v : Any) (n : String)
    (hname : m.lookup "name" = some v) (hv : Sprint v = n)
    (hwell : ∀ j0, w.cfg.Jobs.lookup n = some j0 → j0.Name = n ∧ n ≠ "" ∧ n ≠ "<nil>") :
    upsertJob n m w = CreateData "job" m w := by
  unfold upsertJob
  cases hl : w.cfg.Jobs.lookup n with
  | none => simp only [GetData, hl, if_true]
  | some j0 =>
    obtain ⟨hj, hne, hnil⟩ := hwell j0 hl
    simp only [GetData, hl, if_true]
    exact (CreateData_eq_UpdateData w m v n j0 hname hv hne hnil hl hj).symm

theorem CreateData_wellNamed (data : JobData) (w : World) (hw : WellNamed w) :
    WellNamed (CreateData "job" (ConvertJobDataToMap data) w) := by
  by_cases hvalid : data.Name = "" ∨ data.Name = "<nil>"
  · have : CreateData "job" (ConvertJobDataToMap data) w = w := by
      simp only [CreateData, ConvertJobDataToMap_ne_empty, if_false, if_true,
        (ConvertJobDataToMap_lookup data).1, Sprint, hvalid]
    rw [this]
    exact hw
  · rw [not_or] at hvalid
    intro k j hk
    rw [CreateData_job_cfg w _ (.str data.Name) data.Name (ConvertJobDataToMap_lookup data).1 rfl
      hvalid.1 hvalid.2] at hk
    by_cases hkn : k = data.Name
    · subst hkn
      rw [Finmap.lookup_insert] at hk
      cases hk
      exact ⟨rfl, hvalid.1, hvalid.2⟩
    · rw [Finmap.lookup_insert_of_ne _ hkn] at hk
      exact hw k j hk

theorem UpdateJobs_eq_CreateData (jobList : List JobData) (w : World) (hw : WellNamed w) :
    UpdateJobs jobList w =
      jobList.foldl (fun w job => CreateData "job" (ConvertJobDataToMap job) w) w := by
  induction jobList generalizing w with
  | nil => rfl
  | cons job rest ih =>
    have h := upsertJob_eq_CreateData w (ConvertJobDataToMap job) (.str job.Name) job.Name
      (ConvertJobDataToMap_lookup job).1 rfl (fun j0 hj0 => hw _ j0 hj0)
    rw [UpdateJobs, List.foldl_cons, h]
    exact ih _ (CreateData_wellNamed job w hw)

/-- Claim C30 as stated fails: in a store whose record under the key `a` carries
the name `b`, `CreateData` rewrites the record's name to `a` while `UpdateData`
leaves it `b`, so the two calls give different stores. -/
theorem C30_counterexample :
    misnamedWorld.cfg.Jobs.lookup "a" = some { Name := "b", Command := "ls" } ∧
    (CreateData "job" (GoMap.ofList [("name", .str "a"), ("command", .str "pwd")])
      misnamedWorld).cfg.Jobs.lookup "a" = some { Name := "a", Command := "pwd" } ∧
    (UpdateData "job" "a" (GoMap.ofList [("name", .str "a"), ("command", .str "pwd")])
      misnamedWorld).cfg.Jobs.lookup "a" = some { Name := "b", Command := "pwd" } ∧
    CreateData "job" (GoMap.ofList [("name", .str "a"), ("command", .str "pwd")]) misnamedWorld ≠
      UpdateData "job" "a" (GoMap.ofList [("name", .str "a"), ("command", .str "pwd")])
        misnamedWorld :=
  ⟨by decide, by decide, by decide, fun h =>
    absurd (congrArg (fun w : World => (w.cfg.Jobs.lookup "a").map Job.Name) h) (by decide)⟩

/-- Claim C30, amended.  For a field map `m` whose name has the string form `n`,
neither empty nor `<nil>`: if the store holds under `n` a record that carries
the name `n`, `CreateData` and `UpdateData` give the same world; if it holds
no record under `n`, `UpdateData` changes nothing and `CreateData` stores the
record built from `m`; so the create-or-update step of `JobEvent` is one
`CreateData` whenever the record under `n`, if there is one, carries the name
`n`, and `UpdateJobs` is one `CreateData` per job on every store whose records
are all stored under their own names. -/
theorem C30_create_and_update_agree (w : World) (m : FieldMap) (v : Any) (n : String)
    (hname : m.lookup "name" = some v) (hv : Sprint v = n) (hne : n ≠ "") (hnil : n ≠ "<nil>") :
    (∀ j0, w.cfg.Jobs.lookup n = some j0 → j0.Name = n →
      CreateData "job" m w = UpdateData "job" n m w) ∧
    (w.cfg.Jobs.lookup n = none →
      UpdateData "job" n m w = w ∧
      (CreateData "job" m w).cfg.Jobs.lookup n = some (Job.merge { Name := n } m)) ∧
    ((∀ j0, w.cfg.Jobs.lookup n = some j0 → j0.Name = n) →
      upsertJob n m w = CreateData "job" m w) ∧
    (∀ jobList : List JobData, WellNamed w →
      UpdateJobs jobList w =
        jobList.foldl (fun w job => CreateData "job" (ConvertJobDataToMap job) w) w) := by
  refine ⟨?_, ?_, ?_, ?_⟩
  · intro j0 hstored hj
    exact CreateData_eq_UpdateData w m v n j0 hname hv hne hnil hstored hj
  · intro habs
    refine ⟨UpdateData_job_absent n m w habs, ?_⟩
    rw [CreateData_job_cfg w m v n hname hv hne hnil, habs]
    exact Finmap.lookup_insert _
  · intro hwell
    exact upsertJob_eq_CreateData w m v n hname hv (fun j0 hj0 => ⟨hwell j0 hj0, hne, hnil⟩)
  · intro jobList hw
    exact UpdateJobs_eq_CreateData jobList w hw

/-- An instance of claim C30: the job `ping`, once stored, is written the same
by `CreateData` and by `UpdateData`. -/
theorem C30_create_and_update_agree_witness :
    CreateData "job" (ConvertJobDataToMap pingMessage) (JobEvent hiEnv pingMessage connectedWorld) =
      UpdateData "job" "ping" (ConvertJobDataToMap pingMessage)
        (JobEvent hiEnv pingMessage connectedWorld) :=
  (C30_create_and_update_agree (JobEvent hiEnv pingMessage connectedWorld)
    (ConvertJobDataToMap pingMessage) (.str "ping") "ping" (by decide) rfl (by decide)
    (by decide)).1 (Job.mk "ping" "echo hi" "once" "false" "true" "none" "" "") (by decide) rfl

end Udpu
